import Mathlib

/-!
# Timed task scheduler: `main.cpp` and `task_scheduler.cpp`

A shallow embedding of the two C++ translation units of the repository and
the properties of them that the specification states.

Modelling conventions.

* `time_t` values are mathematical integers (`Int`); vector indices are natural
  numbers.  The counters `taskCount` and `completedTasks` have the type `int`:
  an increment is taken modulo 2^32 (`int32`), which is what the compiled
  increment leaves at `INT_MAX`.  The time point that
  `chrono::system_clock::from_time_t` returns counts nanoseconds in 64 bits
  (`from_time_t`), as in libstdc++.
* `std::vector<Task>` is a `List Task`; an access `heap[i]` is `heap[i]!`.
* `std::function<void()>` is opaque to the scheduler.  What the worker can
  observe of a call `task.func()` is whether it returns, throws an object
  derived from `std::exception`, or throws an object of another type; a
  `Func` records that outcome together with a label identifying the action.
* An operation that can throw returns its result together with the object
  state it leaves behind.
* Every region executed under `mtx` is one atomic step.  Between
  `lock.unlock()` and `lock.lock()` in `workerThread` other steps can take
  place.
* The test of `while (running)` and the test of the timestamp in `Add` are made
  without the lock.  The events `enter` and `body` of a run separate the test
  of the worker from the loop body that follows it, and the events `addTest`
  and `addInsert` separate the test of `Add` from the insertion; the events
  `iterate` and `add` are the cases in which nothing happens in between.
* The clock read by `time(nullptr)` advances (`tick`) or is set to any value
  (`setClock`).
* `std::priority_queue` is a parameter of the embedding of
  `task_scheduler.cpp`, together with the contract of the members the scheduler
  calls.
-/

set_option autoImplicit false

namespace TimedScheduler

/-! ## Exceptions -/

/-- The exceptions thrown by the code of the repository. -/
inductive Error where
  /-- The `runtime_error("Heap is empty")` of `BinaryHeap::pop`. -/
  | heapIsEmpty
  /-- The `invalid_argument("Timestamp cannot be in the past.")` of `Add`. -/
  | timestampInPast
deriving DecidableEq, Repr

/-! ## `class Task` -/

/-- What a call of a `function<void()>` does, as seen by its caller. -/
inductive Outcome where
  /-- The call returns. -/
  | returns
  /-- The call throws an object whose type derives from `std::exception`. -/
  | throwsException
  /-- The call throws an object of a type not derived from `std::exception`. -/
  | throwsOther
deriving DecidableEq, Repr, Inhabited

/-- A `function<void()>`: a label naming the action and what calling it does. -/
structure Func where
  label : Nat
  outcome : Outcome
deriving DecidableEq, Repr, Inhabited

/-- The class `Task` (the same in both files). -/
structure Task where
  func : Func
  timestamp : Int
deriving DecidableEq, Repr, Inhabited

namespace Task

/-- The member `operator>`. -/
def gt (a other : Task) : Bool := decide (a.timestamp > other.timestamp)

/-- The member `operator<` (only in `main.cpp`). -/
def lt (a other : Task) : Bool := decide (a.timestamp < other.timestamp)

end Task

/-! ## `class BinaryHeap` (`main.cpp`) -/

/-- The class `BinaryHeap`: its only data member is `vector<Task> heap`. -/
structure BinaryHeap where
  heap : List Task
deriving DecidableEq, Repr

namespace BinaryHeap

/-- The call `swap(heap[i], heap[j])`. -/
def swap (heap : List Task) (i j : Nat) : List Task :=
  (heap.set i heap[j]!).set j heap[i]!

/-- The loop of `siftUp`; the first argument bounds the number of iterations.
Every iteration replaces `index` by `(index - 1) / 2 < index`. -/
def siftUpLoop : Nat → List Task → Nat → List Task
  | 0, heap, _ => heap
  | fuel + 1, heap, index =>
    if index > 0 then
      let parent := (index - 1) / 2
      if heap[index]!.gt heap[parent]! then heap
      else siftUpLoop fuel (swap heap index parent) parent
    else heap

/-- The member `siftUp`: at most `index` iterations are possible. -/
def siftUp (heap : List Task) (index : Nat) : List Task :=
  siftUpLoop index heap index

/-- The loop of `siftDown`; the first argument bounds the number of
iterations.  Every iteration but the last replaces `index` by one of its
children, which is below `size`. -/
def siftDownLoop : Nat → List Task → Nat → List Task
  | 0, heap, _ => heap
  | fuel + 1, heap, index =>
    let size := heap.length
    if index < size then
      let left := 2 * index + 1
      let right := 2 * index + 2
      let smallest := index
      let smallest := if left < size && heap[left]!.lt heap[smallest]! then left else smallest
      let smallest := if right < size && heap[right]!.lt heap[smallest]! then right else smallest
      if smallest = index then heap
      else siftDownLoop fuel (swap heap index smallest) smallest
    else heap

/-- The member `siftDown`: at most `size` iterations are possible. -/
def siftDown (heap : List Task) (index : Nat) : List Task :=
  siftDownLoop heap.length heap index

/-- The member `push`. -/
def push (h : BinaryHeap) (task : Task) : BinaryHeap :=
  let heap := h.heap ++ [task]
  ⟨siftUp heap (heap.length - 1)⟩

/-- The member `pop`: the returned task or the exception thrown, and the heap
left behind. -/
def pop (h : BinaryHeap) : Except Error Task × BinaryHeap :=
  if h.heap.isEmpty then (.error .heapIsEmpty, h)
  else
    let top := h.heap[0]!
    let heap := h.heap.set 0 (h.heap.getLast?.getD default)
    let heap := heap.dropLast
    let heap := if !heap.isEmpty then siftDown heap 0 else heap
    (.ok top, ⟨heap⟩)

/-- The member `empty`. -/
def empty (h : BinaryHeap) : Bool := h.heap.isEmpty

/-- The member `size`. -/
def size (h : BinaryHeap) : Nat := h.heap.length

end BinaryHeap

/-! ## The heap operations with every vector access checked

The same members again, with each access to `heap` made through `read`, which
fails when the index is not below the size (undefined behaviour in C++), and
with loops that fail when they have not ended within the iterations allowed. -/

/-- What can go wrong in the checked operations. -/
inductive Fault where
  /-- An element of the vector is accessed at an index that is not below the
  size, or `back` or `pop_back` is called on an empty vector. -/
  | outOfBounds
  /-- A loop has not ended within the number of iterations allowed. -/
  | outOfFuel
deriving DecidableEq, Repr

namespace BinaryHeap

/-- The access `heap[i]`. -/
def read (heap : List Task) (i : Nat) : Except Fault Task :=
  if i < heap.length then .ok heap[i]! else .error .outOfBounds

/-- The comparison `heap[i] < heap[j]`: both elements are read. -/
def ltChecked (heap : List Task) (i j : Nat) : Except Fault Bool :=
  match read heap i, read heap j with
  | .ok a, .ok b => .ok (a.lt b)
  | _, _ => .error .outOfBounds

/-- The call `swap(heap[i], heap[j])`: both elements are read and written. -/
def swapChecked (heap : List Task) (i j : Nat) : Except Fault (List Task) :=
  match read heap i, read heap j with
  | .ok a, .ok b => .ok ((heap.set i b).set j a)
  | _, _ => .error .outOfBounds

/-- The member `siftUp`, allowed `fuel` iterations. -/
def siftUpChecked : Nat → List Task → Nat → Except Fault (List Task)
  | 0, heap, index => if index > 0 then .error .outOfFuel else .ok heap
  | fuel + 1, heap, index =>
    if index > 0 then
      let parent := (index - 1) / 2
      match read heap index, read heap parent with
      | .ok c, .ok p =>
        if c.gt p then .ok heap
        else
          match swapChecked heap index parent with
          | .ok heap1 => siftUpChecked fuel heap1 parent
          | .error f => .error f
      | _, _ => .error .outOfBounds
    else .ok heap

/-- The member `siftDown`, allowed `fuel` iterations.  The right operand of
`&&` is evaluated only when the left operand holds. -/
def siftDownChecked : Nat → List Task → Nat → Except Fault (List Task)
  | 0, heap, index => if index < heap.length then .error .outOfFuel else .ok heap
  | fuel + 1, heap, index =>
    let size := heap.length
    if index < size then
      let left := 2 * index + 1
      let right := 2 * index + 2
      let smallest := index
      match (if left < size then ltChecked heap left smallest else .ok false) with
      | .error f => .error f
      | .ok b1 =>
        let smallest := if b1 then left else smallest
        match (if right < size then ltChecked heap right smallest else .ok false) with
        | .error f => .error f
        | .ok b2 =>
          let smallest := if b2 then right else smallest
          if smallest = index then .ok heap
          else
            match swapChecked heap index smallest with
            | .ok heap1 => siftDownChecked fuel heap1 smallest
            | .error f => .error f
    else .ok heap

/-- The member `push`: `siftUp` is called with the last index of the grown
vector and allowed that many iterations. -/
def pushChecked (h : BinaryHeap) (task : Task) : Except Fault BinaryHeap :=
  let heap := h.heap ++ [task]
  match siftUpChecked (heap.length - 1) heap (heap.length - 1) with
  | .ok heap1 => .ok ⟨heap1⟩
  | .error f => .error f

/-- The member `pop`: `heap[0]` and `heap.back()` are read, `heap[0]` is
written, `pop_back` is called, and `siftDown(0)` is called on a non-empty
vector and allowed as many iterations as the vector has elements. -/
def popChecked (h : BinaryHeap) : Except Fault (Except Error Task × BinaryHeap) :=
  if h.heap.isEmpty then .ok (.error .heapIsEmpty, h)
  else
    match read h.heap 0, read h.heap (h.heap.length - 1) with
    | .ok top, .ok back =>
      let heap := h.heap.set 0 back
      if heap.isEmpty then .error .outOfBounds
      else
        let heap := heap.dropLast
        if !heap.isEmpty then
          match siftDownChecked heap.length heap 0 with
          | .ok heap1 => .ok (.ok top, ⟨heap1⟩)
          | .error f => .error f
        else .ok (.ok top, ⟨heap⟩)
    | _, _ => .error .outOfBounds

end BinaryHeap

/-- The heap-order predicate: every element other than the root has a timestamp
that is at least the timestamp of its parent. -/
def heapOrder (heap : List Task) : Prop :=
  ∀ i, i < heap.length → i > 0 → heap[i]!.timestamp ≥ heap[(i - 1) / 2]!.timestamp

instance (heap : List Task) : Decidable (heapOrder heap) :=
  Nat.decidableBallLT heap.length
    (fun i _ => i > 0 → heap[i]!.timestamp ≥ heap[(i - 1) / 2]!.timestamp)

/-- The loop invariant of `siftUp` at `index = k`: the heap order holds at every
element other than `k`, and the children of `k` are not below the parent of `k`. -/
def upInv (heap : List Task) (k : Nat) : Prop :=
  k < heap.length ∧
  (∀ i, i < heap.length → i > 0 → i ≠ k →
    heap[i]!.timestamp ≥ heap[(i - 1) / 2]!.timestamp) ∧
  (∀ i, i < heap.length → i > 0 → (i - 1) / 2 = k → k > 0 →
    heap[i]!.timestamp ≥ heap[(k - 1) / 2]!.timestamp)

/-- The loop invariant of `siftDown` at `index = k`: the heap order holds at
every element whose parent is not `k`, and the children of `k` are not below the
parent of `k`. -/
def downInv (heap : List Task) (k : Nat) : Prop :=
  (∀ i, i < heap.length → i > 0 → (i - 1) / 2 ≠ k →
    heap[i]!.timestamp ≥ heap[(i - 1) / 2]!.timestamp) ∧
  (∀ i, i < heap.length → i > 0 → (i - 1) / 2 = k → k > 0 →
    heap[i]!.timestamp ≥ heap[(k - 1) / 2]!.timestamp)

/-- The heaps that a program can build: the default-constructed heap and
whatever `push` and `pop` make of it. -/
inductive Reachable : BinaryHeap → Prop where
  | empty : Reachable ⟨[]⟩
  | push (h : BinaryHeap) (task : Task) : Reachable h → Reachable (h.push task)
  | pop (h : BinaryHeap) : Reachable h → Reachable h.pop.2

/-! ## Machine integers -/

/-- The value of type `int` (32 bits, two's complement) that the integer `x`
wraps to. -/
def int32 (x : Int) : Int := (x + 2147483648) % 4294967296 - 2147483648

/-- The value of a signed type of 64 bits that the integer `x` wraps to. -/
def int64 (x : Int) : Int :=
  (x + 9223372036854775808) % 18446744073709551616 - 9223372036854775808

/-- The function `chrono::system_clock::from_time_t`: the time point for `t`
seconds, as the number of ticks of `system_clock::duration` since the epoch.
The tick is a nanosecond and the count has 64 bits (libstdc++), so the product
is taken in 64 bits. -/
def from_time_t (t : Int) : Int := int64 (t * 1000000000)

/-! ## `class TaskScheduler` (`main.cpp`) -/

/-- The state of the thread held in the member `thread worker`. -/
inductive Worker where
  /-- No thread: `worker` is not joinable. -/
  | absent
  /-- A thread that is about to test `while (running)`, possibly blocked in the
  `cv.wait` or `cv.wait_until` that ends the previous iteration. -/
  | ready
  /-- A thread that has found `running` true in the test `while (running)` and
  has not yet taken the lock of the loop body. -/
  | entered
  /-- A thread inside `task.func()`: the lock is released, the task has left
  the queue and `completedTasks++` is still to come. -/
  | calling (task : Task)
deriving DecidableEq, Repr

/-- How an iteration of the loop of `workerThread` gives up the lock. -/
inductive Step where
  /-- The test `while (running)` fails and the thread function returns. -/
  | exit
  /-- The branch `cv.wait(lock)`. -/
  | wait
  /-- The branch `lock.unlock(); task.func()`. -/
  | call (task : Task)
  /-- The branch `cv.wait_until(lock, deadline)`; the deadline is a time point
  of `system_clock`. -/
  | waitUntil (deadline : Int)
  /-- An exception leaves the thread function. -/
  | uncaught (e : Error)
deriving DecidableEq, Repr

/-- The number of tasks that have left the queue and are not yet counted in
`completedTasks`. -/
def Worker.inFlight : Worker → Nat
  | .calling _ => 1
  | _ => 0

/-- Whether the worker is inside an action. -/
def Worker.isCalling : Worker → Bool
  | .calling _ => true
  | _ => false

/-- Whether the worker is inside an action that throws an object of a type not
derived from `std::exception`. -/
def Worker.throwing : Worker → Bool
  | .calling task => decide (task.func.outcome = .throwsOther)
  | _ => false

namespace MainCpp

/-- The data members of `TaskScheduler` (the mutex and the condition variable
carry no data). -/
structure TaskScheduler where
  taskQueue : BinaryHeap
  running : Bool
  worker : Worker
  inputInProgress : Bool
  taskCount : Int
  completedTasks : Int
deriving DecidableEq, Repr

namespace TaskScheduler

/-- The constructor `TaskScheduler() : running(true), worker(...)` with the
default member initialisers. -/
def new : TaskScheduler :=
  { taskQueue := ⟨[]⟩, running := true, worker := .ready,
    inputInProgress := false, taskCount := 0, completedTasks := 0 }

/-- The loop body of `workerThread` from `unique_lock<mutex> lock(mtx)` to the
point where the lock is given up; `now` is what `time(nullptr)` returns. -/
def workerThreadBody (s : TaskScheduler) (now : Int) : Step × TaskScheduler :=
  if s.taskQueue.empty || s.inputInProgress then (.wait, s)
  else
    match s.taskQueue.pop with
    | (.error e, q) => (.uncaught e, { s with taskQueue := q })
    | (.ok task, q) =>
      if task.timestamp ≤ now then
        (.call task, { s with taskQueue := q, worker := .calling task })
      else
        (.waitUntil (from_time_t task.timestamp), { s with taskQueue := q.push task })

/-- One iteration of `while (running) { ... }` up to the point where the lock
is given up, when nothing happens between the test and the loop body. -/
def workerThreadIterate (s : TaskScheduler) (now : Int) : Step × TaskScheduler :=
  if s.running then workerThreadBody s now else (.exit, s)

/-- The rest of the iteration after `task.func()` was called: the handler
`catch (const exception& e)`, then `lock.lock(); completedTasks++`.  An
exception of another type leaves the thread function, which ends the process
(`none`). -/
def workerThreadComplete (s : TaskScheduler) (task : Task) : Option TaskScheduler :=
  match task.func.outcome with
  | .throwsOther => none
  | _ => some { s with completedTasks := int32 (s.completedTasks + 1), worker := .ready }

/-- The part of `Add` under `lock_guard<mutex> lock(mtx)`:
`taskQueue.push(Task(task, timestamp)); taskCount++`. -/
def AddLocked (s : TaskScheduler) (task : Func) (timestamp : Int) : TaskScheduler :=
  { s with taskQueue := s.taskQueue.push ⟨task, timestamp⟩,
           taskCount := int32 (s.taskCount + 1) }

/-- The member `Add` when nothing happens between its test and its insertion;
`now` is what `time(nullptr)` returns. -/
def Add (s : TaskScheduler) (now : Int) (task : Func) (timestamp : Int) :
    Except Error Unit × TaskScheduler :=
  if timestamp < now then (.error .timestampInPast, s)
  else (.ok (), s.AddLocked task timestamp)

/-- The member `Start`.  Assigning to a `thread` that is still joinable ends
the process (`none`). -/
def Start (s : TaskScheduler) : Option TaskScheduler :=
  if !s.running then
    match s.worker with
    | .absent => some { s with running := true, worker := .ready }
    | _ => none
  else some s

/-- The call `worker.join()` made by `Stop`, after `running = false` and
`cv.notify_all()`; `now` is what `time(nullptr)` returns to the worker.  A
worker at the head of its loop, or woken from its wait, fails the test
`while (running)` and returns.  A worker inside an action finishes it, counts
it, fails the test and returns.  A worker that passed the test before
`running` was written runs the loop body once more: it calls the due task,
counts it and returns; or it puts the task back and returns once
`cv.wait_until` has timed out; or it blocks in `cv.wait`, the notification
being past, and `join` does not return (`none`). -/
def join (s : TaskScheduler) (now : Int) : Option TaskScheduler :=
  match s.worker with
  | .absent => some s
  | .ready => some { s with worker := .absent }
  | .entered =>
    match s.workerThreadBody now with
    | (.call task, s1) =>
      (workerThreadComplete s1 task).map fun s2 => { s2 with worker := .absent }
    | (.waitUntil _, s1) => some { s1 with worker := .absent }
    | (.wait, _) => none
    | (.exit, _) => none
    | (.uncaught _, _) => none
  | .calling task => (workerThreadComplete s task).map fun s1 => { s1 with worker := .absent }

/-- The member `Stop`; `now` is what `time(nullptr)` returns to the worker. -/
def Stop (s : TaskScheduler) (now : Int) : Option TaskScheduler :=
  join { s with running := false } now

/-- The tasks whose action the worker calls while `Stop` waits in `join`. -/
def stopCalls (s : TaskScheduler) (now : Int) : List Task :=
  match s.worker with
  | .entered =>
    match ({ s with running := false } : TaskScheduler).workerThreadBody now with
    | (.call task, _) => [task]
    | _ => []
  | _ => []

/-- The predicate `completedTasks >= taskCount` that `WaitForCompletion`
waits for. -/
def completionPredicate (s : TaskScheduler) : Bool :=
  decide (s.completedTasks ≥ s.taskCount)

/-- The member `StartInput`. -/
def StartInput (s : TaskScheduler) : TaskScheduler :=
  { s with inputInProgress := true }

/-- The member `StopInput`. -/
def StopInput (s : TaskScheduler) : TaskScheduler :=
  { s with inputInProgress := false }

end TaskScheduler

/-- What happens in a run of a program that owns one scheduler. -/
inductive Event where
  /-- The clock read by `time(nullptr)` advances. -/
  | tick (seconds : Nat)
  /-- A producer calls `Add(task, timestamp)`, and nothing happens between the
  test of the timestamp and the insertion. -/
  | add (task : Func) (timestamp : Int)
  /-- A producer calls `Start()`. -/
  | start
  /-- A producer calls `Stop()`. -/
  | stop
  /-- A producer calls `StartInput()`. -/
  | startInput
  /-- A producer calls `StopInput()`. -/
  | stopInput
  /-- The worker runs an iteration of its loop up to the release of the lock,
  and nothing happens between the test `while (running)` and the loop body. -/
  | iterate
  /-- The action called by the worker ends and the worker takes the lock again. -/
  | complete
  /-- The clock read by `time(nullptr)` is set. -/
  | setClock (value : Int)
  /-- A producer enters `Add(task, timestamp)` and makes the test
  `timestamp < time(nullptr)`. -/
  | addTest (task : Func) (timestamp : Int)
  /-- A producer whose call of `Add` has passed the test takes the lock, inserts
  its task and counts it; `index` tells which of these producers. -/
  | addInsert (index : Nat)
  /-- The worker makes the test `while (running)`. -/
  | enter
  /-- The worker, past the test `while (running)`, takes the lock and runs the
  loop body up to the release of the lock. -/
  | body
deriving DecidableEq, Repr

/-- The events of a run in which every call of `Add` makes its test and its
insertion with nothing in between and the clock is never set. -/
def Event.timely : Event → Prop
  | .setClock _ => False
  | .addTest _ _ => False
  | .addInsert _ => False
  | _ => True

/-- A scheduler in its environment. -/
structure World where
  scheduler : TaskScheduler
  /-- What `time(nullptr)` returns. -/
  clock : Int
  /-- The tasks whose action the worker has called, oldest first. -/
  invoked : List Task
  /-- The tasks enqueued by the calls of `Add` that returned, oldest first. -/
  accepted : List Task
  /-- The tasks of the calls of `Add` that have passed the test of the
  timestamp and have not yet taken the lock. -/
  pending : List Task
deriving DecidableEq, Repr

namespace World

/-- A freshly constructed scheduler at clock value `clock`. -/
def start (clock : Int) : World :=
  { scheduler := TaskScheduler.new, clock := clock, invoked := [], accepted := [],
    pending := [] }

/-- The effect of one event; `none` when the event cannot happen in this state,
ends the process, or does not end. -/
def step (w : World) : Event → Option World
  | .tick seconds => some { w with clock := w.clock + seconds }
  | .add task timestamp =>
    match w.scheduler.Add w.clock task timestamp with
    | (.ok (), s) => some { w with scheduler := s, accepted := w.accepted ++ [⟨task, timestamp⟩] }
    | (.error _, s) => some { w with scheduler := s }
  | .start => (w.scheduler.Start).map fun s => { w with scheduler := s }
  | .stop =>
    (w.scheduler.Stop w.clock).map fun s =>
      { w with scheduler := s, invoked := w.invoked ++ w.scheduler.stopCalls w.clock }
  | .startInput => some { w with scheduler := w.scheduler.StartInput }
  | .stopInput => some { w with scheduler := w.scheduler.StopInput }
  | .iterate =>
    match w.scheduler.worker with
    | .ready =>
      match w.scheduler.workerThreadIterate w.clock with
      | (.call task, s) => some { w with scheduler := s, invoked := w.invoked ++ [task] }
      | (.wait, s) => some { w with scheduler := s }
      | (.waitUntil _, s) => some { w with scheduler := s }
      | (.exit, _) => none
      | (.uncaught _, _) => none
    | _ => none
  | .complete =>
    match w.scheduler.worker with
    | .calling task => (w.scheduler.workerThreadComplete task).map fun s => { w with scheduler := s }
    | _ => none
  | .setClock value => some { w with clock := value }
  | .addTest task timestamp =>
    match (w.scheduler.Add w.clock task timestamp).1 with
    | .ok () => some { w with pending := w.pending ++ [⟨task, timestamp⟩] }
    | .error _ => some w
  | .addInsert index =>
    match w.pending[index]? with
    | some t =>
      some { w with
        scheduler := w.scheduler.AddLocked t.func t.timestamp,
        accepted := w.accepted ++ [t],
        pending := w.pending.eraseIdx index }
    | none => none
  | .enter =>
    match w.scheduler.worker with
    | .ready =>
      if w.scheduler.running then some { w with scheduler := { w.scheduler with worker := .entered } }
      else none
    | _ => none
  | .body =>
    match w.scheduler.worker with
    | .entered =>
      match w.scheduler.workerThreadBody w.clock with
      | (.call task, s) => some { w with scheduler := s, invoked := w.invoked ++ [task] }
      | (.wait, s) => some { w with scheduler := { s with worker := .ready } }
      | (.waitUntil _, s) => some { w with scheduler := { s with worker := .ready } }
      | (.exit, _) => none
      | (.uncaught _, _) => none
    | _ => none

/-- The effect of a sequence of events. -/
def run (w : World) : List Event → Option World
  | [] => some w
  | e :: es => (w.step e).bind fun w1 => run w1 es

/-- The events by which the worker calls `n` due tasks one after the other: an
iteration that calls an action, then the end of that action. -/
def drainEvents : Nat → List Event
  | 0 => []
  | n + 1 => .iterate :: .complete :: drainEvents n

/-- The number of seconds after which every queued task is due. -/
def delay (w : World) : Nat :=
  (w.scheduler.taskQueue.heap.map fun t => (t.timestamp - w.clock).toNat).foldr max 0

/-- A continuation of a run in which the worker is left to work: the action in
progress ends (or, for a worker past the test `while (running)`, input begins
and the worker goes to wait), the input ends, the clock reaches the last queued
timestamp, and the worker calls every queued task. -/
def finishEvents (w : World) : List Event :=
  (match w.scheduler.worker with
    | .calling _ => [.complete]
    | .entered => [.startInput, .body]
    | _ => [])
  ++ [.stopInput, .tick (delay w)] ++ drainEvents w.scheduler.taskQueue.heap.length

/-- What holds of every state of a run that starts from a freshly constructed
scheduler (`invariant_run` below). -/
structure Inv (w : World) : Prop where
  heap_order : heapOrder w.scheduler.taskQueue.heap
  accounted : w.accepted.Perm (w.invoked ++ w.scheduler.taskQueue.heap)
  task_count : w.scheduler.taskCount = int32 w.accepted.length
  completed_count :
    w.scheduler.completedTasks = int32 ((w.invoked.length : Int) - w.scheduler.worker.inFlight)
  thread : w.scheduler.running = true ↔ w.scheduler.worker ≠ .absent
  in_progress : ∀ task, w.scheduler.worker = .calling task → task ∈ w.invoked

/-- What holds in addition of every state of a run of `timely` events that
starts from a freshly constructed scheduler. -/
structure Timely (w : World) : Prop where
  sorted : (w.invoked.map Task.timestamp).Sorted (· ≤ ·)
  past : ∀ x ∈ w.invoked, x.timestamp ≤ w.clock
  before_queue : ∀ x ∈ w.invoked, ∀ y ∈ w.scheduler.taskQueue.heap, x.timestamp ≤ y.timestamp

end World

end MainCpp

/-! ## `class TaskScheduler` (`task_scheduler.cpp`) -/

namespace TaskSchedulerCpp

/-- The members of `priority_queue<Task, vector<Task>, greater<Task>>` that the
scheduler calls.  The container belongs to the C++ standard library, so its
representation `Q` and these members are parameters of the embedding. -/
structure PriorityQueue (Q : Type) where
  new : Q
  empty : Q → Bool
  top : Q → Task
  pop : Q → Q
  emplace : Q → Func → Int → Q

/-- The data members of `TaskScheduler` (the mutex and the condition variable
carry no data). -/
structure TaskScheduler (Q : Type) where
  taskQueue : Q
  running : Bool
  worker : Worker
  inputInProgress : Bool
  taskCount : Int
  completedTasks : Int

namespace TaskScheduler

variable {Q : Type}

/-- The loop body of `workerThread` from `unique_lock<mutex> lock(mtx)` to the
point where the lock is given up; `now` is what `time(nullptr)` returns. -/
def workerThreadBody (pq : PriorityQueue Q) (s : TaskScheduler Q) (now : Int) :
    Step × TaskScheduler Q :=
  if pq.empty s.taskQueue || s.inputInProgress then (.wait, s)
  else
    if (pq.top s.taskQueue).timestamp ≤ now then
      let task := pq.top s.taskQueue
      (.call task, { s with taskQueue := pq.pop s.taskQueue, worker := .calling task })
    else
      (.waitUntil (from_time_t (pq.top s.taskQueue).timestamp), s)

/-- One iteration of `while (running) { ... }` up to the point where the lock
is given up, when nothing happens between the test and the loop body. -/
def workerThreadIterate (pq : PriorityQueue Q) (s : TaskScheduler Q) (now : Int) :
    Step × TaskScheduler Q :=
  if s.running then workerThreadBody pq s now else (.exit, s)

/-- The part of `Add` under `lock_guard<mutex> lock(mtx)`:
`taskQueue.emplace(task, timestamp); taskCount++`. -/
def AddLocked (pq : PriorityQueue Q) (s : TaskScheduler Q) (task : Func) (timestamp : Int) :
    TaskScheduler Q :=
  { s with taskQueue := pq.emplace s.taskQueue task timestamp,
           taskCount := int32 (s.taskCount + 1) }

/-- The member `Add` when nothing happens between its test and its insertion;
`now` is what `time(nullptr)` returns. -/
def Add (pq : PriorityQueue Q) (s : TaskScheduler Q) (now : Int) (task : Func)
    (timestamp : Int) : Except Error Unit × TaskScheduler Q :=
  if timestamp < now then (.error .timestampInPast, s)
  else (.ok (), s.AddLocked pq task timestamp)

/-- The constructor `TaskScheduler() : running(true), worker(...)` with the
default member initialisers. -/
def new (pq : PriorityQueue Q) : TaskScheduler Q :=
  { taskQueue := pq.new, running := true, worker := .ready,
    inputInProgress := false, taskCount := 0, completedTasks := 0 }

/-- The rest of the iteration after `task.func()` was called: the handler
`catch (const exception& e)`, then `lock.lock(); completedTasks++`.  An
exception of another type leaves the thread function, which ends the process
(`none`). -/
def workerThreadComplete (s : TaskScheduler Q) (task : Task) : Option (TaskScheduler Q) :=
  match task.func.outcome with
  | .throwsOther => none
  | _ => some { s with completedTasks := int32 (s.completedTasks + 1), worker := .ready }

/-- The member `Start`.  Assigning to a `thread` that is still joinable ends
the process (`none`). -/
def Start (s : TaskScheduler Q) : Option (TaskScheduler Q) :=
  if !s.running then
    match s.worker with
    | .absent => some { s with running := true, worker := .ready }
    | _ => none
  else some s

/-- The call `worker.join()` made by `Stop`, after `running = false` and
`cv.notify_all()`, as in `main.cpp`: a worker that passed the test
`while (running)` before `running` was written runs the loop body once more. -/
def join (pq : PriorityQueue Q) (s : TaskScheduler Q) (now : Int) :
    Option (TaskScheduler Q) :=
  match s.worker with
  | .absent => some s
  | .ready => some { s with worker := .absent }
  | .entered =>
    match s.workerThreadBody pq now with
    | (.call task, s1) =>
      (workerThreadComplete s1 task).map fun s2 => { s2 with worker := .absent }
    | (.waitUntil _, s1) => some { s1 with worker := .absent }
    | (.wait, _) => none
    | (.exit, _) => none
    | (.uncaught _, _) => none
  | .calling task => (workerThreadComplete s task).map fun s1 => { s1 with worker := .absent }

/-- The member `Stop`; `now` is what `time(nullptr)` returns to the worker. -/
def Stop (pq : PriorityQueue Q) (s : TaskScheduler Q) (now : Int) :
    Option (TaskScheduler Q) :=
  join pq { s with running := false } now

/-- The tasks whose action the worker calls while `Stop` waits in `join`. -/
def stopCalls (pq : PriorityQueue Q) (s : TaskScheduler Q) (now : Int) : List Task :=
  match s.worker with
  | .entered =>
    match ({ s with running := false } : TaskScheduler Q).workerThreadBody pq now with
    | (.call task, _) => [task]
    | _ => []
  | _ => []

/-- The predicate `completedTasks >= taskCount` that `WaitForCompletion`
waits for. -/
def completionPredicate (s : TaskScheduler Q) : Bool :=
  decide (s.completedTasks ≥ s.taskCount)

/-- The member `StartInput`. -/
def StartInput (s : TaskScheduler Q) : TaskScheduler Q :=
  { s with inputInProgress := true }

/-- The member `StopInput`. -/
def StopInput (s : TaskScheduler Q) : TaskScheduler Q :=
  { s with inputInProgress := false }

end TaskScheduler

/-- A scheduler of `task_scheduler.cpp` in its environment. -/
structure World (Q : Type) where
  scheduler : TaskScheduler Q
  /-- What `time(nullptr)` returns. -/
  clock : Int
  /-- The tasks whose action the worker has called, oldest first. -/
  invoked : List Task
  /-- The tasks of the calls of `Add` that have passed the test of the
  timestamp and have not yet taken the lock. -/
  pending : List Task

namespace World

variable {Q : Type}

/-- A freshly constructed scheduler at clock value `clock`. -/
def start (pq : PriorityQueue Q) (clock : Int) : World Q :=
  { scheduler := TaskScheduler.new pq, clock := clock, invoked := [], pending := [] }

/-- The effect of one event; `none` when the event cannot happen in this state,
ends the process, or does not end. -/
def step (pq : PriorityQueue Q) (w : World Q) : MainCpp.Event → Option (World Q)
  | .tick seconds => some { w with clock := w.clock + seconds }
  | .add task timestamp =>
    match w.scheduler.Add pq w.clock task timestamp with
    | (.ok (), s) => some { w with scheduler := s }
    | (.error _, s) => some { w with scheduler := s }
  | .start => (w.scheduler.Start).map fun s => { w with scheduler := s }
  | .stop =>
    (w.scheduler.Stop pq w.clock).map fun s =>
      { w with scheduler := s, invoked := w.invoked ++ w.scheduler.stopCalls pq w.clock }
  | .startInput => some { w with scheduler := w.scheduler.StartInput }
  | .stopInput => some { w with scheduler := w.scheduler.StopInput }
  | .iterate =>
    match w.scheduler.worker with
    | .ready =>
      match w.scheduler.workerThreadIterate pq w.clock with
      | (.call task, s) => some { w with scheduler := s, invoked := w.invoked ++ [task] }
      | (.wait, s) => some { w with scheduler := s }
      | (.waitUntil _, s) => some { w with scheduler := s }
      | (.exit, _) => none
      | (.uncaught _, _) => none
    | _ => none
  | .complete =>
    match w.scheduler.worker with
    | .calling task => (w.scheduler.workerThreadComplete task).map fun s => { w with scheduler := s }
    | _ => none
  | .setClock value => some { w with clock := value }
  | .addTest task timestamp =>
    match (w.scheduler.Add pq w.clock task timestamp).1 with
    | .ok () => some { w with pending := w.pending ++ [⟨task, timestamp⟩] }
    | .error _ => some w
  | .addInsert index =>
    match w.pending[index]? with
    | some t =>
      some { w with
        scheduler := w.scheduler.AddLocked pq t.func t.timestamp,
        pending := w.pending.eraseIdx index }
    | none => none
  | .enter =>
    match w.scheduler.worker with
    | .ready =>
      if w.scheduler.running then some { w with scheduler := { w.scheduler with worker := .entered } }
      else none
    | _ => none
  | .body =>
    match w.scheduler.worker with
    | .entered =>
      match w.scheduler.workerThreadBody pq w.clock with
      | (.call task, s) => some { w with scheduler := s, invoked := w.invoked ++ [task] }
      | (.wait, s) => some { w with scheduler := { s with worker := .ready } }
      | (.waitUntil _, s) => some { w with scheduler := { s with worker := .ready } }
      | (.exit, _) => none
      | (.uncaught _, _) => none
    | _ => none

/-- The effect of a sequence of events. -/
def run (pq : PriorityQueue Q) (w : World Q) : List MainCpp.Event → Option (World Q)
  | [] => some w
  | e :: es => (step pq w e).bind fun w1 => run pq w1 es

end World

/-- What the C++ standard promises of `priority_queue<Task, vector<Task>,
greater<Task>>`, for the members the scheduler calls: `valid` holds of the
values the container can take, `contents` are the elements it holds.  A
default-constructed queue is empty, `empty()` tells whether elements are held,
`top()` is an element no other element is below, `pop()` removes it, and
`emplace` adds the element constructed from its arguments.  Which of several
elements with the least timestamp is on top is left open. -/
structure PriorityQueue.Lawful {Q : Type} (pq : PriorityQueue Q) (valid : Q → Prop)
    (contents : Q → List Task) : Prop where
  new_valid : valid pq.new
  new_contents : contents pq.new = []
  empty_iff : ∀ q, valid q → (pq.empty q = true ↔ contents q = [])
  top_mem : ∀ q, valid q → contents q ≠ [] → pq.top q ∈ contents q
  top_le : ∀ q, valid q → ∀ t ∈ contents q, (pq.top q).timestamp ≤ t.timestamp
  pop_valid : ∀ q, valid q → contents q ≠ [] → valid (pq.pop q)
  pop_contents : ∀ q, valid q → contents q ≠ [] →
    (contents q).Perm (pq.top q :: contents (pq.pop q))
  emplace_valid : ∀ q task timestamp, valid q → valid (pq.emplace q task timestamp)
  emplace_contents : ∀ q task timestamp, valid q →
    (contents (pq.emplace q task timestamp)).Perm (⟨task, timestamp⟩ :: contents q)

/-- A priority queue kept as a list in ascending order of timestamp, to run
the scheduler of this file on examples. -/
def sortedList : PriorityQueue (List Task) where
  new := []
  empty q := q.isEmpty
  top q := q.head!
  pop q := q.tail
  emplace q task timestamp :=
    q.orderedInsert (fun a b => a.timestamp ≤ b.timestamp) ⟨task, timestamp⟩

/-- A priority queue kept as a list in ascending order of timestamp in which a
new element goes behind the elements with the same timestamp.  With two
elements of equal timestamp the first one emplaced is on top, as with a
`push_heap` that moves an element up only past a strictly greater parent. -/
def stableList : PriorityQueue (List Task) where
  new := []
  empty q := q.isEmpty
  top q := q.head!
  pop q := q.tail
  emplace q task timestamp :=
    q.orderedInsert (fun a b => a.timestamp < b.timestamp) ⟨task, timestamp⟩

/-- The lists in ascending order of timestamp: the values of `stableList`. -/
def ascending (q : List Task) : Prop :=
  q.Sorted (fun a b => a.timestamp ≤ b.timestamp)

end TaskSchedulerCpp

/-- What the equivalence of the two schedulers is about: the counters, the
flags, the multiset of queued timestamps, and the timestamps of the actions
called so far, in the order of the calls. -/
structure Observation where
  taskCount : Int
  completedTasks : Int
  inputInProgress : Bool
  running : Bool
  queued : Multiset Int
  invoked : List Int

/-- What is observed of the scheduler of `main.cpp`. -/
def MainCpp.World.observe (w : MainCpp.World) : Observation :=
  { taskCount := w.scheduler.taskCount,
    completedTasks := w.scheduler.completedTasks,
    inputInProgress := w.scheduler.inputInProgress,
    running := w.scheduler.running,
    queued := (w.scheduler.taskQueue.heap.map Task.timestamp : List Int),
    invoked := w.invoked.map Task.timestamp }

/-- What is observed of the scheduler of `task_scheduler.cpp`. -/
def TaskSchedulerCpp.World.observe {Q : Type} (contents : Q → List Task)
    (w : TaskSchedulerCpp.World Q) : Observation :=
  { taskCount := w.scheduler.taskCount,
    completedTasks := w.scheduler.completedTasks,
    inputInProgress := w.scheduler.inputInProgress,
    running := w.scheduler.running,
    queued := ((contents w.scheduler.taskQueue).map Task.timestamp : List Int),
    invoked := w.invoked.map Task.timestamp }


/-- What the two schedulers have in common after the same events: what is
observed, the clock, the calls of `Add` between test and insertion, the state
of the worker up to the task it is calling, of which the timestamp is the same,
and queues in order. -/
structure Agree {Q : Type} (valid : Q → Prop) (contents : Q → List Task)
    (w1 : MainCpp.World) (w2 : TaskSchedulerCpp.World Q) : Prop where
  taskCount : w1.scheduler.taskCount = w2.scheduler.taskCount
  completedTasks : w1.scheduler.completedTasks = w2.scheduler.completedTasks
  inputInProgress : w1.scheduler.inputInProgress = w2.scheduler.inputInProgress
  running : w1.scheduler.running = w2.scheduler.running
  clock : w1.clock = w2.clock
  pending : w1.pending = w2.pending
  absent : w1.scheduler.worker = .absent ↔ w2.scheduler.worker = .absent
  ready : w1.scheduler.worker = .ready ↔ w2.scheduler.worker = .ready
  entered : w1.scheduler.worker = .entered ↔ w2.scheduler.worker = .entered
  calling : ∀ t1 t2, w1.scheduler.worker = .calling t1 → w2.scheduler.worker = .calling t2 →
    t1.timestamp = t2.timestamp
  queued : (w1.scheduler.taskQueue.heap.map Task.timestamp).Perm
    ((contents w2.scheduler.taskQueue).map Task.timestamp)
  invoked : w1.invoked.map Task.timestamp = w2.invoked.map Task.timestamp
  heap_order : heapOrder w1.scheduler.taskQueue.heap
  valid : valid w2.scheduler.taskQueue

/-- No task that the two schedulers hold, queued, being called or about to be
inserted, has an action that throws an object the worker does not catch. -/
structure Caught {Q : Type} (contents : Q → List Task)
    (w1 : MainCpp.World) (w2 : TaskSchedulerCpp.World Q) : Prop where
  queued1 : ∀ t ∈ w1.scheduler.taskQueue.heap, t.func.outcome ≠ .throwsOther
  queued2 : ∀ t ∈ contents w2.scheduler.taskQueue, t.func.outcome ≠ .throwsOther
  calling1 : ∀ t, w1.scheduler.worker = .calling t → t.func.outcome ≠ .throwsOther
  calling2 : ∀ t, w2.scheduler.worker = .calling t → t.func.outcome ≠ .throwsOther
  pending1 : ∀ t ∈ w1.pending, t.func.outcome ≠ .throwsOther

/-- The events that submit no action that throws an object the worker does not
catch. -/
def MainCpp.Event.caught : MainCpp.Event → Prop
  | .add task _ => task.outcome ≠ .throwsOther
  | .addTest task _ => task.outcome ≠ .throwsOther
  | _ => True

/-! ## Inputs of the examples -/

/-- The heap after `push` of tasks with timestamps 3, 1 and 2. -/
def heap312 : BinaryHeap :=
  (((BinaryHeap.mk []).push ⟨⟨1, .returns⟩, 3⟩).push ⟨⟨2, .returns⟩, 1⟩).push ⟨⟨3, .returns⟩, 2⟩

/-- A running scheduler of `main.cpp` whose queue holds one task with
timestamp 5; `o` is what the action of that task does. -/
def oneTask (o : Outcome) : MainCpp.TaskScheduler :=
  { taskQueue := ⟨[⟨⟨1, o⟩, 5⟩]⟩, running := true, worker := .ready,
    inputInProgress := false, taskCount := 1, completedTasks := 0 }

/-- The scheduler `oneTask o` of `task_scheduler.cpp`. -/
def oneTaskPQ (o : Outcome) : TaskSchedulerCpp.TaskScheduler (List Task) :=
  { taskQueue := [⟨⟨1, o⟩, 5⟩], running := true, worker := .ready,
    inputInProgress := false, taskCount := 1, completedTasks := 0 }

/-- Three tasks are submitted at clock value 100 for the times 103, 101 and
102 while input is in progress; then the worker runs. -/
def events312 : List MainCpp.Event :=
  [.startInput, .add ⟨1, .returns⟩ 103, .add ⟨2, .returns⟩ 101, .add ⟨3, .returns⟩ 102,
   .stopInput, .iterate, .tick 1, .iterate, .complete, .tick 1, .iterate, .complete,
   .tick 1, .iterate, .complete]

/-- The state at the end of `events312`. -/
def world312 : MainCpp.World :=
  { scheduler :=
      { taskQueue := ⟨[]⟩, running := true, worker := .ready,
        inputInProgress := false, taskCount := 3, completedTasks := 3 },
    clock := 103,
    invoked := [⟨⟨2, .returns⟩, 101⟩, ⟨⟨3, .returns⟩, 102⟩, ⟨⟨1, .returns⟩, 103⟩],
    accepted := [⟨⟨1, .returns⟩, 103⟩, ⟨⟨2, .returns⟩, 101⟩, ⟨⟨3, .returns⟩, 102⟩],
    pending := [] }

/-- A task with timestamp 5 is submitted at clock value 0 and called at clock
value 5; `o` is what its action does.  A second task waits for time 6. -/
def eventsCall (o : Outcome) : List MainCpp.Event :=
  [.add ⟨1, o⟩ 5, .add ⟨2, .returns⟩ 6, .tick 5, .iterate]

/-- A running scheduler of `main.cpp` whose queue holds two tasks, with
timestamps 5 and 6. -/
def twoTasks : MainCpp.TaskScheduler :=
  { taskQueue := ⟨[⟨⟨1, .returns⟩, 5⟩, ⟨⟨2, .returns⟩, 6⟩]⟩, running := true, worker := .ready,
    inputInProgress := false, taskCount := 2, completedTasks := 0 }

/-- The scheduler `oneTask .returns` between `StartInput` and `StopInput`, at
clock value 7. -/
def pausedWorld : MainCpp.World :=
  { scheduler := (oneTask .returns).StartInput, clock := 7, invoked := [], accepted := [],
    pending := [] }

/-- The state at the end of `eventsCall .returns`. -/
def worldCall : MainCpp.World :=
  { scheduler :=
      { taskQueue := ⟨[⟨⟨2, .returns⟩, 6⟩]⟩, running := true,
        worker := .calling ⟨⟨1, .returns⟩, 5⟩,
        inputInProgress := false, taskCount := 2, completedTasks := 0 },
    clock := 5,
    invoked := [⟨⟨1, .returns⟩, 5⟩],
    accepted := [⟨⟨1, .returns⟩, 5⟩, ⟨⟨2, .returns⟩, 6⟩],
    pending := [] }

/-- Two tasks are submitted for time 5, the first with an action that throws
an object of a type not derived from `std::exception`; at time 5 the worker
calls one task, the action ends, and the worker calls the next task. -/
def eventsTie : List MainCpp.Event :=
  [.add ⟨1, .throwsOther⟩ 5, .add ⟨2, .returns⟩ 5, .tick 5, .iterate, .complete, .iterate]

/-- A running scheduler of `task_scheduler.cpp` whose queue holds three tasks,
with timestamps 1, 2 and 3. -/
def threeTasksPQ : TaskSchedulerCpp.TaskScheduler (List Task) :=
  { taskQueue := [⟨⟨1, .returns⟩, 1⟩, ⟨⟨2, .returns⟩, 2⟩, ⟨⟨3, .returns⟩, 3⟩],
    running := true, worker := .ready, inputInProgress := false,
    taskCount := 3, completedTasks := 0 }

/-- A heap that holds one task, with timestamp 5. -/
def heap5 : BinaryHeap := ⟨[⟨⟨1, .returns⟩, 5⟩]⟩

/-- A running scheduler of `main.cpp` whose queue holds three tasks, with
timestamps 1, 2 and 3 in this order in the array. -/
def threeTasks : MainCpp.TaskScheduler :=
  { taskQueue := ⟨[⟨⟨1, .returns⟩, 1⟩, ⟨⟨2, .returns⟩, 2⟩, ⟨⟨3, .returns⟩, 3⟩]⟩,
    running := true, worker := .ready, inputInProgress := false,
    taskCount := 3, completedTasks := 0 }

/-- Two tasks are submitted at clock value 0 for the times 5 and 6. -/
def eventsQueued : List MainCpp.Event :=
  [.add ⟨1, .returns⟩ 5, .add ⟨2, .returns⟩ 6]

/-- The state at the end of `eventsQueued`: both tasks are queued and the
worker is at the head of its loop. -/
def worldQueued : MainCpp.World :=
  { scheduler := twoTasks, clock := 0, invoked := [],
    accepted := [⟨⟨1, .returns⟩, 5⟩, ⟨⟨2, .returns⟩, 6⟩], pending := [] }

/-- The state `worldQueued` with the worker past the test `while (running)`. -/
def worldEntered : MainCpp.World :=
  { worldQueued with scheduler := { twoTasks with worker := .entered } }

/-- A task is submitted for time 7.  At clock value 5 a second call of `Add`,
for time 5, passes the test of the timestamp.  Before it takes the lock the
clock reaches 7 and the worker calls the first task; then the second task is
inserted and the worker calls it. -/
def eventsRace : List MainCpp.Event :=
  [.add ⟨1, .returns⟩ 7, .tick 5, .addTest ⟨2, .returns⟩ 5, .tick 2, .iterate, .complete,
   .addInsert 0, .iterate, .complete]

/-- A task is submitted for time 10 and called at clock value 10.  Then the
clock is set back to 5, and a task is submitted for time 5 and called. -/
def eventsClockBack : List MainCpp.Event :=
  [.add ⟨1, .returns⟩ 10, .tick 10, .iterate, .complete, .setClock 5, .add ⟨2, .returns⟩ 5,
   .iterate, .complete]

/-- The events of `n` rounds at clock value 0: a task is submitted for time 0,
the worker calls it, and the action returns. -/
def cycles : Nat → List MainCpp.Event
  | 0 => []
  | n + 1 => cycles n ++ [.add ⟨1, .returns⟩ 0, .iterate, .complete]

/-- The state at the end of `cycles n`. -/
def worldCycles (n : Nat) : MainCpp.World :=
  { scheduler :=
      { taskQueue := ⟨[]⟩, running := true, worker := .ready, inputInProgress := false,
        taskCount := int32 n, completedTasks := int32 n },
    clock := 0,
    invoked := List.replicate n ⟨⟨1, .returns⟩, 0⟩,
    accepted := List.replicate n ⟨⟨1, .returns⟩, 0⟩,
    pending := [] }

/-- A running scheduler of `main.cpp` whose queue holds one task, with
timestamp 9223372037. -/
def farTask : MainCpp.TaskScheduler :=
  { taskQueue := ⟨[⟨⟨1, .returns⟩, 9223372037⟩]⟩, running := true, worker := .ready,
    inputInProgress := false, taskCount := 1, completedTasks := 0 }

/-- The scheduler `farTask` of `task_scheduler.cpp`. -/
def farTaskPQ : TaskSchedulerCpp.TaskScheduler (List Task) :=
  { taskQueue := [⟨⟨1, .returns⟩, 9223372037⟩], running := true, worker := .ready,
    inputInProgress := false, taskCount := 1, completedTasks := 0 }

/-! ## Lemmas on the heap -/

namespace BinaryHeap

theorem length_swap (heap : List Task) (i j : Nat) :
    (swap heap i j).length = heap.length := by
  simp [swap]

theorem getElem!_swap (heap : List Task) (i j k : Nat)
    (hi : i < heap.length) (hj : j < heap.length) :
    (swap heap i j)[k]! =
      if k = j then heap[i]! else if k = i then heap[j]! else heap[k]! := by
  unfold swap
  by_cases hk : k < heap.length
  · rw [getElem!_pos _ k (by simpa using hk), getElem!_pos heap i hi, getElem!_pos heap j hj]
    simp only [List.getElem_set]
    by_cases h1 : j = k
    · subst h1; simp
    · by_cases h2 : i = k
      · subst h2; simp [h1, Ne.symm h1]
      · simp [h1, h2, Ne.symm h1, Ne.symm h2, getElem!_pos heap k hk]
  · have h1 : k ≠ j := by omega
    have h2 : k ≠ i := by omega
    rw [getElem!_neg _ k (by simpa using hk), getElem!_neg heap k hk]
    simp [h1, h2]

theorem swap_perm (heap : List Task) (i j : Nat)
    (hi : i < heap.length) (hj : j < heap.length) :
    (swap heap i j).Perm heap := by
  rw [List.perm_iff_count]
  intro a
  unfold swap
  rw [getElem!_pos heap i hi, getElem!_pos heap j hj]
  rw [List.count_set _ _ _ _ (by simpa using hj), List.count_set _ _ _ _ hi]
  simp only [List.getElem_set]
  have h1 := List.boole_getElem_le_count a heap i hi
  have h2 := List.boole_getElem_le_count a heap j hj
  by_cases hij : i = j
  · subst hij
    simp only [if_true]
    split at h1 <;> simp_all
  · simp only [hij, if_false]
    split at h1 <;> split at h2 <;> simp_all

theorem upInv_swap (heap : List Task) (k p : Nat) (hp : p = (k - 1) / 2) (hk0 : k > 0)
    (hle : heap[k]!.timestamp ≤ heap[p]!.timestamp) (hinv : upInv heap k) :
    upInv (swap heap k p) p := by
  obtain ⟨hk, h1, h2⟩ := hinv
  have hpk : p < k := by omega
  have hpl : p < heap.length := by omega
  refine ⟨by rw [length_swap]; exact hpl, ?_, ?_⟩
  · intro i hi hi0 hip
    rw [length_swap] at hi
    rw [getElem!_swap heap k p i hk hpl, getElem!_swap heap k p _ hk hpl]
    simp only [hip, if_false]
    by_cases hik : i = k
    · subst hik
      simp only [← hp, if_true]
      simpa using hle
    · have e1 := h1 i hi hi0 hik
      simp only [hik, if_false]
      by_cases hq : (i - 1) / 2 = p
      · rw [hq] at e1
        simp only [hq, if_true]
        omega
      · simp only [hq, if_false]
        by_cases hr : (i - 1) / 2 = k
        · have e2 := h2 i hi hi0 hr hk0
          rw [← hp] at e2
          simp only [hr, if_true]
          exact e2
        · simp only [hr, if_false]
          exact e1
  · intro i hi hi0 hip hp0
    rw [length_swap] at hi
    rw [getElem!_swap heap k p i hk hpl, getElem!_swap heap k p _ hk hpl]
    have e3 := h1 p hpl hp0 (by omega)
    have n1 : (p - 1) / 2 ≠ p := by omega
    have n2 : (p - 1) / 2 ≠ k := by omega
    have n3 : i ≠ p := by omega
    simp only [n1, n2, n3, if_false]
    by_cases hik : i = k
    · simp only [hik, if_true]
      exact e3
    · have e1 := h1 i hi hi0 hik
      rw [hip] at e1
      simp only [hik, if_false]
      omega

theorem heapOrder_of_upInv_zero (heap : List Task) (hinv : upInv heap 0) :
    heapOrder heap := by
  intro i hi hi0
  exact hinv.2.1 i hi hi0 (by omega)

theorem siftUpLoop_spec (fuel : Nat) :
    ∀ (heap : List Task) (k : Nat), k ≤ fuel → upInv heap k →
      heapOrder (siftUpLoop fuel heap k) ∧ (siftUpLoop fuel heap k).Perm heap := by
  induction fuel with
  | zero =>
    intro heap k hk hinv
    have hk0 : k = 0 := by omega
    subst hk0
    exact ⟨heapOrder_of_upInv_zero heap hinv, List.Perm.refl _⟩
  | succ fuel ih =>
    intro heap k hk hinv
    unfold siftUpLoop
    by_cases hk0 : k > 0
    · simp only [hk0, if_true]
      by_cases hgt : heap[k]!.gt heap[(k - 1) / 2]! = true
      · simp only [hgt, if_true]
        refine ⟨?_, List.Perm.refl _⟩
        intro i hi hi0
        by_cases hik : i = k
        · subst hik
          simp only [Task.gt, decide_eq_true_eq] at hgt
          omega
        · exact hinv.2.1 i hi hi0 hik
      · simp only [hgt]
        have hle : heap[k]!.timestamp ≤ heap[(k - 1) / 2]!.timestamp := by
          simp only [Task.gt, decide_eq_true_eq] at hgt
          omega
        have hstep := upInv_swap heap k ((k - 1) / 2) rfl hk0 hle hinv
        have hrec := ih (swap heap k ((k - 1) / 2)) ((k - 1) / 2) (by omega) hstep
        exact ⟨hrec.1, hrec.2.trans
          (swap_perm heap k _ hinv.1 (by have := hinv.1; omega))⟩
    · simp only [hk0, if_false]
      have hk0 : k = 0 := by omega
      subst hk0
      exact ⟨heapOrder_of_upInv_zero heap hinv, List.Perm.refl _⟩

theorem downInv_swap (heap : List Task) (k s : Nat) (hs : s = 2 * k + 1 ∨ s = 2 * k + 2)
    (hsl : s < heap.length) (hlt : heap[s]!.timestamp < heap[k]!.timestamp)
    (hmin : ∀ c, c < heap.length → (c = 2 * k + 1 ∨ c = 2 * k + 2) →
      heap[s]!.timestamp ≤ heap[c]!.timestamp)
    (hinv : downInv heap k) :
    downInv (swap heap k s) s := by
  obtain ⟨h1, h2⟩ := hinv
  have hkl : k < heap.length := by omega
  have hks : k ≠ s := by omega
  refine ⟨?_, ?_⟩
  · intro i hi hi0 hip
    rw [length_swap] at hi
    rw [getElem!_swap heap k s i hkl hsl, getElem!_swap heap k s _ hkl hsl]
    simp only [hip, if_false]
    by_cases his : i = s
    · have e : (s - 1) / 2 = k := by omega
      simp only [his, e, if_true]
      omega
    · simp only [his, if_false]
      by_cases hik : i = k
      · have n1 : (k - 1) / 2 ≠ k := by omega
        have e2 := h2 s hsl (by omega) (by omega) (by omega)
        simp only [hik, n1, if_true, if_false]
        exact e2
      · simp only [hik, if_false]
        by_cases hq : (i - 1) / 2 = k
        · simp only [hq, if_true]
          exact hmin i hi (by omega)
        · simp only [hq, if_false]
          exact h1 i hi hi0 hq
  · intro i hi hi0 hip hs0
    rw [length_swap] at hi
    rw [getElem!_swap heap k s i hkl hsl, getElem!_swap heap k s _ hkl hsl]
    have e : (s - 1) / 2 = k := by omega
    have n1 : i ≠ s := by omega
    have n2 : i ≠ k := by omega
    have e1 := h1 i hi hi0 (by omega)
    rw [hip] at e1
    simp only [e, n1, n2, hks, if_true, if_false]
    exact e1

theorem heapOrder_of_downInv (heap : List Task) (k : Nat) (hinv : downInv heap k)
    (hl : 2 * k + 1 < heap.length →
      heap[k]!.timestamp ≤ heap[2 * k + 1]!.timestamp)
    (hr : 2 * k + 2 < heap.length →
      heap[k]!.timestamp ≤ heap[2 * k + 2]!.timestamp) :
    heapOrder heap := by
  intro i hi hi0
  by_cases hq : (i - 1) / 2 = k
  · rw [hq]
    have hc : i = 2 * k + 1 ∨ i = 2 * k + 2 := by omega
    rcases hc with hc | hc
    · subst hc; exact hl hi
    · subst hc; exact hr hi
  · exact hinv.1 i hi hi0 hq

theorem siftDownLoop_spec (fuel : Nat) :
    ∀ (heap : List Task) (k : Nat), heap.length ≤ fuel + k → downInv heap k →
      heapOrder (siftDownLoop fuel heap k) ∧ (siftDownLoop fuel heap k).Perm heap := by
  induction fuel with
  | zero =>
    intro heap k hf hinv
    refine ⟨?_, List.Perm.refl _⟩
    exact heapOrder_of_downInv heap k hinv (by omega) (by omega)
  | succ fuel ih =>
    intro heap k hf hinv
    unfold siftDownLoop
    by_cases hk : k < heap.length
    · simp only [hk, if_true]
      by_cases c1 : (decide (2 * k + 1 < heap.length) && heap[2 * k + 1]!.lt heap[k]!) = true
      · simp only [c1, if_true]
        have c1' := c1
        simp only [Bool.and_eq_true, decide_eq_true_eq, Task.lt] at c1'
        by_cases c2 : (decide (2 * k + 2 < heap.length) &&
            heap[2 * k + 2]!.lt heap[2 * k + 1]!) = true
        · simp only [c2, if_true]
          have c2' := c2
          simp only [Bool.and_eq_true, decide_eq_true_eq, Task.lt] at c2'
          have n : 2 * k + 2 ≠ k := by omega
          simp only [n, if_false]
          have hstep := downInv_swap heap k (2 * k + 2) (Or.inr rfl) c2'.1 (by omega)
            (by intro c _ hc; rcases hc with hc | hc <;> subst hc <;> omega) hinv
          have hrec := ih (swap heap k (2 * k + 2)) (2 * k + 2)
            (by rw [length_swap]; omega) hstep
          exact ⟨hrec.1, hrec.2.trans (swap_perm heap k _ hk c2'.1)⟩
        · simp only [c2, Bool.false_eq_true, if_false]
          have c2' : 2 * k + 2 < heap.length →
              heap[2 * k + 1]!.timestamp ≤ heap[2 * k + 2]!.timestamp := by
            intro h
            simp only [Bool.and_eq_true, decide_eq_true_eq, Task.lt, h, true_and] at c2
            omega
          have n : 2 * k + 1 ≠ k := by omega
          simp only [n, if_false]
          have hstep := downInv_swap heap k (2 * k + 1) (Or.inl rfl) c1'.1 c1'.2
            (by
              intro c hcl hc
              rcases hc with hc | hc
              · subst hc; omega
              · subst hc; exact c2' hcl) hinv
          have hrec := ih (swap heap k (2 * k + 1)) (2 * k + 1)
            (by rw [length_swap]; omega) hstep
          exact ⟨hrec.1, hrec.2.trans (swap_perm heap k _ hk c1'.1)⟩
      · simp only [c1, Bool.false_eq_true, if_false]
        have c1' : 2 * k + 1 < heap.length →
            heap[k]!.timestamp ≤ heap[2 * k + 1]!.timestamp := by
          intro h
          simp only [Bool.and_eq_true, decide_eq_true_eq, Task.lt, h, true_and] at c1
          omega
        by_cases c2 : (decide (2 * k + 2 < heap.length) &&
            heap[2 * k + 2]!.lt heap[k]!) = true
        · simp only [c2, if_true]
          have c2' := c2
          simp only [Bool.and_eq_true, decide_eq_true_eq, Task.lt] at c2'
          have n : 2 * k + 2 ≠ k := by omega
          simp only [n, if_false]
          have hstep := downInv_swap heap k (2 * k + 2) (Or.inr rfl) c2'.1 c2'.2
            (by
              intro c hcl hc
              rcases hc with hc | hc
              · subst hc; have := c1' hcl; omega
              · subst hc; omega) hinv
          have hrec := ih (swap heap k (2 * k + 2)) (2 * k + 2)
            (by rw [length_swap]; omega) hstep
          exact ⟨hrec.1, hrec.2.trans (swap_perm heap k _ hk c2'.1)⟩
        · simp only [c2, Bool.false_eq_true, if_false]
          have c2' : 2 * k + 2 < heap.length →
              heap[k]!.timestamp ≤ heap[2 * k + 2]!.timestamp := by
            intro h
            simp only [Bool.and_eq_true, decide_eq_true_eq, Task.lt, h, true_and] at c2
            omega
          simp only [if_true]
          exact ⟨heapOrder_of_downInv heap k hinv c1' c2', List.Perm.refl _⟩
    · simp only [hk, if_false]
      refine ⟨?_, List.Perm.refl _⟩
      exact heapOrder_of_downInv heap k hinv (by omega) (by omega)

theorem root_le (heap : List Task) (hord : heapOrder heap) :
    ∀ i, i < heap.length → heap[0]!.timestamp ≤ heap[i]!.timestamp := by
  intro i
  induction i using Nat.strong_induction_on with
  | _ i ih =>
    intro hi
    by_cases hi0 : i = 0
    · subst hi0; exact le_refl _
    · have h1 := hord i hi (by omega)
      have h2 := ih ((i - 1) / 2) (by omega) (by omega)
      omega

theorem root_le_mem (heap : List Task) (hord : heapOrder heap) (t : Task) (ht : t ∈ heap) :
    heap[0]!.timestamp ≤ t.timestamp := by
  obtain ⟨i, hi, rfl⟩ := List.mem_iff_getElem.mp ht
  have := root_le heap hord i hi
  rwa [getElem!_pos heap i hi] at this

theorem push_spec (h : BinaryHeap) (task : Task) (hord : heapOrder h.heap) :
    heapOrder (h.push task).heap ∧ (h.push task).heap.Perm (h.heap ++ [task]) := by
  unfold push siftUp
  apply siftUpLoop_spec _ _ _ (le_refl _)
  have hget : ∀ i, i < h.heap.length → (h.heap ++ [task])[i]! = h.heap[i]! := by
    intro i hi
    rw [getElem!_pos (h.heap ++ [task]) i (by simp; omega), getElem!_pos h.heap i hi]
    exact List.getElem_append_left hi
  simp only [List.length_append, List.length_singleton, Nat.add_sub_cancel]
  refine ⟨by simp, ?_, ?_⟩
  · intro i hi hi0 hik
    simp only [List.length_append, List.length_singleton] at hi
    have hi' : i < h.heap.length := by omega
    rw [hget i hi', hget _ (by omega)]
    exact hord i hi' hi0
  · intro i hi hi0 hq
    simp only [List.length_append, List.length_singleton] at hi
    omega

theorem siftUpLoop_perm (fuel : Nat) :
    ∀ (heap : List Task) (k : Nat), k < heap.length →
      (siftUpLoop fuel heap k).Perm heap := by
  induction fuel with
  | zero => intro heap k _; exact List.Perm.refl _
  | succ fuel ih =>
    intro heap k hk
    unfold siftUpLoop
    by_cases hk0 : k > 0
    · simp only [hk0, if_true]
      by_cases hgt : heap[k]!.gt heap[(k - 1) / 2]! = true
      · simp only [hgt, if_true]
        exact List.Perm.refl _
      · simp only [hgt]
        have hp : (k - 1) / 2 < heap.length := by omega
        exact (ih _ _ (by rw [length_swap]; exact hp)).trans (swap_perm heap k _ hk hp)
    · simp only [hk0, if_false]
      exact List.Perm.refl _

theorem siftDownLoop_perm (fuel : Nat) :
    ∀ (heap : List Task) (k : Nat), (siftDownLoop fuel heap k).Perm heap := by
  induction fuel with
  | zero => intro heap k; exact List.Perm.refl _
  | succ fuel ih =>
    intro heap k
    unfold siftDownLoop
    by_cases hk : k < heap.length
    · simp only [hk, if_true]
      by_cases c1 : (decide (2 * k + 1 < heap.length) && heap[2 * k + 1]!.lt heap[k]!) = true
      · simp only [c1, if_true]
        have c1' := c1
        simp only [Bool.and_eq_true, decide_eq_true_eq] at c1'
        by_cases c2 : (decide (2 * k + 2 < heap.length) &&
            heap[2 * k + 2]!.lt heap[2 * k + 1]!) = true
        · simp only [c2, if_true]
          have c2' := c2
          simp only [Bool.and_eq_true, decide_eq_true_eq] at c2'
          have n : 2 * k + 2 ≠ k := by omega
          simp only [n, if_false]
          exact (ih _ _).trans (swap_perm heap k _ hk c2'.1)
        · simp only [c2, Bool.false_eq_true, if_false]
          have n : 2 * k + 1 ≠ k := by omega
          simp only [n, if_false]
          exact (ih _ _).trans (swap_perm heap k _ hk c1'.1)
      · simp only [c1, Bool.false_eq_true, if_false]
        by_cases c2 : (decide (2 * k + 2 < heap.length) &&
            heap[2 * k + 2]!.lt heap[k]!) = true
        · simp only [c2, if_true]
          have c2' := c2
          simp only [Bool.and_eq_true, decide_eq_true_eq] at c2'
          have n : 2 * k + 2 ≠ k := by omega
          simp only [n, if_false]
          exact (ih _ _).trans (swap_perm heap k _ hk c2'.1)
        · simp only [c2, Bool.false_eq_true, if_false, if_true]
          exact List.Perm.refl _
    · simp only [hk, if_false]
      exact List.Perm.refl _

theorem push_perm (h : BinaryHeap) (task : Task) :
    (h.push task).heap.Perm (h.heap ++ [task]) := by
  unfold push siftUp
  exact siftUpLoop_perm _ _ _ (by simp)

theorem pop_eq_of_ne_nil (h : BinaryHeap) (hne : h.heap ≠ []) :
    h.pop = (.ok h.heap[0]!,
      ⟨if ((h.heap.set 0 (h.heap.getLast?.getD default)).dropLast).isEmpty then
          (h.heap.set 0 (h.heap.getLast?.getD default)).dropLast
        else siftDown (h.heap.set 0 (h.heap.getLast?.getD default)).dropLast 0⟩) := by
  unfold pop
  have : h.heap.isEmpty = false := by
    cases hh : h.heap with
    | nil => exact absurd hh hne
    | cons a l => rfl
  simp only [this]
  cases hh : ((h.heap.set 0 (h.heap.getLast?.getD default)).dropLast).isEmpty <;> simp [hh]

theorem pop_fst (h : BinaryHeap) (hne : h.heap ≠ []) : h.pop.1 = .ok h.heap[0]! := by
  rw [pop_eq_of_ne_nil h hne]

theorem pop_snd_perm (h : BinaryHeap) (hne : h.heap ≠ []) :
    h.heap.Perm (h.heap[0]! :: h.pop.2.heap) := by
  rw [pop_eq_of_ne_nil h hne]
  obtain ⟨heap⟩ := h
  cases heap with
  | nil => exact absurd rfl hne
  | cons a rest =>
    cases hr : rest.getLast? with
    | none =>
      have : rest = [] := List.getLast?_eq_none_iff.mp hr
      subst this
      simp
    | some last =>
      have hrest : rest.dropLast ++ [last] = rest := List.dropLast_append_getLast? last hr
      have hne' : rest ≠ [] := by
        intro h0; subst h0; simp at hr
      obtain ⟨b, rest', rfl⟩ := List.exists_cons_of_ne_nil hne'
      simp only [List.getLast?_cons_cons, hr, Option.getD_some, List.set_cons_zero,
        List.dropLast_cons₂, List.isEmpty_cons, Bool.false_eq_true, if_false]
      have h1 : (siftDown (last :: (b :: rest').dropLast) 0).Perm
          (last :: (b :: rest').dropLast) := siftDownLoop_perm _ _ _
      have h2 : (last :: (b :: rest').dropLast).Perm (b :: rest') := by
        have := (List.perm_append_singleton last (b :: rest').dropLast).symm
        rwa [hrest] at this
      exact (List.Perm.cons a (h1.trans h2)).symm

theorem heapOrder_nil : heapOrder [] := by
  intro i hi
  simp at hi

theorem downInv_replace_root (heap : List Task) (x : Task) (hord : heapOrder heap) :
    downInv (heap.set 0 x).dropLast 0 := by
  refine ⟨?_, ?_⟩
  · intro i hi hi0 hq
    have hi' : i < heap.length - 1 := by simpa using hi
    have hget : ∀ j, j > 0 → j < heap.length - 1 →
        ((heap.set 0 x).dropLast)[j]! = heap[j]! := by
      intro j hj0 hj
      rw [getElem!_pos ((heap.set 0 x).dropLast) j (by simpa using hj),
        getElem!_pos heap j (by omega)]
      rw [List.getElem_dropLast, List.getElem_set_ne (by omega)]
    rw [hget i hi0 hi', hget _ (by omega) (by omega)]
    exact hord i (by omega) hi0
  · intro i _ _ _ h0
    omega

theorem pop_snd_heapOrder (h : BinaryHeap) (hord : heapOrder h.heap) :
    heapOrder h.pop.2.heap := by
  by_cases hne : h.heap = []
  · unfold pop
    simp [hne, heapOrder_nil]
  · rw [pop_eq_of_ne_nil h hne]
    split
    · rename_i he
      rw [List.isEmpty_iff.mp he]
      exact heapOrder_nil
    · exact (siftDownLoop_spec _ _ _ (by omega)
        (downInv_replace_root h.heap _ hord)).1

end BinaryHeap

theorem reachable_heapOrder (h : BinaryHeap) (hr : Reachable h) : heapOrder h.heap := by
  induction hr with
  | empty => exact BinaryHeap.heapOrder_nil
  | push h task _ ih => exact (BinaryHeap.push_spec h task ih).1
  | pop h _ ih => exact BinaryHeap.pop_snd_heapOrder h ih

/-! ## The heap: claims -/

/-- C1: in every heap built from the empty heap by calls of `push` and `pop`, if
the heap is not empty then `pop` returns a task, and the timestamp of that task
is less than or equal to the timestamp of every task that the heap holds just
before the call. -/
theorem pop_returns_minimum (h : BinaryHeap) (hr : Reachable h) (hne : h.heap ≠ []) :
    ∃ top, h.pop.1 = .ok top ∧ top ∈ h.heap ∧
      ∀ t ∈ h.heap, top.timestamp ≤ t.timestamp := by
  refine ⟨h.heap[0]!, BinaryHeap.pop_fst h hne, ?_, ?_⟩
  · rw [getElem!_pos h.heap 0 (List.length_pos.mpr hne)]
    exact List.getElem_mem _
  · exact BinaryHeap.root_le_mem h.heap (reachable_heapOrder h hr)

/-- C2: the heap order "for every index i > 0, heap[i].timestamp >=
heap[(i-1)/2].timestamp" holds for the empty heap, and it is preserved by `push`
of any task and by `pop` on any non-empty heap. -/
theorem heapOrder_invariant :
    heapOrder (BinaryHeap.mk []).heap ∧
    (∀ (h : BinaryHeap) (task : Task), heapOrder h.heap → heapOrder (h.push task).heap) ∧
    (∀ h : BinaryHeap, h.heap ≠ [] → heapOrder h.heap → heapOrder h.pop.2.heap) :=
  ⟨BinaryHeap.heapOrder_nil,
    fun h task hord => (BinaryHeap.push_spec h task hord).1,
    fun h _ hord => BinaryHeap.pop_snd_heapOrder h hord⟩

/-- C1 at the heap built by pushing the timestamps 3, 1 and 2. -/
theorem pop_returns_minimum_witness :
    Reachable heap312 ∧ heap312.heap ≠ [] ∧
      ∃ top, heap312.pop.1 = .ok top ∧ top ∈ heap312.heap ∧
        ∀ t ∈ heap312.heap, top.timestamp ≤ t.timestamp :=
  ⟨.push _ _ (.push _ _ (.push _ _ .empty)), by decide,
    pop_returns_minimum heap312 (.push _ _ (.push _ _ (.push _ _ .empty))) (by decide)⟩

/-- C2 at the heap built by pushing the timestamps 3, 1 and 2: a further `push`
and a `pop` keep the heap order. -/
theorem heapOrder_invariant_witness :
    heapOrder heap312.heap ∧ heap312.heap ≠ [] ∧
      heapOrder (heap312.push ⟨⟨4, .returns⟩, 0⟩).heap ∧ heapOrder heap312.pop.2.heap :=
  ⟨by decide, by decide, heapOrder_invariant.2.1 heap312 _ (by decide),
    heapOrder_invariant.2.2 heap312 (by decide) (by decide)⟩

/-! ## The heap: further claims -/

/-- C11: `pop` throws `runtime_error("Heap is empty")` if and only if the heap
has no elements, it throws nothing else, and when it throws it leaves the heap
unchanged. -/
theorem pop_throws_iff_empty (h : BinaryHeap) :
    (h.pop.1 = .error .heapIsEmpty ↔ h.heap = []) ∧
    ((∃ e, h.pop.1 = .error e) ↔ h.heap = []) ∧
    (h.heap = [] → h.pop.2 = h) := by
  by_cases hne : h.heap = []
  · have hp : h.pop = (.error .heapIsEmpty, h) := by
      unfold BinaryHeap.pop
      simp [hne]
    rw [hp]
    simp [hne]
  · have hp := BinaryHeap.pop_fst h hne
    rw [hp]
    simp [hne]

/-- C11 at the empty heap and at a heap with three tasks. -/
theorem pop_throws_iff_empty_witness :
    (BinaryHeap.mk []).pop = (.error .heapIsEmpty, BinaryHeap.mk []) ∧
    (BinaryHeap.mk []).pop.2 = BinaryHeap.mk [] ∧
    ¬ heap312.pop.1 = .error .heapIsEmpty :=
  ⟨rfl, (pop_throws_iff_empty (BinaryHeap.mk [])).2.2 rfl,
    fun h => absurd ((pop_throws_iff_empty heap312).1.mp h) (by decide)⟩

/-- C16: `push` and `pop` neither lose nor duplicate tasks.  The multiset of
tasks of `push(h, t)` is that of `h` plus `t` and the size grows by exactly 1;
for a non-empty `h`, `pop` returns a task of `h`, the multiset of tasks left is
that of `h` minus one occurrence of the returned task, and the size shrinks by
exactly 1. -/
theorem push_pop_multiset (h : BinaryHeap) :
    (∀ t : Task, ((h.push t).heap : Multiset Task) = t ::ₘ (h.heap : Multiset Task) ∧
      (h.push t).size = h.size + 1) ∧
    (h.heap ≠ [] → ∃ top, h.pop.1 = .ok top ∧ top ∈ h.heap ∧
      (h.pop.2.heap : Multiset Task) = (h.heap : Multiset Task).erase top ∧
      h.pop.2.size + 1 = h.size) := by
  refine ⟨?_, ?_⟩
  · intro t
    have hp := (BinaryHeap.push_perm h t).trans (List.perm_append_singleton _ _)
    refine ⟨?_, ?_⟩
    · rw [Multiset.cons_coe, Multiset.coe_eq_coe]
      exact hp
    · simpa [BinaryHeap.size] using hp.length_eq
  · intro hne
    have hp := BinaryHeap.pop_snd_perm h hne
    refine ⟨h.heap[0]!, BinaryHeap.pop_fst h hne, hp.symm.subset (List.mem_cons_self _ _),
      ?_, ?_⟩
    · have h1 : (h.heap : Multiset Task) = h.heap[0]! ::ₘ (h.pop.2.heap : Multiset Task) := by
        rw [Multiset.cons_coe, Multiset.coe_eq_coe]
        exact hp
      rw [h1, Multiset.erase_cons_head]
    · simpa [BinaryHeap.size] using hp.length_eq.symm

/-- C16 at the heap built by pushing the timestamps 3, 1 and 2. -/
theorem push_pop_multiset_witness :
    heap312.heap ≠ [] ∧
    ∃ top, heap312.pop.1 = .ok top ∧ top ∈ heap312.heap ∧
      (heap312.pop.2.heap : Multiset Task) = (heap312.heap : Multiset Task).erase top ∧
      heap312.pop.2.size + 1 = heap312.size :=
  ⟨by decide, (push_pop_multiset heap312).2 (by decide)⟩

/-! ## The loop of `siftUp` -/

namespace BinaryHeap

theorem root_mem (heap : List Task) (hne : heap ≠ []) : heap[0]! ∈ heap := by
  rw [getElem!_pos heap 0 (List.length_pos.mpr hne)]
  exact List.getElem_mem _

theorem getElem!_swap_of_ne (heap : List Task) (i j m : Nat) (hi : m ≠ i) (hj : m ≠ j) :
    (swap heap i j)[m]! = heap[m]! := by
  unfold swap
  by_cases hm : m < heap.length
  · rw [getElem!_pos _ m (by simpa using hm), getElem!_pos heap m hm]
    rw [List.getElem_set_ne (Ne.symm hj), List.getElem_set_ne (Ne.symm hi)]
  · rw [getElem!_neg _ m (by simpa using hm), getElem!_neg heap m hm]

theorem siftUpLoop_fuel (fuel1 : Nat) :
    ∀ (fuel2 : Nat) (heap : List Task) (k : Nat), k ≤ fuel1 → k ≤ fuel2 →
      siftUpLoop fuel1 heap k = siftUpLoop fuel2 heap k := by
  induction fuel1 with
  | zero =>
    intro fuel2 heap k h1 _
    have hk : k = 0 := by omega
    subst hk
    cases fuel2 <;> simp [siftUpLoop]
  | succ n ih =>
    intro fuel2 heap k h1 h2
    cases fuel2 with
    | zero =>
      have hk : k = 0 := by omega
      subst hk
      simp [siftUpLoop]
    | succ m =>
      unfold siftUpLoop
      by_cases hk : k > 0
      · simp only [hk, if_true]
        rw [ih m (swap heap k ((k - 1) / 2)) ((k - 1) / 2) (by omega) (by omega)]
      · simp only [hk, if_false]

theorem siftUp_unfold (heap : List Task) (index : Nat) (h : index > 0) :
    siftUp heap index =
      if heap[index]!.timestamp > heap[(index - 1) / 2]!.timestamp then heap
      else siftUp (swap heap index ((index - 1) / 2)) ((index - 1) / 2) := by
  unfold siftUp
  obtain ⟨n, rfl⟩ : ∃ n, index = n + 1 := ⟨index - 1, by omega⟩
  rw [siftUpLoop]
  simp only [h, if_true, Task.gt, decide_eq_true_eq]
  rw [siftUpLoop_fuel n ((n + 1 - 1) / 2) _ _ (by omega) (le_refl _)]

theorem siftUpLoop_getElem!_gt (fuel : Nat) :
    ∀ (heap : List Task) (k j : Nat), k < j →
      (siftUpLoop fuel heap k)[j]! = heap[j]! := by
  induction fuel with
  | zero => intro heap k j _; rfl
  | succ n ih =>
    intro heap k j hkj
    unfold siftUpLoop
    by_cases hk : k > 0
    · simp only [hk, if_true]
      split
      · rfl
      · rw [ih _ _ j (by omega), getElem!_swap_of_ne heap k _ j (by omega) (by omega)]
    · simp only [hk, if_false]

end BinaryHeap

/-- C15 fails for a task pushed with the timestamp of its parent: the heap holds
one task with timestamp 5, a second task with timestamp 5 is pushed, and it is
swapped with its parent; it ends at index 0 and not at index 1, where it was
appended. -/
theorem push_swaps_equal_timestamps :
    (heap5.push ⟨⟨2, .returns⟩, 5⟩).heap = [⟨⟨2, .returns⟩, 5⟩, ⟨⟨1, .returns⟩, 5⟩] ∧
    (heap5.heap ++ [⟨⟨2, .returns⟩, 5⟩])[1]! = (⟨⟨2, .returns⟩, 5⟩ : Task) ∧
    (heap5.push ⟨⟨2, .returns⟩, 5⟩).heap[1]! ≠ (⟨⟨2, .returns⟩, 5⟩ : Task) := by
  decide

/-- C15, amended: `push` appends the task and then swaps it with its parent
until the child's timestamp is strictly greater than the parent's (the loop of
`siftUp` stops at `heap[index] > heap[parent]` and at the root, and swaps
otherwise).  A newly pushed task whose timestamp is greater than its parent's
stays where it was appended; one whose timestamp is smaller than or equal to
its parent's is swapped, so that the parent ends at the position of the
append. -/
theorem push_swaps_unless_greater (h : BinaryHeap) (t : Task) :
    (h.push t).heap = BinaryHeap.siftUp (h.heap ++ [t]) h.heap.length ∧
    (∀ (heap : List Task) (index : Nat), index > 0 →
      BinaryHeap.siftUp heap index =
        if heap[index]!.timestamp > heap[(index - 1) / 2]!.timestamp then heap
        else BinaryHeap.siftUp (BinaryHeap.swap heap index ((index - 1) / 2))
          ((index - 1) / 2)) ∧
    (∀ heap : List Task, BinaryHeap.siftUp heap 0 = heap) ∧
    (h.heap ≠ [] → t.timestamp > h.heap[(h.heap.length - 1) / 2]!.timestamp →
      (h.push t).heap = h.heap ++ [t]) ∧
    (h.heap ≠ [] → t.timestamp ≤ h.heap[(h.heap.length - 1) / 2]!.timestamp →
      (h.push t).heap[h.heap.length]! = h.heap[(h.heap.length - 1) / 2]!) := by
  have hpush : (h.push t).heap = BinaryHeap.siftUp (h.heap ++ [t]) h.heap.length := by
    simp [BinaryHeap.push]
  have hlast : (h.heap ++ [t])[h.heap.length]! = t := by
    rw [getElem!_pos (h.heap ++ [t]) h.heap.length (by simp)]
    simp
  have hparent : h.heap ≠ [] →
      (h.heap ++ [t])[(h.heap.length - 1) / 2]! = h.heap[(h.heap.length - 1) / 2]! := by
    intro hne
    have hl : (h.heap.length - 1) / 2 < h.heap.length := by
      have := List.length_pos.mpr hne
      omega
    rw [getElem!_pos (h.heap ++ [t]) _ (by simp; omega), getElem!_pos h.heap _ hl]
    exact List.getElem_append_left hl
  refine ⟨hpush, BinaryHeap.siftUp_unfold, ?_, ?_, ?_⟩
  · intro heap
    rfl
  · intro hne hgt
    have hpos := List.length_pos.mpr hne
    rw [hpush, BinaryHeap.siftUp_unfold _ _ hpos, hlast, hparent hne, if_pos hgt]
  · intro hne hle
    have hpos := List.length_pos.mpr hne
    rw [hpush, BinaryHeap.siftUp_unfold _ _ hpos, hlast, hparent hne, if_neg (by omega)]
    unfold BinaryHeap.siftUp
    rw [BinaryHeap.siftUpLoop_getElem!_gt _ _ _ _ (by omega)]
    rw [BinaryHeap.getElem!_swap _ _ _ _ (by simp) (by simp; omega)]
    have hne2 : h.heap.length ≠ (h.heap.length - 1) / 2 := by omega
    simp only [hne2, if_false, if_true]
    exact hparent hne

/-- C15, amended, at the heap with one task of timestamp 5: a task pushed with
timestamp 5 is swapped, one pushed with timestamp 6 is not. -/
theorem push_swaps_unless_greater_witness :
    heap5.heap ≠ [] ∧
    (heap5.push ⟨⟨2, .returns⟩, 6⟩).heap = heap5.heap ++ [⟨⟨2, .returns⟩, 6⟩] ∧
    (heap5.push ⟨⟨2, .returns⟩, 5⟩).heap[heap5.heap.length]!
      = heap5.heap[(heap5.heap.length - 1) / 2]! :=
  ⟨by decide,
    (push_swaps_unless_greater heap5 ⟨⟨2, .returns⟩, 6⟩).2.2.2.1 (by decide) (by decide),
    (push_swaps_unless_greater heap5 ⟨⟨2, .returns⟩, 5⟩).2.2.2.2 (by decide) (by decide)⟩

/-! ## The checked heap operations -/

namespace BinaryHeap

theorem read_of_lt (heap : List Task) (i : Nat) (h : i < heap.length) :
    read heap i = .ok heap[i]! := by
  simp [read, h]

theorem read_of_not_lt (heap : List Task) (i : Nat) (h : ¬ i < heap.length) :
    read heap i = .error .outOfBounds := by
  simp [read, h]

theorem ltChecked_of_lt (heap : List Task) (i j : Nat) (hi : i < heap.length)
    (hj : j < heap.length) : ltChecked heap i j = .ok (heap[i]!.lt heap[j]!) := by
  simp [ltChecked, read_of_lt, hi, hj]

theorem swapChecked_of_lt (heap : List Task) (i j : Nat) (hi : i < heap.length)
    (hj : j < heap.length) : swapChecked heap i j = .ok (swap heap i j) := by
  simp [swapChecked, read_of_lt, hi, hj, swap]

theorem siftUpChecked_eq (fuel : Nat) :
    ∀ (heap : List Task) (index : Nat), index ≤ fuel → index < heap.length →
      siftUpChecked fuel heap index = .ok (siftUpLoop fuel heap index) := by
  induction fuel with
  | zero =>
    intro heap index h1 _
    have h0 : ¬ index > 0 := by omega
    simp [siftUpChecked, siftUpLoop, h0]
  | succ n ih =>
    intro heap index h1 h2
    unfold siftUpChecked siftUpLoop
    by_cases hk : index > 0
    · have hp : (index - 1) / 2 < heap.length := by omega
      simp only [hk, if_true, read_of_lt heap index h2, read_of_lt heap _ hp,
        swapChecked_of_lt heap index _ h2 hp]
      split
      · rfl
      · exact ih _ _ (by omega) (by rw [length_swap]; exact hp)
    · simp only [hk, if_false]

theorem siftUpChecked_ne_outOfFuel (fuel : Nat) :
    ∀ (heap : List Task) (index : Nat), index ≤ fuel →
      siftUpChecked fuel heap index ≠ .error .outOfFuel := by
  intro heap index h1
  by_cases h0 : index > 0
  · by_cases h2 : index < heap.length
    · rw [siftUpChecked_eq fuel heap index h1 h2]
      simp
    · obtain ⟨n, rfl⟩ : ∃ n, fuel = n + 1 := ⟨fuel - 1, by omega⟩
      unfold siftUpChecked
      simp only [h0, if_true, read_of_not_lt heap index h2]
      simp
  · cases fuel <;> simp [siftUpChecked, h0]

theorem siftDownChecked_eq (fuel : Nat) :
    ∀ (heap : List Task) (index : Nat), heap.length ≤ fuel + index →
      siftDownChecked fuel heap index = .ok (siftDownLoop fuel heap index) := by
  induction fuel with
  | zero =>
    intro heap index h1
    have h0 : ¬ index < heap.length := by omega
    simp [siftDownChecked, siftDownLoop, h0]
  | succ n ih =>
    intro heap index h1
    unfold siftDownChecked siftDownLoop
    by_cases hk : index < heap.length
    · simp only [hk, if_true]
      have e1 : (if 2 * index + 1 < heap.length then ltChecked heap (2 * index + 1) index
          else .ok false) =
          .ok (decide (2 * index + 1 < heap.length) && heap[2 * index + 1]!.lt heap[index]!) := by
        by_cases hl : 2 * index + 1 < heap.length
        · simp [hl, ltChecked_of_lt heap _ _ hl hk]
        · simp [hl]
      rw [e1]
      simp only []
      generalize hs1 : (if (decide (2 * index + 1 < heap.length) &&
          heap[2 * index + 1]!.lt heap[index]!) = true then 2 * index + 1 else index) = s1
      have hs1l : s1 < heap.length ∧ (s1 = index ∨ s1 = 2 * index + 1) := by
        rw [← hs1]
        split
        · rename_i hc
          simp only [Bool.and_eq_true, decide_eq_true_eq] at hc
          exact ⟨hc.1, Or.inr rfl⟩
        · exact ⟨hk, Or.inl rfl⟩
      have e2 : (if 2 * index + 2 < heap.length then ltChecked heap (2 * index + 2) s1
          else .ok false) =
          .ok (decide (2 * index + 2 < heap.length) && heap[2 * index + 2]!.lt heap[s1]!) := by
        by_cases hr : 2 * index + 2 < heap.length
        · simp [hr, ltChecked_of_lt heap _ _ hr hs1l.1]
        · simp [hr]
      rw [e2]
      simp only []
      generalize hs2 : (if (decide (2 * index + 2 < heap.length) &&
          heap[2 * index + 2]!.lt heap[s1]!) = true then 2 * index + 2 else s1) = s2
      have hs2l : s2 < heap.length ∧ (s2 = index ∨ s2 > index) := by
        rw [← hs2]
        split
        · rename_i hc
          simp only [Bool.and_eq_true, decide_eq_true_eq] at hc
          exact ⟨hc.1, Or.inr (by omega)⟩
        · exact ⟨hs1l.1, by rcases hs1l.2 with h | h <;> omega⟩
      split
      · rfl
      · rename_i hne
        rw [swapChecked_of_lt heap index s2 hk hs2l.1]
        exact ih _ _ (by rw [length_swap]; rcases hs2l.2 with h | h <;> omega)
    · simp only [hk, if_false]

theorem siftDownLoop_fuel (fuel1 : Nat) :
    ∀ (fuel2 : Nat) (heap : List Task) (k : Nat),
      heap.length ≤ fuel1 + k → heap.length ≤ fuel2 + k →
      siftDownLoop fuel1 heap k = siftDownLoop fuel2 heap k := by
  induction fuel1 with
  | zero =>
    intro fuel2 heap k h1 _
    have h0 : ¬ k < heap.length := by omega
    cases fuel2 <;> simp [siftDownLoop, h0]
  | succ n ih =>
    intro fuel2 heap k h1 h2
    cases fuel2 with
    | zero =>
      have h0 : ¬ k < heap.length := by omega
      simp [siftDownLoop, h0]
    | succ m =>
      unfold siftDownLoop
      by_cases hk : k < heap.length
      · simp only [hk, if_true]
        generalize hs1 : (if (decide (2 * k + 1 < heap.length) &&
            heap[2 * k + 1]!.lt heap[k]!) = true then 2 * k + 1 else k) = s1
        have hs1l : s1 = k ∨ s1 = 2 * k + 1 := by
          rw [← hs1]
          split
          · exact Or.inr rfl
          · exact Or.inl rfl
        generalize hs2 : (if (decide (2 * k + 2 < heap.length) &&
            heap[2 * k + 2]!.lt heap[s1]!) = true then 2 * k + 2 else s1) = s2
        have hs2l : s2 = k ∨ s2 > k := by
          rw [← hs2]
          split
          · exact Or.inr (by omega)
          · rcases hs1l with h | h <;> omega
        split
        · rfl
        · exact ih m _ _ (by rw [length_swap]; rcases hs2l with h | h <;> omega)
            (by rw [length_swap]; rcases hs2l with h | h <;> omega)
      · simp only [hk, if_false]

theorem getElem!_last (heap : List Task) (hne : heap ≠ []) :
    heap[heap.length - 1]! = heap.getLast?.getD default := by
  have hl := List.length_pos.mpr hne
  rw [getElem!_pos heap (heap.length - 1) (by omega), List.getLast?_eq_getElem?,
    List.getElem?_eq_getElem (by omega)]
  rfl

theorem pushChecked_eq (h : BinaryHeap) (task : Task) :
    pushChecked h task = .ok (h.push task) := by
  unfold pushChecked push siftUp
  simp only []
  rw [siftUpChecked_eq _ _ _ (le_refl _) (by simp)]

theorem popChecked_eq (h : BinaryHeap) : popChecked h = .ok h.pop := by
  unfold popChecked pop
  by_cases he : h.heap.isEmpty = true
  · simp only [he, if_true]
  · have hne : h.heap ≠ [] := by
      intro h0
      rw [h0] at he
      exact he rfl
    have hl := List.length_pos.mpr hne
    simp only [he, Bool.false_eq_true, if_false, read_of_lt h.heap 0 hl,
      read_of_lt h.heap (h.heap.length - 1) (by omega), getElem!_last h.heap hne]
    have hs : (h.heap.set 0 (h.heap.getLast?.getD default)).isEmpty = false := by
      cases hh : h.heap with
      | nil => exact absurd hh hne
      | cons a l => rfl
    simp only [hs, Bool.false_eq_true, if_false]
    split
    · rw [siftDownChecked_eq _ _ _ (by omega)]
      rfl
    · rfl

end BinaryHeap

/-- C20: `siftUp` and `siftDown` end for every heap and every start index,
after at most `index` and at most `size - index` iterations, and more
iterations allowed change nothing; and every vector access of `push`, `pop`,
`siftUp` and `siftDown` is in bounds: the checked operations, which fail on an
access at an index that is not below the size, return what the unchecked ones
return.  For `siftUp` this needs `index < size`, which holds in `push`, where
`index` is the last index of the grown vector; `siftDown` compares each child
index with `size` before reading, for every start index, and `pop` calls it on
a non-empty vector. -/
theorem sift_terminates_in_bounds :
    (∀ (heap : List Task) (index fuel : Nat), index ≤ fuel →
      BinaryHeap.siftUpChecked fuel heap index ≠ .error .outOfFuel ∧
      BinaryHeap.siftUpLoop fuel heap index = BinaryHeap.siftUp heap index) ∧
    (∀ (heap : List Task) (index fuel : Nat), index ≤ fuel → index < heap.length →
      BinaryHeap.siftUpChecked fuel heap index = .ok (BinaryHeap.siftUp heap index)) ∧
    (∀ (heap : List Task) (index fuel : Nat), heap.length ≤ fuel + index →
      BinaryHeap.siftDownChecked fuel heap index = .ok (BinaryHeap.siftDown heap index)) ∧
    (∀ (h : BinaryHeap) (task : Task),
      (h.heap ++ [task]).length - 1 < (h.heap ++ [task]).length ∧
      h.pushChecked task = .ok (h.push task)) ∧
    (∀ h : BinaryHeap, h.popChecked = .ok h.pop) := by
  refine ⟨?_, ?_, ?_, ?_, BinaryHeap.popChecked_eq⟩
  · intro heap index fuel h1
    exact ⟨BinaryHeap.siftUpChecked_ne_outOfFuel fuel heap index h1,
      BinaryHeap.siftUpLoop_fuel fuel index heap index h1 (le_refl _)⟩
  · intro heap index fuel h1 h2
    rw [BinaryHeap.siftUpChecked_eq fuel heap index h1 h2,
      BinaryHeap.siftUpLoop_fuel fuel index heap index h1 (le_refl _)]
    rfl
  · intro heap index fuel h1
    rw [BinaryHeap.siftDownChecked_eq fuel heap index h1,
      BinaryHeap.siftDownLoop_fuel fuel heap.length heap index h1 (by omega)]
    rfl
  · intro h task
    exact ⟨by simp, BinaryHeap.pushChecked_eq h task⟩

/-- C20 at the heap built by pushing the timestamps 3, 1 and 2: `siftUp` from
the last index, `siftDown` from the root, and a `siftUp` from an index that is
not in the vector, which the checked operation refuses. -/
theorem sift_terminates_in_bounds_witness :
    (2 ≤ 2 ∧ 2 < heap312.heap.length ∧
      BinaryHeap.siftUpChecked 2 heap312.heap 2 = .ok (BinaryHeap.siftUp heap312.heap 2)) ∧
    (heap312.heap.length ≤ 3 + 0 ∧
      BinaryHeap.siftDownChecked 3 heap312.heap 0
        = .ok (BinaryHeap.siftDown heap312.heap 0)) ∧
    BinaryHeap.siftUpChecked 7 heap312.heap 7 = .error .outOfBounds :=
  ⟨⟨le_refl _, by decide,
      sift_terminates_in_bounds.2.1 heap312.heap 2 2 (le_refl _) (by decide)⟩,
    ⟨by decide, sift_terminates_in_bounds.2.2.1 heap312.heap 0 3 (by decide)⟩,
    rfl⟩

/-! ## The scheduler: lemmas -/

theorem int32_succ (x : Int) : int32 (int32 x + 1) = int32 (x + 1) := by
  unfold int32
  omega

theorem int32_of_range (x : Int) (h1 : -2147483648 ≤ x) (h2 : x < 2147483648) :
    int32 x = x := by
  unfold int32
  omega

namespace MainCpp

namespace TaskScheduler

/-- The three branches of the loop body, by the root of the heap. -/
theorem workerThreadBody_eq (s : TaskScheduler) (now : Int) :
    s.workerThreadBody now =
      if s.taskQueue.heap = [] ∨ s.inputInProgress = true then (.wait, s)
      else if s.taskQueue.heap[0]!.timestamp ≤ now then
        (.call s.taskQueue.heap[0]!,
          { s with taskQueue := s.taskQueue.pop.2, worker := .calling s.taskQueue.heap[0]! })
      else
        (.waitUntil (from_time_t s.taskQueue.heap[0]!.timestamp),
          { s with taskQueue := s.taskQueue.pop.2.push s.taskQueue.heap[0]! }) := by
  unfold workerThreadBody
  by_cases hq : s.taskQueue.heap = []
  · simp [hq, BinaryHeap.empty]
  · have hempty : s.taskQueue.empty = false := by
      cases hh : s.taskQueue.heap with
      | nil => exact absurd hh hq
      | cons a l => simp [BinaryHeap.empty, hh]
    by_cases hi : s.inputInProgress = true
    · simp [hi]
    · simp only [hempty, hi, hq, Bool.or_self, Bool.false_eq_true, if_false, or_self]
      have h1 := BinaryHeap.pop_fst _ hq
      cases hp : s.taskQueue.pop with
      | mk r q =>
        rw [hp] at h1
        simp only at h1
        subst h1
        rfl

theorem workerThreadBody_call (s s1 : TaskScheduler) (now : Int) (task : Task)
    (h : s.workerThreadBody now = (.call task, s1)) :
    s.inputInProgress = false ∧ s.taskQueue.heap ≠ [] ∧ s.taskQueue.pop.1 = .ok task ∧
      task.timestamp ≤ now ∧
      s1 = { s with taskQueue := s.taskQueue.pop.2, worker := .calling task } := by
  rw [workerThreadBody_eq] at h
  split at h
  · simp at h
  · rename_i hc
    have hne : s.taskQueue.heap ≠ [] := fun h0 => hc (Or.inl h0)
    have hi : s.inputInProgress = false := by
      cases hh : s.inputInProgress with
      | false => rfl
      | true => exact absurd (Or.inr hh) hc
    split at h
    · rename_i hle
      simp only [Prod.mk.injEq, Step.call.injEq] at h
      obtain ⟨h1, h2⟩ := h
      subst h1
      exact ⟨hi, hne, BinaryHeap.pop_fst _ hne, hle, h2.symm⟩
    · simp at h

theorem workerThreadIterate_call (s s1 : TaskScheduler) (now : Int) (task : Task)
    (h : s.workerThreadIterate now = (.call task, s1)) :
    s.running = true ∧ s.workerThreadBody now = (.call task, s1) := by
  unfold workerThreadIterate at h
  split at h
  · rename_i hr
    exact ⟨hr, h⟩
  · simp at h

theorem workerThreadBody_wait (s s1 : TaskScheduler) (now : Int)
    (h : s.workerThreadBody now = (.wait, s1)) : s1 = s := by
  rw [workerThreadBody_eq] at h
  split at h
  · simp only [Prod.mk.injEq, true_and] at h
    exact h.symm
  · split at h <;> simp at h

theorem workerThreadBody_waitUntil (s s1 : TaskScheduler) (now deadline : Int)
    (h : s.workerThreadBody now = (.waitUntil deadline, s1)) :
    ∃ task, s.inputInProgress = false ∧ s.taskQueue.heap ≠ [] ∧
      s.taskQueue.pop.1 = .ok task ∧ now < task.timestamp ∧
      deadline = from_time_t task.timestamp ∧
      s1 = { s with taskQueue := s.taskQueue.pop.2.push task } := by
  rw [workerThreadBody_eq] at h
  split at h
  · simp at h
  · rename_i hc
    have hne : s.taskQueue.heap ≠ [] := fun h0 => hc (Or.inl h0)
    have hi : s.inputInProgress = false := by
      cases hh : s.inputInProgress with
      | false => rfl
      | true => exact absurd (Or.inr hh) hc
    split at h
    · simp at h
    · rename_i hle
      simp only [Prod.mk.injEq, Step.waitUntil.injEq] at h
      exact ⟨s.taskQueue.heap[0]!, hi, hne, BinaryHeap.pop_fst _ hne, by omega, h.1.symm,
        h.2.symm⟩

theorem workerThreadIterate_eq (s : TaskScheduler) (now : Int) (hr : s.running = true) :
    s.workerThreadIterate now = s.workerThreadBody now := by
  simp [workerThreadIterate, hr]

theorem workerThreadIterate_not_exit (s s1 : TaskScheduler) (now : Int) (st : Step)
    (h : s.workerThreadIterate now = (st, s1)) (hst : st ≠ .exit) :
    s.running = true ∧ s.workerThreadBody now = (st, s1) := by
  unfold workerThreadIterate at h
  split at h
  · rename_i hr
    exact ⟨hr, h⟩
  · simp only [Prod.mk.injEq] at h
    exact absurd h.1.symm hst

theorem workerThreadComplete_some (s s1 : TaskScheduler) (task : Task)
    (h : s.workerThreadComplete task = some s1) :
    task.func.outcome ≠ .throwsOther ∧
      s1 = { s with completedTasks := int32 (s.completedTasks + 1), worker := .ready } := by
  unfold workerThreadComplete at h
  split at h
  · simp at h
  · rename_i hne
    simp only [Option.some.injEq] at h
    exact ⟨by intro h0; exact hne h0, h.symm⟩

theorem workerThreadComplete_eq (s : TaskScheduler) (task : Task) :
    s.workerThreadComplete task =
      if task.func.outcome = .throwsOther then none
      else some { s with completedTasks := int32 (s.completedTasks + 1), worker := .ready } := by
  unfold workerThreadComplete
  cases task.func.outcome <;> simp

theorem Add_ok (s s1 : TaskScheduler) (now : Int) (task : Func) (timestamp : Int)
    (h : s.Add now task timestamp = (.ok (), s1)) :
    now ≤ timestamp ∧ s1 = s.AddLocked task timestamp := by
  unfold Add at h
  split at h
  · simp at h
  · simp only [Prod.mk.injEq, true_and] at h
    exact ⟨by omega, h.symm⟩

theorem Add_error (s s1 : TaskScheduler) (now : Int) (task : Func) (timestamp : Int)
    (e : Error) (h : s.Add now task timestamp = (.error e, s1)) :
    timestamp < now ∧ e = .timestampInPast ∧ s1 = s := by
  unfold Add at h
  split at h
  · rename_i hlt
    simp only [Prod.mk.injEq, Except.error.injEq] at h
    exact ⟨hlt, h.1.symm, h.2.symm⟩
  · simp at h

theorem Start_some (s s1 : TaskScheduler) (h : s.Start = some s1) :
    (s.running = true ∧ s1 = s) ∨
      (s.running = false ∧ s.worker = .absent ∧
        s1 = { s with running := true, worker := .ready }) := by
  unfold Start at h
  split at h
  · rename_i hr
    simp only [Bool.not_eq_true', ] at hr
    split at h
    · rename_i hw
      simp only [Option.some.injEq] at h
      exact Or.inr ⟨hr, hw, h.symm⟩
    · simp at h
  · rename_i hr
    simp only [Bool.not_eq_true', Bool.not_eq_false] at hr
    simp only [Option.some.injEq] at h
    exact Or.inl ⟨hr, h.symm⟩

/-- The effect of `Stop`, by the state of the worker at the call. -/
theorem Stop_eq (s : TaskScheduler) (now : Int) :
    s.Stop now =
      if s.worker = .entered then
        if s.taskQueue.heap = [] ∨ s.inputInProgress = true then none
        else if s.taskQueue.heap[0]!.timestamp ≤ now then
          if s.taskQueue.heap[0]!.func.outcome = .throwsOther then none
          else
            some { s with
              taskQueue := s.taskQueue.pop.2, running := false, worker := .absent,
              completedTasks := int32 (s.completedTasks + 1) }
        else
          some { s with
            taskQueue := s.taskQueue.pop.2.push s.taskQueue.heap[0]!,
            running := false, worker := .absent }
      else if s.worker.throwing = true then none
      else
        some { s with
          running := false, worker := .absent,
          completedTasks :=
            if s.worker.isCalling = true then int32 (s.completedTasks + 1)
            else s.completedTasks } := by
  cases hw : s.worker with
  | absent => simp [Stop, join, hw, Worker.throwing, Worker.isCalling]
  | ready => simp [Stop, join, hw, Worker.throwing, Worker.isCalling]
  | entered =>
    simp only [Stop, join, hw, workerThreadBody_eq, if_true]
    by_cases hc : s.taskQueue.heap = [] ∨ s.inputInProgress = true
    · simp only [hc, if_true]
    · simp only [hc, if_false]
      by_cases hd : s.taskQueue.heap[0]!.timestamp ≤ now
      · simp only [hd, if_true, workerThreadComplete_eq]
        by_cases ho : s.taskQueue.heap[0]!.func.outcome = .throwsOther
        · simp only [ho, if_true, Option.map_none']
        · simp only [ho, if_false, Option.map_some']
      · simp only [hd, if_false]
  | calling t =>
    by_cases ho : t.func.outcome = .throwsOther
    · simp [Stop, join, hw, workerThreadComplete_eq, ho, Worker.throwing]
    · simp [Stop, join, hw, workerThreadComplete_eq, ho, Worker.throwing, Worker.isCalling]

/-- The task that the worker calls while `Stop` waits, if any. -/
theorem stopCalls_eq (s : TaskScheduler) (now : Int) :
    s.stopCalls now =
      if s.worker = .entered ∧ ¬ (s.taskQueue.heap = [] ∨ s.inputInProgress = true) ∧
          s.taskQueue.heap[0]!.timestamp ≤ now then [s.taskQueue.heap[0]!]
      else [] := by
  cases hw : s.worker with
  | absent => simp [stopCalls, hw]
  | ready => simp [stopCalls, hw]
  | calling t => simp [stopCalls, hw]
  | entered =>
    simp only [stopCalls, hw, workerThreadBody_eq, true_and]
    by_cases hc : s.taskQueue.heap = [] ∨ s.inputInProgress = true
    · simp only [hc, if_true, not_true_eq_false, false_and, if_false]
    · simp only [hc, if_false, not_false_eq_true, true_and]
      by_cases hd : s.taskQueue.heap[0]!.timestamp ≤ now
      · simp only [hd, if_true]
      · simp only [hd, if_false]

end TaskScheduler

end MainCpp

namespace MainCpp

namespace World

theorem run_append : ∀ (es1 es2 : List Event) (w : World),
    w.run (es1 ++ es2) = (w.run es1).bind fun w1 => w1.run es2 := by
  intro es1
  induction es1 with
  | nil => intro es2 w; simp [run]
  | cons e es ih =>
    intro es2 w
    simp only [List.cons_append, run]
    cases w.step e with
    | none => simp
    | some w1 => simp [ih]

theorem step_iterate_eq (w : World) :
    w.step .iterate =
      if w.scheduler.worker = .ready ∧ w.scheduler.running = true then
        if w.scheduler.taskQueue.heap = [] ∨ w.scheduler.inputInProgress = true then some w
        else if w.scheduler.taskQueue.heap[0]!.timestamp ≤ w.clock then
          some { w with
            scheduler := { w.scheduler with
              taskQueue := w.scheduler.taskQueue.pop.2,
              worker := .calling w.scheduler.taskQueue.heap[0]! },
            invoked := w.invoked ++ [w.scheduler.taskQueue.heap[0]!] }
        else
          some { w with
            scheduler := { w.scheduler with
              taskQueue := w.scheduler.taskQueue.pop.2.push w.scheduler.taskQueue.heap[0]! } }
      else none := by
  by_cases hw : w.scheduler.worker = .ready
  · by_cases hr : w.scheduler.running = true
    · simp only [step, hw, TaskScheduler.workerThreadIterate_eq _ _ hr,
        TaskScheduler.workerThreadBody_eq, hr, and_self, if_true]
      by_cases hc : w.scheduler.taskQueue.heap = [] ∨ w.scheduler.inputInProgress = true
      · simp only [hc, if_true]
      · simp only [hc, if_false]
        by_cases hd : w.scheduler.taskQueue.heap[0]!.timestamp ≤ w.clock
        · simp only [hd, if_true]
        · simp only [hd, if_false]
    · have hr' : w.scheduler.running = false := by simpa using hr
      simp [step, hw, TaskScheduler.workerThreadIterate, hr']
  · simp only [step, hw, false_and, if_false]

theorem step_enter_eq (w : World) :
    w.step .enter =
      if w.scheduler.worker = .ready ∧ w.scheduler.running = true then
        some { w with scheduler := { w.scheduler with worker := .entered } }
      else none := by
  by_cases hw : w.scheduler.worker = .ready
  · by_cases hr : w.scheduler.running = true
    · simp only [step, hw, hr, and_self, if_true]
    · simp only [step, hw, hr, and_false, if_false, Bool.false_eq_true]
  · simp only [step, hw, false_and, if_false]

theorem step_body_eq (w : World) :
    w.step .body =
      if w.scheduler.worker = .entered then
        if w.scheduler.taskQueue.heap = [] ∨ w.scheduler.inputInProgress = true then
          some { w with scheduler := { w.scheduler with worker := .ready } }
        else if w.scheduler.taskQueue.heap[0]!.timestamp ≤ w.clock then
          some { w with
            scheduler := { w.scheduler with
              taskQueue := w.scheduler.taskQueue.pop.2,
              worker := .calling w.scheduler.taskQueue.heap[0]! },
            invoked := w.invoked ++ [w.scheduler.taskQueue.heap[0]!] }
        else
          some { w with
            scheduler := { w.scheduler with
              taskQueue := w.scheduler.taskQueue.pop.2.push w.scheduler.taskQueue.heap[0]!,
              worker := .ready } }
      else none := by
  by_cases hw : w.scheduler.worker = .entered
  · simp only [step, hw, TaskScheduler.workerThreadBody_eq, if_true]
    by_cases hc : w.scheduler.taskQueue.heap = [] ∨ w.scheduler.inputInProgress = true
    · simp only [hc, if_true]
    · simp only [hc, if_false]
      by_cases hd : w.scheduler.taskQueue.heap[0]!.timestamp ≤ w.clock
      · simp only [hd, if_true]
      · simp only [hd, if_false]
  · simp only [step, hw, if_false]

theorem step_add_eq (w : World) (task : Func) (timestamp : Int) :
    w.step (.add task timestamp) =
      if timestamp < w.clock then some w
      else
        some { w with
          scheduler := w.scheduler.AddLocked task timestamp,
          accepted := w.accepted ++ [⟨task, timestamp⟩] } := by
  by_cases h : timestamp < w.clock <;> simp [step, TaskScheduler.Add, h]

theorem step_addTest_eq (w : World) (task : Func) (timestamp : Int) :
    w.step (.addTest task timestamp) =
      if timestamp < w.clock then some w
      else some { w with pending := w.pending ++ [⟨task, timestamp⟩] } := by
  by_cases h : timestamp < w.clock <;> simp [step, TaskScheduler.Add, h]

theorem step_start_eq (w : World) :
    w.step .start =
      if w.scheduler.running = true then some w
      else if w.scheduler.worker = .absent then
        some { w with scheduler := { w.scheduler with running := true, worker := .ready } }
      else none := by
  by_cases hr : w.scheduler.running = true
  · simp [step, TaskScheduler.Start, hr]
  · have hr' : w.scheduler.running = false := by simpa using hr
    cases hw : w.scheduler.worker <;> simp [step, TaskScheduler.Start, hr', hw]

theorem step_stop_eq (w : World) :
    w.step .stop =
      if w.scheduler.worker = .entered then
        if w.scheduler.taskQueue.heap = [] ∨ w.scheduler.inputInProgress = true then none
        else if w.scheduler.taskQueue.heap[0]!.timestamp ≤ w.clock then
          if w.scheduler.taskQueue.heap[0]!.func.outcome = .throwsOther then none
          else
            some { w with
              scheduler := { w.scheduler with
                taskQueue := w.scheduler.taskQueue.pop.2, running := false, worker := .absent,
                completedTasks := int32 (w.scheduler.completedTasks + 1) },
              invoked := w.invoked ++ [w.scheduler.taskQueue.heap[0]!] }
        else
          some { w with
            scheduler := { w.scheduler with
              taskQueue := w.scheduler.taskQueue.pop.2.push w.scheduler.taskQueue.heap[0]!,
              running := false, worker := .absent } }
      else if w.scheduler.worker.throwing = true then none
      else
        some { w with
          scheduler := { w.scheduler with
            running := false, worker := .absent,
            completedTasks :=
              if w.scheduler.worker.isCalling = true then int32 (w.scheduler.completedTasks + 1)
              else w.scheduler.completedTasks } } := by
  simp only [step, TaskScheduler.Stop_eq, TaskScheduler.stopCalls_eq]
  by_cases hw : w.scheduler.worker = .entered
  · simp only [hw, if_true, true_and]
    by_cases hc : w.scheduler.taskQueue.heap = [] ∨ w.scheduler.inputInProgress = true
    · simp only [hc, if_true, Option.map_none']
    · simp only [hc, if_false, not_false_eq_true, true_and]
      by_cases hd : w.scheduler.taskQueue.heap[0]!.timestamp ≤ w.clock
      · simp only [hd, if_true]
        by_cases ho : w.scheduler.taskQueue.heap[0]!.func.outcome = .throwsOther
        · simp only [ho, if_true, Option.map_none']
        · simp only [ho, if_false, Option.map_some']
      · simp only [hd, if_false, Option.map_some', List.append_nil]
  · simp only [hw, if_false, false_and, List.append_nil]
    by_cases ht : w.scheduler.worker.throwing = true
    · simp only [ht, if_true, Option.map_none']
    · simp only [ht, Bool.false_eq_true, if_false, Option.map_some']

theorem step_complete_eq (w : World) :
    w.step .complete =
      if w.scheduler.worker.isCalling = true ∧ w.scheduler.worker.throwing = false then
        some { w with scheduler := { w.scheduler with
          completedTasks := int32 (w.scheduler.completedTasks + 1), worker := .ready } }
      else none := by
  cases hw : w.scheduler.worker with
  | absent => simp [step, hw, Worker.isCalling]
  | ready => simp [step, hw, Worker.isCalling]
  | entered => simp [step, hw, Worker.isCalling]
  | calling t =>
    cases ho : t.func.outcome <;>
      simp [step, hw, TaskScheduler.workerThreadComplete, ho, Worker.isCalling,
        Worker.throwing]

/-- An event adds no called action, or one whose timestamp is not above the
clock value of the event. -/
theorem step_invoked (w w1 : World) (e : Event) (h : w.step e = some w1) :
    w1.invoked = w.invoked ∨
      ∃ task, w1.invoked = w.invoked ++ [task] ∧ task.timestamp ≤ w.clock ∧
        (e = .iterate ∨ e = .body ∨ e = .stop) := by
  cases e with
  | tick n => simp only [step, Option.some.injEq] at h; subst h; exact Or.inl rfl
  | setClock n => simp only [step, Option.some.injEq] at h; subst h; exact Or.inl rfl
  | add task timestamp =>
    rw [step_add_eq] at h
    split at h <;> (simp only [Option.some.injEq] at h; subst h; exact Or.inl rfl)
  | addTest task timestamp =>
    rw [step_addTest_eq] at h
    split at h <;> (simp only [Option.some.injEq] at h; subst h; exact Or.inl rfl)
  | addInsert i =>
    simp only [step] at h
    split at h
    · simp only [Option.some.injEq] at h; subst h; exact Or.inl rfl
    · simp at h
  | start =>
    simp only [step, Option.map_eq_some'] at h
    obtain ⟨s, _, rfl⟩ := h
    exact Or.inl rfl
  | stop =>
    rw [step_stop_eq] at h
    split at h
    · split at h
      · simp at h
      · split at h
        · rename_i hd
          split at h
          · simp at h
          · simp only [Option.some.injEq] at h
            subst h
            exact Or.inr ⟨_, rfl, hd, Or.inr (Or.inr rfl)⟩
        · simp only [Option.some.injEq] at h; subst h; exact Or.inl rfl
    · split at h
      · simp at h
      · simp only [Option.some.injEq] at h; subst h; exact Or.inl rfl
  | startInput => simp only [step, Option.some.injEq] at h; subst h; exact Or.inl rfl
  | stopInput => simp only [step, Option.some.injEq] at h; subst h; exact Or.inl rfl
  | iterate =>
    rw [step_iterate_eq] at h
    split at h
    · split at h
      · simp only [Option.some.injEq] at h; subst h; exact Or.inl rfl
      · split at h
        · rename_i hd
          simp only [Option.some.injEq] at h
          subst h
          exact Or.inr ⟨_, rfl, hd, Or.inl rfl⟩
        · simp only [Option.some.injEq] at h; subst h; exact Or.inl rfl
    · simp at h
  | enter =>
    rw [step_enter_eq] at h
    split at h
    · simp only [Option.some.injEq] at h; subst h; exact Or.inl rfl
    · simp at h
  | body =>
    rw [step_body_eq] at h
    split at h
    · split at h
      · simp only [Option.some.injEq] at h; subst h; exact Or.inl rfl
      · split at h
        · rename_i hd
          simp only [Option.some.injEq] at h
          subst h
          exact Or.inr ⟨_, rfl, hd, Or.inr (Or.inl rfl)⟩
        · simp only [Option.some.injEq] at h; subst h; exact Or.inl rfl
    · simp at h
  | complete =>
    rw [step_complete_eq] at h
    split at h
    · simp only [Option.some.injEq] at h; subst h; exact Or.inl rfl
    · simp at h

end World

end MainCpp

/-! ## The invariant of a run -/

namespace MainCpp

namespace World

theorem inv_start (clock : Int) : Inv (start clock) where
  heap_order := BinaryHeap.heapOrder_nil
  accounted := List.Perm.refl _
  task_count := by simp [start, TaskScheduler.new, int32]
  completed_count := by simp [start, TaskScheduler.new, Worker.inFlight, int32]
  thread := by simp [start, TaskScheduler.new]
  in_progress := by intro task h; simp [start, TaskScheduler.new] at h

theorem inv_clock (w : World) (c : Int) (hinv : Inv w) : Inv { w with clock := c } :=
  ⟨hinv.heap_order, hinv.accounted, hinv.task_count, hinv.completed_count, hinv.thread,
    hinv.in_progress⟩

theorem inv_pending (w : World) (p : List Task) (hinv : Inv w) :
    Inv { w with pending := p } :=
  ⟨hinv.heap_order, hinv.accounted, hinv.task_count, hinv.completed_count, hinv.thread,
    hinv.in_progress⟩

theorem inv_insert (w : World) (t : Task) (p : List Task) (hinv : Inv w) :
    Inv { w with
      scheduler := w.scheduler.AddLocked t.func t.timestamp,
      accepted := w.accepted ++ [t],
      pending := p } := by
  have hp := BinaryHeap.push_spec w.scheduler.taskQueue t hinv.heap_order
  refine ⟨hp.1, ?_, ?_, hinv.completed_count, hinv.thread, hinv.in_progress⟩
  · show (w.accepted ++ [t]).Perm (w.invoked ++ (w.scheduler.taskQueue.push t).heap)
    have h1 : (w.invoked ++ (w.scheduler.taskQueue.push t).heap).Perm
        (w.invoked ++ (w.scheduler.taskQueue.heap ++ [t])) :=
      List.Perm.append_left _ hp.2
    rw [← List.append_assoc] at h1
    exact (List.Perm.append_right _ hinv.accounted).trans h1.symm
  · show int32 (w.scheduler.taskCount + 1) = int32 ((w.accepted ++ [t]).length : Nat)
    rw [hinv.task_count, int32_succ]
    simp

theorem inv_input (w : World) (b : Bool) (hinv : Inv w) :
    Inv { w with scheduler := { w.scheduler with inputInProgress := b } } :=
  ⟨hinv.heap_order, hinv.accounted, hinv.task_count, hinv.completed_count, hinv.thread,
    hinv.in_progress⟩

theorem inv_spawn (w : World) (hinv : Inv w) (hw : w.scheduler.worker = .absent) :
    Inv { w with scheduler := { w.scheduler with running := true, worker := .ready } } := by
  refine ⟨hinv.heap_order, hinv.accounted, hinv.task_count, ?_, by simp, by simp⟩
  have := hinv.completed_count
  rw [hw] at this
  simpa [Worker.inFlight] using this

theorem inv_idle (w : World) (k : Worker) (hinv : Inv w)
    (hw : w.scheduler.worker = .ready ∨ w.scheduler.worker = .entered)
    (hk : k = .ready ∨ k = .entered) :
    Inv { w with scheduler := { w.scheduler with worker := k } } := by
  have hr : w.scheduler.running = true :=
    hinv.thread.mpr (by rcases hw with h | h <;> rw [h] <;> simp)
  refine ⟨hinv.heap_order, hinv.accounted, hinv.task_count, ?_, ?_, ?_⟩
  · have := hinv.completed_count
    rcases hw with h | h <;> rcases hk with h1 | h1 <;> rw [h] at this <;> subst h1 <;>
      simpa [Worker.inFlight] using this
  · rcases hk with h1 | h1 <;> subst h1 <;> simp [hr]
  · intro task h
    rcases hk with h1 | h1 <;> subst h1 <;> simp at h

theorem inv_call (w : World) (hinv : Inv w)
    (hw : w.scheduler.worker = .ready ∨ w.scheduler.worker = .entered)
    (hne : w.scheduler.taskQueue.heap ≠ []) :
    Inv { w with
      scheduler := { w.scheduler with
        taskQueue := w.scheduler.taskQueue.pop.2,
        worker := .calling w.scheduler.taskQueue.heap[0]! },
      invoked := w.invoked ++ [w.scheduler.taskQueue.heap[0]!] } := by
  have hperm := BinaryHeap.pop_snd_perm w.scheduler.taskQueue hne
  have hr : w.scheduler.running = true :=
    hinv.thread.mpr (by rcases hw with h | h <;> rw [h] <;> simp)
  refine ⟨BinaryHeap.pop_snd_heapOrder _ hinv.heap_order, ?_, hinv.task_count, ?_, ?_, by simp⟩
  · show w.accepted.Perm
      ((w.invoked ++ [w.scheduler.taskQueue.heap[0]!]) ++ w.scheduler.taskQueue.pop.2.heap)
    rw [List.append_assoc]
    exact hinv.accounted.trans (List.Perm.append_left _ hperm)
  · show w.scheduler.completedTasks
      = int32 (((w.invoked ++ [w.scheduler.taskQueue.heap[0]!]).length : Nat)
          - ((Worker.calling w.scheduler.taskQueue.heap[0]!).inFlight : Nat))
    have := hinv.completed_count
    rw [this]
    rcases hw with h | h <;> rw [h] <;> simp [Worker.inFlight]
  · simp [hr]

theorem inv_requeue (w : World) (hinv : Inv w) (hne : w.scheduler.taskQueue.heap ≠ []) :
    Inv { w with scheduler := { w.scheduler with
      taskQueue := w.scheduler.taskQueue.pop.2.push w.scheduler.taskQueue.heap[0]! } } := by
  have hperm := BinaryHeap.pop_snd_perm w.scheduler.taskQueue hne
  have hp := BinaryHeap.push_spec w.scheduler.taskQueue.pop.2 w.scheduler.taskQueue.heap[0]!
    (BinaryHeap.pop_snd_heapOrder _ hinv.heap_order)
  have hq : (w.scheduler.taskQueue.pop.2.push w.scheduler.taskQueue.heap[0]!).heap.Perm
      w.scheduler.taskQueue.heap :=
    (hp.2.trans (List.perm_append_singleton _ _)).trans hperm.symm
  exact ⟨hp.1, hinv.accounted.trans (List.Perm.append_left _ hq.symm), hinv.task_count,
    hinv.completed_count, hinv.thread, hinv.in_progress⟩

theorem inv_complete (w : World) (task : Task) (hinv : Inv w)
    (hw : w.scheduler.worker = .calling task) :
    Inv { w with scheduler := { w.scheduler with
      completedTasks := int32 (w.scheduler.completedTasks + 1), worker := .ready } } := by
  refine ⟨hinv.heap_order, hinv.accounted, hinv.task_count, ?_, ?_, by simp⟩
  · show int32 (w.scheduler.completedTasks + 1)
      = int32 ((w.invoked.length : Int) - (Worker.ready.inFlight : Nat))
    have := hinv.completed_count
    rw [hw] at this
    rw [this, int32_succ]
    simp [Worker.inFlight]
  · have := hinv.thread
    rw [hw] at this
    simpa using this

theorem inv_halt (w : World) (hinv : Inv w) (hf : w.scheduler.worker.inFlight = 0) :
    Inv { w with scheduler := { w.scheduler with running := false, worker := .absent } } := by
  refine ⟨hinv.heap_order, hinv.accounted, hinv.task_count, ?_, by simp, by simp⟩
  have := hinv.completed_count
  rw [hf] at this
  simpa [Worker.inFlight] using this

theorem timely_start (clock : Int) : Timely (start clock) where
  sorted := List.sorted_nil
  past := by intro x hx; simp [start] at hx
  before_queue := by intro x hx; simp [start] at hx

/-- The called actions stay in order when no action is called, the queue gets
no new task and the clock does not go back. -/
theorem timely_mono (w w1 : World) (ht : Timely w) (hi : w1.invoked = w.invoked)
    (hq : ∀ y ∈ w1.scheduler.taskQueue.heap, y ∈ w.scheduler.taskQueue.heap)
    (hc : w.clock ≤ w1.clock) : Timely w1 where
  sorted := by rw [hi]; exact ht.sorted
  past := by
    intro x hx
    rw [hi] at hx
    have := ht.past x hx
    omega
  before_queue := by
    intro x hx y hy
    rw [hi] at hx
    exact ht.before_queue x hx y (hq y hy)

theorem timely_insert (w : World) (t : Task) (ht : Timely w) (hle : w.clock ≤ t.timestamp) :
    Timely { w with
      scheduler := w.scheduler.AddLocked t.func t.timestamp,
      accepted := w.accepted ++ [t] } where
  sorted := ht.sorted
  past := ht.past
  before_queue := by
    intro x hx y hy
    have hy' : y ∈ w.scheduler.taskQueue.heap ++ [t] :=
      (BinaryHeap.push_perm w.scheduler.taskQueue t).subset hy
    rcases List.mem_append.mp hy' with hy1 | hy1
    · exact ht.before_queue x hx y hy1
    · have := ht.past x hx
      simp only [List.mem_singleton] at hy1
      subst hy1
      omega

theorem timely_call (w : World) (s : TaskScheduler) (hinv : Inv w) (ht : Timely w)
    (hne : w.scheduler.taskQueue.heap ≠ [])
    (hle : w.scheduler.taskQueue.heap[0]!.timestamp ≤ w.clock)
    (hs : s.taskQueue = w.scheduler.taskQueue.pop.2) :
    Timely { w with
      scheduler := s,
      invoked := w.invoked ++ [w.scheduler.taskQueue.heap[0]!] } := by
  have hperm := BinaryHeap.pop_snd_perm w.scheduler.taskQueue hne
  have hmin := BinaryHeap.root_le_mem _ hinv.heap_order
  have hmem := BinaryHeap.root_mem _ hne
  refine ⟨?_, ?_, ?_⟩
  · show ((w.invoked ++ [w.scheduler.taskQueue.heap[0]!]).map Task.timestamp).Sorted (· ≤ ·)
    rw [List.map_append, List.Sorted, List.pairwise_append]
    refine ⟨ht.sorted, by simp, ?_⟩
    intro a ha b hb
    obtain ⟨x, hx, rfl⟩ := List.mem_map.mp ha
    simp only [List.map_cons, List.map_nil, List.mem_singleton] at hb
    subst hb
    exact ht.before_queue x hx _ hmem
  · intro x hx
    rcases List.mem_append.mp hx with hx1 | hx1
    · exact ht.past x hx1
    · simp only [List.mem_singleton] at hx1
      subst hx1
      exact hle
  · intro x hx y hy
    have hy0 : y ∈ w.scheduler.taskQueue.pop.2.heap := by
      have : y ∈ s.taskQueue.heap := hy
      rw [hs] at this
      exact this
    have hy' : y ∈ w.scheduler.taskQueue.heap :=
      hperm.symm.subset (List.mem_cons_of_mem _ hy0)
    rcases List.mem_append.mp hx with hx1 | hx1
    · exact ht.before_queue x hx1 y hy'
    · simp only [List.mem_singleton] at hx1
      subst hx1
      exact hmin y hy'

theorem requeue_subset (h : BinaryHeap) (hne : h.heap ≠ []) :
    ∀ y ∈ (h.pop.2.push h.heap[0]!).heap, y ∈ h.heap := by
  intro y hy
  have hperm := BinaryHeap.pop_snd_perm h hne
  exact (((BinaryHeap.push_perm _ _).trans (List.perm_append_singleton _ _)).trans
    hperm.symm).subset hy

end World

end MainCpp

theorem Worker.isCalling_iff (k : Worker) : k.isCalling = true ↔ ∃ t, k = .calling t := by
  cases k <;> simp [Worker.isCalling]

theorem Worker.inFlight_of_not_calling (k : Worker) (h : ¬ k.isCalling = true) :
    k.inFlight = 0 := by
  cases k <;> simp [Worker.isCalling, Worker.inFlight] at h ⊢

namespace MainCpp

namespace World

theorem step_inv (w w1 : World) (e : Event) (hinv : Inv w) (h : w.step e = some w1) :
    Inv w1 := by
  cases e with
  | tick n =>
    simp only [step, Option.some.injEq] at h
    subst h
    exact inv_clock w _ hinv
  | setClock c =>
    simp only [step, Option.some.injEq] at h
    subst h
    exact inv_clock w _ hinv
  | add task timestamp =>
    rw [step_add_eq] at h
    split at h
    · simp only [Option.some.injEq] at h
      subst h
      exact hinv
    · simp only [Option.some.injEq] at h
      subst h
      exact inv_insert w ⟨task, timestamp⟩ w.pending hinv
  | addTest task timestamp =>
    rw [step_addTest_eq] at h
    split at h
    · simp only [Option.some.injEq] at h
      subst h
      exact hinv
    · simp only [Option.some.injEq] at h
      subst h
      exact inv_pending w _ hinv
  | addInsert i =>
    simp only [step] at h
    split at h
    · rename_i t _
      simp only [Option.some.injEq] at h
      subst h
      exact inv_insert w t _ hinv
    · simp at h
  | start =>
    rw [step_start_eq] at h
    split at h
    · simp only [Option.some.injEq] at h
      subst h
      exact hinv
    · split at h
      · rename_i hw
        simp only [Option.some.injEq] at h
        subst h
        exact inv_spawn w hinv hw
      · simp at h
  | stop =>
    rw [step_stop_eq] at h
    split at h
    · rename_i hw
      split at h
      · simp at h
      · rename_i hc
        have hne : w.scheduler.taskQueue.heap ≠ [] := fun h0 => hc (Or.inl h0)
        split at h
        · split at h
          · simp at h
          · simp only [Option.some.injEq] at h
            subst h
            have h1 := inv_call w hinv (Or.inr hw) hne
            have h2 := inv_complete _ _ h1 rfl
            exact inv_halt _ h2 rfl
        · simp only [Option.some.injEq] at h
          subst h
          have h1 := inv_requeue w hinv hne
          exact inv_halt _ h1 (by show w.scheduler.worker.inFlight = 0; rw [hw]; rfl)
    · split at h
      · simp at h
      · by_cases hk : w.scheduler.worker.isCalling = true
        · simp only [hk, if_true, Option.some.injEq] at h
          subst h
          obtain ⟨t, ht⟩ := (Worker.isCalling_iff _).mp hk
          have h2 := inv_complete w t hinv ht
          exact inv_halt _ h2 rfl
        · simp only [hk, if_false, Option.some.injEq] at h
          subst h
          exact inv_halt w hinv (Worker.inFlight_of_not_calling _ hk)
  | startInput =>
    simp only [step, Option.some.injEq] at h
    subst h
    exact inv_input w true hinv
  | stopInput =>
    simp only [step, Option.some.injEq] at h
    subst h
    exact inv_input w false hinv
  | iterate =>
    rw [step_iterate_eq] at h
    split at h
    · rename_i hw
      split at h
      · simp only [Option.some.injEq] at h
        subst h
        exact hinv
      · rename_i hc
        have hne : w.scheduler.taskQueue.heap ≠ [] := fun h0 => hc (Or.inl h0)
        split at h
        · simp only [Option.some.injEq] at h
          subst h
          exact inv_call w hinv (Or.inl hw.1) hne
        · simp only [Option.some.injEq] at h
          subst h
          exact inv_requeue w hinv hne
    · simp at h
  | enter =>
    rw [step_enter_eq] at h
    split at h
    · rename_i hw
      simp only [Option.some.injEq] at h
      subst h
      exact inv_idle w .entered hinv (Or.inl hw.1) (Or.inr rfl)
    · simp at h
  | body =>
    rw [step_body_eq] at h
    split at h
    · rename_i hw
      split at h
      · simp only [Option.some.injEq] at h
        subst h
        exact inv_idle w .ready hinv (Or.inr hw) (Or.inl rfl)
      · rename_i hc
        have hne : w.scheduler.taskQueue.heap ≠ [] := fun h0 => hc (Or.inl h0)
        split at h
        · simp only [Option.some.injEq] at h
          subst h
          exact inv_call w hinv (Or.inr hw) hne
        · simp only [Option.some.injEq] at h
          subst h
          exact inv_idle _ .ready (inv_requeue w hinv hne) (Or.inr hw) (Or.inl rfl)
    · simp at h
  | complete =>
    rw [step_complete_eq] at h
    split at h
    · rename_i hk
      simp only [Option.some.injEq] at h
      subst h
      obtain ⟨t, ht⟩ := (Worker.isCalling_iff _).mp hk.1
      exact inv_complete w t hinv ht
    · simp at h

theorem step_timely (w w1 : World) (e : Event) (hinv : Inv w) (ht : Timely w)
    (he : e.timely) (h : w.step e = some w1) : Timely w1 := by
  cases e with
  | tick n =>
    simp only [step, Option.some.injEq] at h
    subst h
    exact timely_mono w _ ht rfl (fun y hy => hy) (by show w.clock ≤ w.clock + n; omega)
  | setClock c => exact False.elim he
  | addTest task timestamp => exact False.elim he
  | addInsert i => exact False.elim he
  | add task timestamp =>
    rw [step_add_eq] at h
    split at h
    · simp only [Option.some.injEq] at h
      subst h
      exact ht
    · rename_i hlt
      simp only [Option.some.injEq] at h
      subst h
      exact timely_insert w ⟨task, timestamp⟩ ht (by show w.clock ≤ timestamp; omega)
  | start =>
    rw [step_start_eq] at h
    split at h
    · simp only [Option.some.injEq] at h
      subst h
      exact ht
    · split at h
      · simp only [Option.some.injEq] at h
        subst h
        exact timely_mono w _ ht rfl (fun y hy => hy) (le_refl _)
      · simp at h
  | stop =>
    rw [step_stop_eq] at h
    split at h
    · split at h
      · simp at h
      · rename_i hc
        have hne : w.scheduler.taskQueue.heap ≠ [] := fun h0 => hc (Or.inl h0)
        split at h
        · rename_i hd
          split at h
          · simp at h
          · simp only [Option.some.injEq] at h
            subst h
            exact timely_call w _ hinv ht hne hd rfl
        · simp only [Option.some.injEq] at h
          subst h
          exact timely_mono w _ ht rfl (requeue_subset _ hne) (le_refl _)
    · split at h
      · simp at h
      · simp only [Option.some.injEq] at h
        subst h
        exact timely_mono w _ ht rfl (fun y hy => hy) (le_refl _)
  | startInput =>
    simp only [step, Option.some.injEq] at h
    subst h
    exact timely_mono w _ ht rfl (fun y hy => hy) (le_refl _)
  | stopInput =>
    simp only [step, Option.some.injEq] at h
    subst h
    exact timely_mono w _ ht rfl (fun y hy => hy) (le_refl _)
  | iterate =>
    rw [step_iterate_eq] at h
    split at h
    · split at h
      · simp only [Option.some.injEq] at h
        subst h
        exact ht
      · rename_i hc
        have hne : w.scheduler.taskQueue.heap ≠ [] := fun h0 => hc (Or.inl h0)
        split at h
        · rename_i hd
          simp only [Option.some.injEq] at h
          subst h
          exact timely_call w _ hinv ht hne hd rfl
        · simp only [Option.some.injEq] at h
          subst h
          exact timely_mono w _ ht rfl (requeue_subset _ hne) (le_refl _)
    · simp at h
  | enter =>
    rw [step_enter_eq] at h
    split at h
    · simp only [Option.some.injEq] at h
      subst h
      exact timely_mono w _ ht rfl (fun y hy => hy) (le_refl _)
    · simp at h
  | body =>
    rw [step_body_eq] at h
    split at h
    · split at h
      · simp only [Option.some.injEq] at h
        subst h
        exact timely_mono w _ ht rfl (fun y hy => hy) (le_refl _)
      · rename_i hc
        have hne : w.scheduler.taskQueue.heap ≠ [] := fun h0 => hc (Or.inl h0)
        split at h
        · rename_i hd
          simp only [Option.some.injEq] at h
          subst h
          exact timely_call w _ hinv ht hne hd rfl
        · simp only [Option.some.injEq] at h
          subst h
          exact timely_mono w _ ht rfl (requeue_subset _ hne) (le_refl _)
    · simp at h
  | complete =>
    rw [step_complete_eq] at h
    split at h
    · simp only [Option.some.injEq] at h
      subst h
      exact timely_mono w _ ht rfl (fun y hy => hy) (le_refl _)
    · simp at h

theorem run_inv : ∀ (events : List Event) (w w1 : World),
    Inv w → w.run events = some w1 → Inv w1 := by
  intro events
  induction events with
  | nil =>
    intro w w1 hinv h
    simp only [run, Option.some.injEq] at h
    subst h
    exact hinv
  | cons e es ih =>
    intro w w1 hinv h
    simp only [run, Option.bind_eq_some] at h
    obtain ⟨w2, h2, h3⟩ := h
    exact ih w2 w1 (step_inv w w2 e hinv h2) h3

theorem run_timely : ∀ (events : List Event) (w w1 : World),
    Inv w → Timely w → (∀ e ∈ events, e.timely) → w.run events = some w1 → Timely w1 := by
  intro events
  induction events with
  | nil =>
    intro w w1 _ ht _ h
    simp only [run, Option.some.injEq] at h
    subst h
    exact ht
  | cons e es ih =>
    intro w w1 hinv ht he h
    simp only [run, Option.bind_eq_some] at h
    obtain ⟨w2, h2, h3⟩ := h
    exact ih w2 w1 (step_inv w w2 e hinv h2)
      (step_timely w w2 e hinv ht (he e (List.mem_cons_self _ _)) h2)
      (fun e' he' => he e' (List.mem_cons_of_mem _ he')) h3

/-- Every state of a run that starts from a freshly constructed scheduler
satisfies the invariant. -/
theorem invariant_run (clock : Int) (events : List Event) (w : World)
    (h : (start clock).run events = some w) : Inv w :=
  run_inv events _ w (inv_start clock) h

/-- The actions are called in order in every run, from a freshly constructed
scheduler, in which no call of `Add` is interrupted and the clock is not set. -/
theorem timely_run (clock : Int) (events : List Event) (w : World)
    (he : ∀ e ∈ events, e.timely) (h : (start clock).run events = some w) : Timely w :=
  run_timely events _ w (inv_start clock) (timely_start clock) he h

theorem invoked_append_queue (w : World) (hinv : Inv w) (ht : Timely w) :
    w.invoked.map Task.timestamp
        ++ (w.scheduler.taskQueue.heap.map Task.timestamp).insertionSort (· ≤ ·)
      = (w.accepted.map Task.timestamp).insertionSort (· ≤ ·) := by
  apply List.eq_of_perm_of_sorted (r := (· ≤ ·))
  · have h1 : (w.accepted.map Task.timestamp).Perm
        (w.invoked.map Task.timestamp ++ w.scheduler.taskQueue.heap.map Task.timestamp) := by
      rw [← List.map_append]
      exact hinv.accounted.map _
    exact ((List.Perm.append_left _ (List.perm_insertionSort _ _)).trans h1.symm).trans
      (List.perm_insertionSort _ _).symm
  · rw [List.Sorted, List.pairwise_append]
    refine ⟨ht.sorted, List.sorted_insertionSort _ _, ?_⟩
    intro a ha b hb
    obtain ⟨x, hx, rfl⟩ := List.mem_map.mp ha
    have hb' := (List.perm_insertionSort _ _).subset hb
    obtain ⟨y, hy, rfl⟩ := List.mem_map.mp hb'
    exact ht.before_queue x hx y hy
  · exact List.sorted_insertionSort _ _

theorem step_iterate_due (w : World) (hr : w.scheduler.running = true)
    (hi : w.scheduler.inputInProgress = false) (hw : w.scheduler.worker = .ready)
    (hne : w.scheduler.taskQueue.heap ≠ [])
    (hdue : ∀ y ∈ w.scheduler.taskQueue.heap, y.timestamp ≤ w.clock) :
    w.step .iterate = some { w with
      scheduler := { w.scheduler with
        taskQueue := w.scheduler.taskQueue.pop.2,
        worker := .calling w.scheduler.taskQueue.heap[0]! },
      invoked := w.invoked ++ [w.scheduler.taskQueue.heap[0]!] } := by
  have hle := hdue _ (BinaryHeap.root_mem _ hne)
  have hc : ¬ (w.scheduler.taskQueue.heap = [] ∨ w.scheduler.inputInProgress = true) := by
    simp [hne, hi]
  rw [step_iterate_eq, if_pos ⟨hw, hr⟩, if_neg hc, if_pos hle]

theorem step_complete (w : World) (task : Task) (hw : w.scheduler.worker = .calling task)
    (ho : task.func.outcome ≠ .throwsOther) :
    w.step .complete = some { w with
      scheduler := { w.scheduler with
        completedTasks := int32 (w.scheduler.completedTasks + 1), worker := .ready } } := by
  rw [step_complete_eq, if_pos]
  simp [hw, Worker.isCalling, Worker.throwing, ho]

theorem run_drainEvents : ∀ (n : Nat) (w : World),
    w.scheduler.taskQueue.heap.length = n →
    w.scheduler.running = true → w.scheduler.inputInProgress = false →
    w.scheduler.worker = .ready →
    (∀ y ∈ w.scheduler.taskQueue.heap,
      y.timestamp ≤ w.clock ∧ y.func.outcome ≠ .throwsOther) →
    ∃ w1, w.run (drainEvents n) = some w1 ∧ w1.accepted = w.accepted ∧
      w1.scheduler.taskQueue.heap = [] := by
  intro n
  induction n with
  | zero =>
    intro w hn _ _ _ _
    exact ⟨w, rfl, rfl, List.length_eq_zero.mp hn⟩
  | succ n ih =>
    intro w hn hr hi hw hq
    have hne : w.scheduler.taskQueue.heap ≠ [] := by
      intro h0
      rw [h0] at hn
      simp at hn
    have hmem := BinaryHeap.root_mem _ hne
    have hperm := BinaryHeap.pop_snd_perm w.scheduler.taskQueue hne
    have h1 := step_iterate_due w hr hi hw hne (fun y hy => (hq y hy).1)
    have h2 := step_complete
      { w with
        scheduler := { w.scheduler with
          taskQueue := w.scheduler.taskQueue.pop.2,
          worker := .calling w.scheduler.taskQueue.heap[0]! },
        invoked := w.invoked ++ [w.scheduler.taskQueue.heap[0]!] }
      w.scheduler.taskQueue.heap[0]! rfl (hq _ hmem).2
    have hlen : w.scheduler.taskQueue.pop.2.heap.length = n := by
      have := hperm.length_eq
      simp only [List.length_cons] at this
      omega
    obtain ⟨w1, hrun, hacc, hq1⟩ := ih
      { w with
        scheduler := { w.scheduler with
          taskQueue := w.scheduler.taskQueue.pop.2,
          completedTasks := int32 (w.scheduler.completedTasks + 1), worker := .ready },
        invoked := w.invoked ++ [w.scheduler.taskQueue.heap[0]!] }
      hlen hr hi rfl
      (fun y hy => hq y (hperm.symm.subset (List.mem_cons_of_mem _ hy)))
    refine ⟨w1, ?_, hacc, hq1⟩
    simp only [drainEvents, run, h1, Option.some_bind]
    rw [h2]
    exact hrun

theorem le_delay (w : World) :
    ∀ y ∈ w.scheduler.taskQueue.heap, y.timestamp ≤ w.clock + delay w := by
  unfold delay
  generalize w.scheduler.taskQueue.heap = l
  induction l with
  | nil => intro y hy; simp at hy
  | cons a l ih =>
    intro y hy
    simp only [List.map_cons, List.foldr_cons]
    rcases List.mem_cons.mp hy with rfl | hy1
    · have : (y.timestamp - w.clock).toNat ≤
          max (y.timestamp - w.clock).toNat
            ((l.map fun t => (t.timestamp - w.clock).toNat).foldr max 0) := le_max_left _ _
      omega
    · have h1 := ih y hy1
      have : (l.map fun t => (t.timestamp - w.clock).toNat).foldr max 0 ≤
          max (a.timestamp - w.clock).toNat
            ((l.map fun t => (t.timestamp - w.clock).toNat).foldr max 0) := le_max_right _ _
      omega

theorem run_finish_ready (w : World) (d : Nat) (hw : w.scheduler.worker = .ready)
    (hr : w.scheduler.running = true)
    (hd : ∀ y ∈ w.scheduler.taskQueue.heap, y.timestamp ≤ w.clock + d)
    (ho : ∀ y ∈ w.scheduler.taskQueue.heap, y.func.outcome ≠ .throwsOther) :
    ∃ w1, w.run ([.stopInput, .tick d]
        ++ drainEvents w.scheduler.taskQueue.heap.length) = some w1 ∧
      w1.accepted = w.accepted ∧ w1.scheduler.taskQueue.heap = [] := by
  obtain ⟨w1, h1, h2, h3⟩ := run_drainEvents w.scheduler.taskQueue.heap.length
    { w with scheduler := w.scheduler.StopInput, clock := w.clock + d }
    rfl hr rfl hw (fun y hy => ⟨hd y hy, ho y hy⟩)
  refine ⟨w1, ?_, h2, h3⟩
  simp only [List.cons_append, List.nil_append, run, step, Option.some_bind]
  exact h1

theorem run_finishEvents (w : World) (hinv : Inv w) (hr : w.scheduler.running = true)
    (ho : ∀ y ∈ w.accepted, y.func.outcome ≠ .throwsOther) :
    ∃ w1, w.run (finishEvents w) = some w1 ∧
      w1.accepted = w.accepted ∧ w1.scheduler.taskQueue.heap = [] := by
  have hoq : ∀ y ∈ w.scheduler.taskQueue.heap, y.func.outcome ≠ .throwsOther :=
    fun y hy => ho y (hinv.accounted.symm.subset (List.mem_append_right _ hy))
  unfold finishEvents
  cases hw : w.scheduler.worker with
  | absent => exact absurd hw (hinv.thread.mp hr)
  | ready =>
    simp only [List.nil_append]
    exact run_finish_ready w (delay w) hw hr (le_delay w) hoq
  | entered =>
    obtain ⟨w1, h1, h2, h3⟩ := run_finish_ready
      { w with scheduler := { w.scheduler with inputInProgress := true, worker := .ready } }
      (delay w) rfl hr (le_delay w) hoq
    refine ⟨w1, ?_, h2, h3⟩
    have hs1 : w.step .startInput
        = some { w with scheduler := { w.scheduler with inputInProgress := true } } := rfl
    have hs2 : ({ w with scheduler := { w.scheduler with inputInProgress := true } } : World).step
        .body = some { w with
          scheduler := { w.scheduler with inputInProgress := true, worker := .ready } } := by
      rw [step_body_eq, if_pos hw, if_pos (Or.inr rfl)]
    simp only [List.append_assoc, List.cons_append, List.nil_append, run, hs1, hs2,
      Option.some_bind]
    simpa only [List.cons_append, List.nil_append, run] using h1
  | calling task =>
    have hot : task.func.outcome ≠ .throwsOther :=
      ho task (hinv.accounted.symm.subset
        (List.mem_append_left _ (hinv.in_progress task hw)))
    obtain ⟨w1, h1, h2, h3⟩ := run_finish_ready
      { w with scheduler := { w.scheduler with
          completedTasks := int32 (w.scheduler.completedTasks + 1), worker := .ready } }
      (delay w) rfl hr (le_delay w) hoq
    refine ⟨w1, ?_, h2, h3⟩
    simp only [List.append_assoc, List.singleton_append, run, step_complete w task hw hot,
      Option.some_bind]
    exact h1

theorem drainEvents_timely : ∀ (n : Nat), ∀ e ∈ drainEvents n, e.timely := by
  intro n
  induction n with
  | zero => intro e he; simp [drainEvents] at he
  | succ n ih =>
    intro e he
    simp only [drainEvents, List.mem_cons] at he
    rcases he with rfl | rfl | he
    · exact trivial
    · exact trivial
    · exact ih e he

theorem finishEvents_timely (w : World) : ∀ e ∈ finishEvents w, e.timely := by
  intro e he
  unfold finishEvents at he
  rcases List.mem_append.mp he with h | h
  · rcases List.mem_append.mp h with h1 | h1
    · cases hw : w.scheduler.worker <;> rw [hw] at h1 <;> simp at h1
      · rcases h1 with rfl | rfl <;> exact trivial
      · subst h1; exact trivial
    · simp only [List.mem_cons, List.mem_singleton, List.not_mem_nil, or_false] at h1
      rcases h1 with rfl | rfl <;> exact trivial
  · exact drainEvents_timely _ e h

end World

end MainCpp

namespace MainCpp

namespace World

/-- One round of `cycles`: a task is submitted, called and counted. -/
theorem run_cycle (n : Nat) :
    (worldCycles n).run [.add ⟨1, .returns⟩ 0, .iterate, .complete]
      = some (worldCycles (n + 1)) := by
  have h : (worldCycles n).run [.add ⟨1, .returns⟩ 0, .iterate, .complete]
      = some { worldCycles n with
          scheduler := { (worldCycles n).scheduler with
            taskCount := int32 (int32 n + 1), completedTasks := int32 (int32 n + 1) },
          invoked := List.replicate n ⟨⟨1, .returns⟩, 0⟩ ++ [⟨⟨1, .returns⟩, 0⟩],
          accepted := List.replicate n ⟨⟨1, .returns⟩, 0⟩ ++ [⟨⟨1, .returns⟩, 0⟩] } := rfl
  rw [h, int32_succ]
  simp only [worldCycles, List.replicate_succ', Nat.cast_add, Nat.cast_one]

/-- The state at the end of `cycles n`. -/
theorem run_cycles : ∀ n : Nat, (start 0).run (cycles n) = some (worldCycles n) := by
  intro n
  induction n with
  | zero => rfl
  | succ n ih =>
    rw [cycles, run_append, ih, Option.some_bind]
    exact run_cycle n

end World

end MainCpp

theorem from_time_t_of_range (t : Int) (h1 : -9223372036 ≤ t) (h2 : t ≤ 9223372036) :
    from_time_t t = t * 1000000000 := by
  unfold from_time_t int64
  omega

/-! ## The scheduler: claims -/

/-- C3 fails in two kinds of run.  In `eventsRace` a call of `Add` for time 5
passes the test of the timestamp at clock value 5 and inserts its task only
after the worker has called, at clock value 7, the task submitted for time 7.
In `eventsClockBack` a task is called at clock value 10, the clock is set back
to 5 and a task is submitted for time 5.  In both runs every submitted task is
called, the timestamps are distinct, and the order of the calls is descending. -/
theorem invoked_out_of_order :
    ((MainCpp.World.start 0).run eventsRace).map
        (fun w => (w.invoked.map Task.timestamp, w.scheduler.taskQueue.heap,
          (w.accepted.map Task.timestamp).insertionSort (· ≤ ·)))
      = some ([7, 5], [], [5, 7]) ∧
    ((MainCpp.World.start 0).run eventsClockBack).map
        (fun w => (w.invoked.map Task.timestamp, w.scheduler.taskQueue.heap,
          (w.accepted.map Task.timestamp).insertionSort (· ≤ ·)))
      = some ([10, 5], [], [5, 10]) := by
  decide

/-- C3, amended: in every run from a freshly constructed scheduler in which no
call of `Add` is interrupted between its test of the timestamp and its
insertion and the clock is never set (it only advances), whatever the order and
the moments of the calls of `Add` and whatever the steps of the worker and of
`Stop`, the timestamps of the actions called by the worker, followed by the
queued timestamps in ascending order, are the accepted timestamps in ascending
order; so once the queue is empty the actions were called exactly in ascending
order of the submitted timestamps.  And while the scheduler is running and no
submitted action throws an object that the worker does not catch, the run can
go on (`finishEvents`) until every submitted action has been called, in that
order. -/
theorem invoked_in_timestamp_order (clock : Int) (events : List MainCpp.Event)
    (w : MainCpp.World) (ht : ∀ e ∈ events, e.timely)
    (h : (MainCpp.World.start clock).run events = some w) :
    w.invoked.map Task.timestamp
        ++ (w.scheduler.taskQueue.heap.map Task.timestamp).insertionSort (· ≤ ·)
      = (w.accepted.map Task.timestamp).insertionSort (· ≤ ·) ∧
    (w.scheduler.taskQueue.heap = [] →
      w.invoked.map Task.timestamp
        = (w.accepted.map Task.timestamp).insertionSort (· ≤ ·)) ∧
    (w.scheduler.running = true →
      (∀ t ∈ w.accepted, t.func.outcome ≠ .throwsOther) →
      ∃ w1, w.run (MainCpp.World.finishEvents w) = some w1 ∧
        w1.accepted = w.accepted ∧ w1.scheduler.taskQueue.heap = [] ∧
        w1.invoked.map Task.timestamp
          = (w.accepted.map Task.timestamp).insertionSort (· ≤ ·)) := by
  have hinv := MainCpp.World.invariant_run clock events w h
  have htim := MainCpp.World.timely_run clock events w ht h
  have key := MainCpp.World.invoked_append_queue w hinv htim
  refine ⟨key, ?_, ?_⟩
  · intro hq
    rw [hq] at key
    simpa using key
  · intro hr ho
    obtain ⟨w1, h1, h2, h3⟩ := MainCpp.World.run_finishEvents w hinv hr ho
    have hinv1 := MainCpp.World.run_inv _ w w1 hinv h1
    have htim1 := MainCpp.World.run_timely _ w w1 hinv htim
      (MainCpp.World.finishEvents_timely w) h1
    have key1 := MainCpp.World.invoked_append_queue w1 hinv1 htim1
    rw [h3, h2] at key1
    exact ⟨w1, h1, h2, h3, by simpa using key1⟩

/-- C3, amended, at the run `events312`: the tasks submitted for 103, 101 and
102 are called in the order second, third, first. -/
theorem invoked_in_timestamp_order_witness :
    (∀ e ∈ events312, e.timely) ∧
    (MainCpp.World.start 100).run events312 = some world312 ∧
    world312.invoked.map (fun t => t.func.label) = [2, 3, 1] ∧
    world312.invoked.map Task.timestamp
      = (world312.accepted.map Task.timestamp).insertionSort (· ≤ ·) :=
  ⟨by simp [events312, MainCpp.Event.timely], by decide, by decide,
    (invoked_in_timestamp_order 100 events312 world312
      (by simp [events312, MainCpp.Event.timely]) (by decide)).2.1 rfl⟩

/-- C4: whenever an iteration of `workerThread` calls the action of a task, the
clock value `now` read in that iteration satisfies `task.timestamp <= now`, in
`main.cpp` and in `task_scheduler.cpp`; and no event of a run adds to the
called actions a task whose timestamp is greater than the clock value of that
event. -/
theorem call_only_when_due :
    (∀ (s s1 : MainCpp.TaskScheduler) (now : Int) (task : Task),
      s.workerThreadIterate now = (.call task, s1) → task.timestamp ≤ now) ∧
    (∀ (Q : Type) (pq : TaskSchedulerCpp.PriorityQueue Q)
      (s s1 : TaskSchedulerCpp.TaskScheduler Q) (now : Int) (task : Task),
      s.workerThreadIterate pq now = (.call task, s1) → task.timestamp ≤ now) ∧
    (∀ (w w1 : MainCpp.World) (e : MainCpp.Event), w.step e = some w1 →
      w1.invoked = w.invoked ∨
        ∃ task, w1.invoked = w.invoked ++ [task] ∧ task.timestamp ≤ w.clock) := by
  refine ⟨?_, ?_, ?_⟩
  · intro s s1 now task h
    exact (MainCpp.TaskScheduler.workerThreadBody_call s s1 now task
      (MainCpp.TaskScheduler.workerThreadIterate_call s s1 now task h).2).2.2.2.1
  · intro Q pq s s1 now task h
    unfold TaskSchedulerCpp.TaskScheduler.workerThreadIterate at h
    split at h
    · unfold TaskSchedulerCpp.TaskScheduler.workerThreadBody at h
      split at h
      · simp at h
      · split at h
        · rename_i hle
          simp only [Prod.mk.injEq, Step.call.injEq] at h
          rw [← h.1]
          exact hle
        · simp at h
    · simp at h
  · intro w w1 e h
    rcases MainCpp.World.step_invoked w w1 e h with h1 | ⟨task, h1, h2, _⟩
    · exact Or.inl h1
    · exact Or.inr ⟨task, h1, h2⟩

/-- C4 at a scheduler whose only task has timestamp 5, read at clock value 7. -/
theorem call_only_when_due_witness :
    (oneTask .returns).workerThreadIterate 7
      = (.call ⟨⟨1, .returns⟩, 5⟩, ((oneTask .returns).workerThreadIterate 7).2) ∧
    (oneTaskPQ .returns).workerThreadIterate TaskSchedulerCpp.sortedList 7
      = (.call ⟨⟨1, .returns⟩, 5⟩,
          ((oneTaskPQ .returns).workerThreadIterate TaskSchedulerCpp.sortedList 7).2) ∧
    (5 : Int) ≤ 7 :=
  ⟨by decide, rfl,
    call_only_when_due.1 (oneTask .returns) ((oneTask .returns).workerThreadIterate 7).2 7
      ⟨⟨1, .returns⟩, 5⟩ (by decide)⟩

/-- C5: `Add(task, timestamp)` throws `invalid_argument` if and only if
`timestamp` is less than the time read at the call, so `timestamp == now` is
accepted; when it throws, the scheduler is unchanged (queue, `taskCount`,
`completedTasks` and every other member).  This holds in `main.cpp` and in
`task_scheduler.cpp`. -/
theorem Add_throws_iff_past :
    (∀ (s : MainCpp.TaskScheduler) (now : Int) (task : Func) (timestamp : Int),
      ((s.Add now task timestamp).1 = .error .timestampInPast ↔ timestamp < now) ∧
      ((s.Add now task timestamp).1 = .ok () ↔ ¬ timestamp < now) ∧
      (timestamp < now → (s.Add now task timestamp).2 = s)) ∧
    (∀ (Q : Type) (pq : TaskSchedulerCpp.PriorityQueue Q)
      (s : TaskSchedulerCpp.TaskScheduler Q) (now : Int) (task : Func) (timestamp : Int),
      ((s.Add pq now task timestamp).1 = .error .timestampInPast ↔ timestamp < now) ∧
      ((s.Add pq now task timestamp).1 = .ok () ↔ ¬ timestamp < now) ∧
      (timestamp < now → (s.Add pq now task timestamp).2 = s)) := by
  refine ⟨?_, ?_⟩
  · intro s now task timestamp
    unfold MainCpp.TaskScheduler.Add
    by_cases h : timestamp < now <;> simp [h]
  · intro Q pq s now task timestamp
    unfold TaskSchedulerCpp.TaskScheduler.Add
    by_cases h : timestamp < now <;> simp [h]

/-- C5 at `timestamp = now - 1` and at `timestamp = now`, with `now = 10`. -/
theorem Add_throws_iff_past_witness :
    ((9 : Int) < 10 ∧
      ((oneTask .returns).Add 10 ⟨2, .returns⟩ 9).1 = .error .timestampInPast ∧
      ((oneTask .returns).Add 10 ⟨2, .returns⟩ 9).2 = oneTask .returns) ∧
    (¬ (10 : Int) < 10 ∧ ((oneTask .returns).Add 10 ⟨2, .returns⟩ 10).1 = .ok ()) :=
  ⟨⟨by decide,
      ((Add_throws_iff_past.1 (oneTask .returns) 10 ⟨2, .returns⟩ 9).1).mpr (by decide),
      (Add_throws_iff_past.1 (oneTask .returns) 10 ⟨2, .returns⟩ 9).2.2 (by decide)⟩,
    ⟨by decide,
      ((Add_throws_iff_past.1 (oneTask .returns) 10 ⟨2, .returns⟩ 10).2.1).mpr (by decide)⟩⟩

/-- C6 fails when `taskCount` is `INT_MAX`.  After 2147483647 rounds in which a
task is submitted, called and counted, `taskCount` is 2147483647; the next
`Add` with `timestamp >= now` returns and leaves `taskCount` at -2147483648,
which is not `taskCount + 1`. -/
theorem Add_wraps_taskCount :
    (MainCpp.World.start 0).run (cycles 2147483647) = some (worldCycles 2147483647) ∧
    (worldCycles 2147483647).scheduler.taskCount = 2147483647 ∧
    ((worldCycles 2147483647).scheduler.Add 0 ⟨1, .returns⟩ 0).1 = .ok () ∧
    ((worldCycles 2147483647).scheduler.Add 0 ⟨1, .returns⟩ 0).2.taskCount = -2147483648 :=
  ⟨MainCpp.World.run_cycles 2147483647, by decide, rfl, by decide⟩

/-- C6, amended: for every scheduler state whose `taskCount` is below `INT_MAX`
(2147483647) and every `Add(task, timestamp)` with `timestamp >= now`, the call
returns, the queue then holds the multiset of tasks it held before plus the new
task, `taskCount` is greater by exactly 1, and `completedTasks`,
`inputInProgress` and `running` (and the worker) are unchanged. -/
theorem Add_enqueues (s : MainCpp.TaskScheduler) (now : Int) (task : Func)
    (timestamp : Int) (h : timestamp ≥ now)
    (hmin : -2147483648 ≤ s.taskCount) (hmax : s.taskCount < 2147483647) :
    (s.Add now task timestamp).1 = .ok () ∧
    ((s.Add now task timestamp).2.taskQueue.heap : Multiset Task)
      = (⟨task, timestamp⟩ : Task) ::ₘ (s.taskQueue.heap : Multiset Task) ∧
    (s.Add now task timestamp).2.taskCount = s.taskCount + 1 ∧
    (s.Add now task timestamp).2.completedTasks = s.completedTasks ∧
    (s.Add now task timestamp).2.inputInProgress = s.inputInProgress ∧
    (s.Add now task timestamp).2.running = s.running ∧
    (s.Add now task timestamp).2.worker = s.worker := by
  have hn : ¬ timestamp < now := by omega
  unfold MainCpp.TaskScheduler.Add
  rw [if_neg hn]
  refine ⟨rfl, ?_, int32_of_range _ (by omega) (by omega), rfl, rfl, rfl, rfl⟩
  rw [Multiset.cons_coe, Multiset.coe_eq_coe]
  exact (BinaryHeap.push_perm s.taskQueue ⟨task, timestamp⟩).trans
    (List.perm_append_singleton _ _)

/-- C6, amended, at a queue that holds one task, for `timestamp == now`. -/
theorem Add_enqueues_witness :
    (10 : Int) ≥ 10 ∧
    (-2147483648 ≤ (oneTask .returns).taskCount ∧ (oneTask .returns).taskCount < 2147483647) ∧
    ((oneTask .returns).Add 10 ⟨2, .returns⟩ 10).2.taskQueue.heap
      = [⟨⟨1, .returns⟩, 5⟩, ⟨⟨2, .returns⟩, 10⟩] ∧
    ((oneTask .returns).Add 10 ⟨2, .returns⟩ 10).2.taskCount
      = (oneTask .returns).taskCount + 1 :=
  ⟨by decide, by decide, by decide,
    (Add_enqueues (oneTask .returns) 10 ⟨2, .returns⟩ 10 (by decide) (by decide)
      (by decide)).2.2.1⟩

/-- C7 fails once 2^31 calls of `Add` were accepted.  After 2147483647 rounds
in which a task is submitted, called and counted, one more task is submitted:
`taskCount` is then -2147483648 and `completedTasks` is 2147483647, so the
predicate `completedTasks >= taskCount` holds although the two differ and a
task is queued. -/
theorem completion_predicate_wraps :
    ((MainCpp.World.start 0).run (cycles 2147483647 ++ [.add ⟨1, .returns⟩ 0])).map
        (fun w => (w.scheduler.completionPredicate, w.scheduler.taskCount,
          w.scheduler.completedTasks, w.scheduler.taskQueue.heap.length))
      = some (true, -2147483648, 2147483647, 1) := by
  rw [MainCpp.World.run_append, MainCpp.World.run_cycles]
  decide

/-- C7, amended: in every state of a run from a freshly constructed scheduler,
the predicate `completedTasks >= taskCount` of `WaitForCompletion` holds only
if `completedTasks == taskCount`, as long as fewer than 2^31 calls of `Add`
were accepted; and it holds whenever the queue is empty and no task is between
extraction and completion; it holds in the initial state, where
`WaitForCompletion` therefore does not wait. -/
theorem completion_predicate (clock : Int) (events : List MainCpp.Event)
    (w : MainCpp.World) (h : (MainCpp.World.start clock).run events = some w) :
    (w.accepted.length < 2147483648 → w.scheduler.completionPredicate = true →
      w.scheduler.completedTasks = w.scheduler.taskCount) ∧
    (w.scheduler.taskQueue.heap = [] → w.scheduler.worker.inFlight = 0 →
      w.scheduler.completionPredicate = true) ∧
    (MainCpp.World.start clock).scheduler.completionPredicate = true := by
  have hinv := MainCpp.World.invariant_run clock events w h
  have hlen := hinv.accounted.length_eq
  have htc := hinv.task_count
  have hcc := hinv.completed_count
  simp only [List.length_append] at hlen
  refine ⟨?_, ?_, rfl⟩
  · intro hb hp
    simp only [MainCpp.TaskScheduler.completionPredicate, decide_eq_true_eq] at hp
    have hf : w.scheduler.worker.inFlight ≤ w.invoked.length := by
      cases hw : w.scheduler.worker with
      | calling t =>
        have := List.length_pos_of_mem (hinv.in_progress t hw)
        simp only [Worker.inFlight]
        omega
      | absent => simp [Worker.inFlight]
      | ready => simp [Worker.inFlight]
      | entered => simp [Worker.inFlight]
    rw [int32_of_range _ (by omega) (by omega)] at htc
    rw [int32_of_range _ (by omega) (by omega)] at hcc
    omega
  · intro hq hw
    simp only [MainCpp.TaskScheduler.completionPredicate, decide_eq_true_eq]
    rw [hq] at hlen
    rw [hw] at hcc
    simp only [List.length_nil, add_zero] at hlen
    rw [htc, hcc, hlen]
    simp

/-- C7, amended, at the end of the run `events312`. -/
theorem completion_predicate_witness :
    (MainCpp.World.start 100).run events312 = some world312 ∧
    world312.accepted.length < 2147483648 ∧
    world312.scheduler.completionPredicate = true ∧
    world312.scheduler.completedTasks = world312.scheduler.taskCount :=
  ⟨by decide, by decide, by decide,
    (completion_predicate 100 events312 world312 (by decide)).1 (by decide) (by decide)⟩

/-- C8 at an action that throws an object whose type does not derive from
`std::exception` (`throw 42;`), submitted for time 5 with a second task
submitted for time 6.  In `main.cpp` and in `task_scheduler.cpp` the worker
calls the action at clock value 5; the handler `catch (const exception&)` does
not apply, the worker does not reach `completedTasks++`, and the process ends
with `completedTasks` 0 and the second task still queued.  With an action that
returns, the same events leave `completedTasks` 1 and the worker calls the
second task at clock value 6. -/
theorem foreign_exception_not_counted :
    (((MainCpp.World.start 0).run (eventsCall .throwsOther)).map
        (fun w => (w.scheduler.worker, w.scheduler.taskQueue.heap, w.scheduler.completedTasks))
      = some (.calling ⟨⟨1, .throwsOther⟩, 5⟩, [⟨⟨2, .returns⟩, 6⟩], 0) ∧
    (MainCpp.World.start 0).run (eventsCall .throwsOther ++ [.complete]) = none ∧
    ((MainCpp.World.start 0).run (eventsCall .returns ++ [.complete, .tick 1, .iterate])).map
        (fun w => (w.scheduler.completedTasks, w.invoked.map fun t => t.func.label))
      = some (1, [1, 2])) ∧
    (((TaskSchedulerCpp.World.run TaskSchedulerCpp.stableList
        (TaskSchedulerCpp.World.start TaskSchedulerCpp.stableList 0)
        (eventsCall .throwsOther)).map
        (fun w => (w.scheduler.worker, w.scheduler.taskQueue, w.scheduler.completedTasks)))
      = some (.calling ⟨⟨1, .throwsOther⟩, 5⟩, [⟨⟨2, .returns⟩, 6⟩], 0) ∧
    (TaskSchedulerCpp.World.run TaskSchedulerCpp.stableList
        (TaskSchedulerCpp.World.start TaskSchedulerCpp.stableList 0)
        (eventsCall .throwsOther ++ [.complete])).isSome = false ∧
    ((TaskSchedulerCpp.World.run TaskSchedulerCpp.stableList
        (TaskSchedulerCpp.World.start TaskSchedulerCpp.stableList 0)
        (eventsCall .returns ++ [.complete, .tick 1, .iterate])).map
        (fun w => (w.scheduler.completedTasks, w.invoked.map fun t => t.func.label)))
      = some (1, [1, 2])) := by
  decide

/-- The part of C8 that the worker of `main.cpp` keeps: when it calls the
action of a due task and the action throws an exception derived from
`std::exception`, the rest of the iteration increments `completedTasks`, leaves
`taskCount` alone, leaves the task out of the queue, which is the queue left by
`pop`, and leaves `running` as it was with the worker back at the head of its
loop; the scheduler is then in the very state it is in after an action that
returned, so the later iterations do the same as after a success. -/
theorem caught_exception_counted (s s1 : MainCpp.TaskScheduler) (now : Int) (task : Task)
    (hcall : s.workerThreadBody now = (.call task, s1))
    (hthrow : task.func.outcome = .throwsException) :
    ∃ s2, s1.workerThreadComplete task = some s2 ∧
      s2.completedTasks = int32 (s.completedTasks + 1) ∧
      s2.taskCount = s.taskCount ∧
      s2.taskQueue = s.taskQueue.pop.2 ∧
      (s.taskQueue.heap : Multiset Task) = task ::ₘ (s2.taskQueue.heap : Multiset Task) ∧
      s2.running = s.running ∧ s2.inputInProgress = s.inputInProgress ∧
      s2.worker = .ready ∧
      s1.workerThreadComplete ⟨⟨task.func.label, .returns⟩, task.timestamp⟩ = some s2 := by
  obtain ⟨_, hne, hpop, _, rfl⟩ := MainCpp.TaskScheduler.workerThreadBody_call s s1 now task hcall
  refine ⟨{ s with taskQueue := s.taskQueue.pop.2, worker := .ready,
                     completedTasks := int32 (s.completedTasks + 1) },
    by simp [MainCpp.TaskScheduler.workerThreadComplete, hthrow], rfl, rfl, rfl, ?_,
    rfl, rfl, rfl, by simp [MainCpp.TaskScheduler.workerThreadComplete]⟩
  have htask : task = s.taskQueue.heap[0]! := by
    rw [BinaryHeap.pop_fst _ hne] at hpop
    simp only [Except.ok.injEq] at hpop
    exact hpop.symm
  rw [Multiset.cons_coe, Multiset.coe_eq_coe, htask]
  exact BinaryHeap.pop_snd_perm s.taskQueue hne

/-- The theorem `caught_exception_counted` at a scheduler whose only task is due
and throws an exception derived from `std::exception`. -/
theorem caught_exception_counted_witness :
    (oneTask .throwsException).workerThreadBody 7
      = (.call ⟨⟨1, .throwsException⟩, 5⟩, ((oneTask .throwsException).workerThreadBody 7).2) ∧
    ∃ s2, ((oneTask .throwsException).workerThreadBody 7).2.workerThreadComplete
        ⟨⟨1, .throwsException⟩, 5⟩ = some s2 ∧
      s2.completedTasks = int32 ((oneTask .throwsException).completedTasks + 1) ∧
      s2.taskCount = (oneTask .throwsException).taskCount ∧
      s2.taskQueue = (oneTask .throwsException).taskQueue.pop.2 ∧
      ((oneTask .throwsException).taskQueue.heap : Multiset Task)
        = (⟨⟨1, .throwsException⟩, 5⟩ : Task) ::ₘ (s2.taskQueue.heap : Multiset Task) ∧
      s2.running = (oneTask .throwsException).running ∧
      s2.inputInProgress = (oneTask .throwsException).inputInProgress ∧
      s2.worker = .ready ∧
      ((oneTask .throwsException).workerThreadBody 7).2.workerThreadComplete
        ⟨⟨1, .returns⟩, 5⟩ = some s2 :=
  ⟨by decide,
    caught_exception_counted (oneTask .throwsException)
      ((oneTask .throwsException).workerThreadBody 7).2 7 ⟨⟨1, .throwsException⟩, 5⟩
      (by decide) rfl⟩

/-- C9: in every scheduler state with `inputInProgress == true`, an iteration
of the worker loop takes the branch `cv.wait(lock)`: the scheduler, and with
it the queue, `taskCount` and `completedTasks`, is unchanged, and no action is
added to the called ones, whatever the clock value and the queued
timestamps. -/
theorem input_in_progress_waits (w : MainCpp.World)
    (h : w.scheduler.inputInProgress = true) :
    (∀ now, w.scheduler.workerThreadBody now = (.wait, w.scheduler)) ∧
    (w.scheduler.running = true →
      ∀ now, w.scheduler.workerThreadIterate now = (.wait, w.scheduler)) ∧
    (w.scheduler.running = true → w.scheduler.worker = .ready →
      w.step .iterate = some w) := by
  have hb : ∀ now, w.scheduler.workerThreadBody now = (.wait, w.scheduler) := by
    intro now
    simp [MainCpp.TaskScheduler.workerThreadBody, h]
  refine ⟨hb, ?_, ?_⟩
  · intro hr now
    rw [MainCpp.TaskScheduler.workerThreadIterate_eq _ _ hr]
    exact hb now
  · intro hr hw
    simp only [MainCpp.World.step, hw, MainCpp.TaskScheduler.workerThreadIterate_eq _ _ hr, hb]

/-- C9 at a paused scheduler that holds a task with timestamp 5, at clock
value 7. -/
theorem input_in_progress_waits_witness :
    pausedWorld.scheduler.inputInProgress = true ∧
    pausedWorld.scheduler.taskQueue.heap = [⟨⟨1, .returns⟩, 5⟩] ∧
    pausedWorld.scheduler.workerThreadIterate 7 = (.wait, pausedWorld.scheduler) ∧
    pausedWorld.step .iterate = some pausedWorld :=
  ⟨rfl, rfl, (input_in_progress_waits pausedWorld rfl).2.1 rfl 7,
    (input_in_progress_waits pausedWorld rfl).2.2 rfl rfl⟩

/-- C12: the worker calls `taskQueue.pop()` only in the branch that follows the
test `taskQueue.empty() || inputInProgress`, under the same lock, so on a
non-empty queue: in every scheduler state the loop body either waits without
calling `pop`, or `pop` returns a task that the worker calls or puts back; no
iteration ends with the exception of `pop`, and in every state of a run from a
freshly constructed scheduler (whatever the interleaving of the calls of `Add`,
`StartInput`, `StopInput`, `Start`, `Stop` and the steps of the worker) the
next step of the worker, be it a whole iteration or the loop body after the
test `while (running)`, is possible and does not end the process. -/
theorem worker_pops_nonempty :
    (∀ (s : MainCpp.TaskScheduler) (now : Int),
      s.workerThreadBody now = (.wait, s) ∨
      (s.taskQueue.heap ≠ [] ∧ ∃ task, s.taskQueue.pop.1 = .ok task ∧
        ((s.workerThreadBody now).1 = .call task ∨
          (s.workerThreadBody now).1 = .waitUntil (from_time_t task.timestamp)))) ∧
    (∀ (s : MainCpp.TaskScheduler) (now : Int) (e : Error),
      (s.workerThreadBody now).1 ≠ .uncaught e ∧ (s.workerThreadIterate now).1 ≠ .uncaught e) ∧
    (∀ (clock : Int) (events : List MainCpp.Event) (w : MainCpp.World),
      (MainCpp.World.start clock).run events = some w →
      (w.scheduler.worker = .ready → (w.step .iterate).isSome = true) ∧
      (w.scheduler.worker = .entered → (w.step .body).isSome = true)) := by
  have hbody : ∀ (s : MainCpp.TaskScheduler) (now : Int),
      s.workerThreadBody now = (.wait, s) ∨
      (s.taskQueue.heap ≠ [] ∧ ∃ task, s.taskQueue.pop.1 = .ok task ∧
        ((s.workerThreadBody now).1 = .call task ∨
          (s.workerThreadBody now).1 = .waitUntil (from_time_t task.timestamp))) := by
    intro s now
    rw [MainCpp.TaskScheduler.workerThreadBody_eq]
    by_cases hc : s.taskQueue.heap = [] ∨ s.inputInProgress = true
    · exact Or.inl (by rw [if_pos hc])
    · have hne : s.taskQueue.heap ≠ [] := fun h0 => hc (Or.inl h0)
      refine Or.inr ⟨hne, s.taskQueue.heap[0]!, BinaryHeap.pop_fst _ hne, ?_⟩
      rw [if_neg hc]
      by_cases hd : s.taskQueue.heap[0]!.timestamp ≤ now
      · exact Or.inl (by rw [if_pos hd])
      · exact Or.inr (by rw [if_neg hd])
  have hnot : ∀ (s : MainCpp.TaskScheduler) (now : Int) (e : Error),
      (s.workerThreadBody now).1 ≠ .uncaught e := by
    intro s now e
    rcases hbody s now with h | ⟨_, task, _, h | h⟩ <;> rw [h] <;> simp
  refine ⟨hbody, ?_, ?_⟩
  · intro s now e
    refine ⟨hnot s now e, ?_⟩
    unfold MainCpp.TaskScheduler.workerThreadIterate
    split
    · exact hnot s now e
    · simp
  · intro clock events w hrun
    have hinv := MainCpp.World.invariant_run clock events w hrun
    refine ⟨?_, ?_⟩
    · intro hw
      have hr : w.scheduler.running = true := hinv.thread.mpr (by rw [hw]; simp)
      rw [MainCpp.World.step_iterate_eq, if_pos ⟨hw, hr⟩]
      split
      · rfl
      · split <;> rfl
    · intro hw
      rw [MainCpp.World.step_body_eq, if_pos hw]
      split
      · rfl
      · split <;> rfl

/-- C12 at the end of the run `eventsQueued`, where two tasks are queued, with
the worker at the head of its loop and with the worker past the test
`while (running)`: the worker pops the task with timestamp 5 and puts it
back. -/
theorem worker_pops_nonempty_witness :
    ((MainCpp.World.start 0).run eventsQueued = some worldQueued ∧
      worldQueued.scheduler.worker = .ready ∧
      worldQueued.scheduler.taskQueue.heap ≠ [] ∧
      worldQueued.scheduler.taskQueue.pop.1 = .ok ⟨⟨1, .returns⟩, 5⟩ ∧
      (worldQueued.scheduler.workerThreadBody 0).1 = .waitUntil 5000000000 ∧
      (worldQueued.step .iterate).isSome = true) ∧
    ((MainCpp.World.start 0).run (eventsQueued ++ [.enter]) = some worldEntered ∧
      worldEntered.scheduler.worker = .entered ∧
      worldEntered.scheduler.taskQueue.heap ≠ [] ∧
      (worldEntered.step .body).isSome = true) :=
  ⟨⟨by decide, rfl, by decide, rfl, by decide,
      (worker_pops_nonempty.2.2 0 eventsQueued worldQueued (by decide)).1 rfl⟩,
    ⟨by decide, rfl, by decide,
      (worker_pops_nonempty.2.2 0 (eventsQueued ++ [.enter]) worldEntered (by decide)).2 rfl⟩⟩

/-- C14: `Start` on a scheduler with `running == true` leaves every member
unchanged (`running`, the queue, `taskCount`, `completedTasks`,
`inputInProgress` and the worker thread), as on the freshly constructed
scheduler, and `Start` followed by `Start` yields what a single `Start`
yields. -/
theorem Start_idempotent (s : MainCpp.TaskScheduler) :
    (s.running = true → s.Start = some s) ∧
    (s.Start).bind MainCpp.TaskScheduler.Start = s.Start ∧
    MainCpp.TaskScheduler.new.Start = some MainCpp.TaskScheduler.new := by
  refine ⟨?_, ?_, rfl⟩
  · intro hr
    simp [MainCpp.TaskScheduler.Start, hr]
  · cases hs : s.Start with
    | none => rfl
    | some s1 =>
      rcases MainCpp.TaskScheduler.Start_some s s1 hs with ⟨hr, rfl⟩ | ⟨_, _, rfl⟩
      · simp [hs]
      · simp [MainCpp.TaskScheduler.Start]

/-- C14 at a running scheduler that holds two tasks. -/
theorem Start_idempotent_witness :
    twoTasks.running = true ∧ twoTasks.Start = some twoTasks :=
  ⟨rfl, (Start_idempotent twoTasks).1 rfl⟩

/-- C18 fails once 2^31 calls of `Add` were accepted.  After 2147483647 rounds
in which a task is submitted, called and counted, one more task is submitted:
`taskCount` is then -2147483648, while `completedTasks` plus the number of
queued tasks plus the number of tasks in progress is 2147483648, and
`completedTasks <= taskCount` does not hold. -/
theorem task_conservation_wraps :
    ((MainCpp.World.start 0).run (cycles 2147483647 ++ [.add ⟨1, .returns⟩ 0])).map
        (fun w => (w.scheduler.taskCount,
          (w.scheduler.completedTasks + w.scheduler.taskQueue.size
            + w.scheduler.worker.inFlight : Int),
          decide (w.scheduler.completedTasks ≤ w.scheduler.taskCount)))
      = some (-2147483648, 2147483648, false) := by
  rw [MainCpp.World.run_append, MainCpp.World.run_cycles]
  decide

/-- C18, amended: in every state of a run from a freshly constructed scheduler
(events `Add`, `StartInput`, `StopInput`, `Start`, `Stop`, changes of the clock
and worker steps, in any interleaving) in which fewer than 2^31 calls of `Add`
were accepted, `taskCount` is `completedTasks` plus the number of queued tasks
plus the number of tasks taken from the queue and not yet counted, which is 0
or 1; hence `0 <= completedTasks <= taskCount`. -/
theorem task_conservation (clock : Int) (events : List MainCpp.Event) (w : MainCpp.World)
    (h : (MainCpp.World.start clock).run events = some w)
    (hb : w.accepted.length < 2147483648) :
    w.scheduler.taskCount =
      w.scheduler.completedTasks + w.scheduler.taskQueue.size + w.scheduler.worker.inFlight ∧
    (w.scheduler.worker.inFlight = 0 ∨ w.scheduler.worker.inFlight = 1) ∧
    0 ≤ w.scheduler.completedTasks ∧
    w.scheduler.completedTasks ≤ w.scheduler.taskCount := by
  have hinv := MainCpp.World.invariant_run clock events w h
  have hlen := hinv.accounted.length_eq
  have htc := hinv.task_count
  have hcc := hinv.completed_count
  simp only [List.length_append] at hlen
  have hf : w.scheduler.worker.inFlight ≤ w.invoked.length ∧
      (w.scheduler.worker.inFlight = 0 ∨ w.scheduler.worker.inFlight = 1) := by
    cases hw : w.scheduler.worker with
    | calling t =>
      exact ⟨List.length_pos_of_mem (hinv.in_progress t hw), Or.inr rfl⟩
    | absent => simp [Worker.inFlight]
    | ready => simp [Worker.inFlight]
    | entered => simp [Worker.inFlight]
  rw [int32_of_range _ (by omega) (by omega)] at htc
  rw [int32_of_range _ (by omega) (by omega)] at hcc
  simp only [BinaryHeap.size]
  refine ⟨by omega, hf.2, by omega, by omega⟩

/-- C18, amended, at the end of the run `eventsCall .returns`, where one task
is queued and one is being called. -/
theorem task_conservation_witness :
    (MainCpp.World.start 0).run (eventsCall .returns) = some worldCall ∧
    worldCall.accepted.length < 2147483648 ∧
    worldCall.scheduler.worker.inFlight = 1 ∧
    worldCall.scheduler.taskCount =
      worldCall.scheduler.completedTasks + worldCall.scheduler.taskQueue.size
        + worldCall.scheduler.worker.inFlight :=
  ⟨by decide, by decide, rfl,
    (task_conservation 0 (eventsCall .returns) worldCall (by decide) (by decide)).1⟩

/-- C19: in the worker of `main.cpp`, the branch for a task that is not yet
due (`pop` the minimum, find `timestamp > now`, `push` the same task back)
leaves a heap-ordered queue with the same multiset of tasks, in heap order and
with the same minimum timestamp, and changes no other member; the array itself
can change: for the array of timestamps 1, 2, 3 it becomes 1, 3, 2. -/
theorem requeue_keeps_queue (s s1 : MainCpp.TaskScheduler) (now deadline : Int)
    (hord : heapOrder s.taskQueue.heap)
    (h : s.workerThreadBody now = (.waitUntil deadline, s1)) :
    ((s1.taskQueue.heap : Multiset Task) = (s.taskQueue.heap : Multiset Task) ∧
      heapOrder s1.taskQueue.heap ∧
      s1.taskQueue.heap[0]!.timestamp = s.taskQueue.heap[0]!.timestamp ∧
      (∀ t ∈ s1.taskQueue.heap, s1.taskQueue.heap[0]!.timestamp ≤ t.timestamp) ∧
      s1 = { s with taskQueue := s1.taskQueue }) ∧
    ((threeTasks.workerThreadBody 0).2.taskQueue.heap.map Task.timestamp = [1, 3, 2] ∧
      (threeTasks.workerThreadBody 0).2.taskQueue.heap ≠ threeTasks.taskQueue.heap) := by
  refine ⟨?_, by decide⟩
  obtain ⟨task, _, hne, hpop, _, _, rfl⟩ :=
    MainCpp.TaskScheduler.workerThreadBody_waitUntil s s1 now deadline h
  have htask : task = s.taskQueue.heap[0]! := by
    rw [BinaryHeap.pop_fst _ hne] at hpop
    simp only [Except.ok.injEq] at hpop
    exact hpop.symm
  have hperm := BinaryHeap.pop_snd_perm s.taskQueue hne
  rw [← htask] at hperm
  have hp := BinaryHeap.push_spec s.taskQueue.pop.2 task
    (BinaryHeap.pop_snd_heapOrder _ hord)
  have hq : (s.taskQueue.pop.2.push task).heap.Perm s.taskQueue.heap :=
    (hp.2.trans (List.perm_append_singleton _ _)).trans hperm.symm
  have hne1 : (s.taskQueue.pop.2.push task).heap ≠ [] := by
    intro h0
    rw [h0] at hq
    exact hne hq.symm.eq_nil
  have hm := BinaryHeap.root_mem _ hne
  have hm1 := BinaryHeap.root_mem _ hne1
  refine ⟨Multiset.coe_eq_coe.mpr hq, hp.1, ?_, BinaryHeap.root_le_mem _ hp.1, rfl⟩
  have h1 := BinaryHeap.root_le_mem _ hord _ (hq.subset hm1)
  have h2 := BinaryHeap.root_le_mem _ hp.1 _ (hq.symm.subset hm)
  exact le_antisymm h2 h1

/-- C19 at the queue with the array of timestamps 1, 2, 3, at clock value 0:
the deadline is the time point of second 1. -/
theorem requeue_keeps_queue_witness :
    heapOrder threeTasks.taskQueue.heap ∧
    threeTasks.workerThreadBody 0
      = (.waitUntil 1000000000, (threeTasks.workerThreadBody 0).2) ∧
    ((threeTasks.workerThreadBody 0).2.taskQueue.heap : Multiset Task)
      = (threeTasks.taskQueue.heap : Multiset Task) ∧
    heapOrder (threeTasks.workerThreadBody 0).2.taskQueue.heap :=
  ⟨by decide, by decide,
    (requeue_keeps_queue threeTasks (threeTasks.workerThreadBody 0).2 0 1000000000
      (by decide) (by decide)).1.1,
    (requeue_keeps_queue threeTasks (threeTasks.workerThreadBody 0).2 0 1000000000
      (by decide) (by decide)).1.2.1⟩

/-! ## The two schedulers side by side -/

namespace TaskSchedulerCpp

namespace TaskScheduler

variable {Q : Type}

theorem pq_workerThreadBody_eq (pq : PriorityQueue Q) (s : TaskScheduler Q) (now : Int) :
    s.workerThreadBody pq now =
      if pq.empty s.taskQueue = true ∨ s.inputInProgress = true then (.wait, s)
      else if (pq.top s.taskQueue).timestamp ≤ now then
        (.call (pq.top s.taskQueue),
          { s with taskQueue := pq.pop s.taskQueue, worker := .calling (pq.top s.taskQueue) })
      else (.waitUntil (from_time_t (pq.top s.taskQueue).timestamp), s) := by
  simp only [workerThreadBody, Bool.or_eq_true]

theorem pq_workerThreadComplete_eq (s : TaskScheduler Q) (task : Task) :
    s.workerThreadComplete task =
      if task.func.outcome = .throwsOther then none
      else some { s with completedTasks := int32 (s.completedTasks + 1), worker := .ready } := by
  unfold workerThreadComplete
  cases task.func.outcome <;> simp

/-- The effect of `Stop`, by the state of the worker at the call. -/
theorem pq_Stop_eq (pq : PriorityQueue Q) (s : TaskScheduler Q) (now : Int) :
    s.Stop pq now =
      if s.worker = .entered then
        if pq.empty s.taskQueue = true ∨ s.inputInProgress = true then none
        else if (pq.top s.taskQueue).timestamp ≤ now then
          if (pq.top s.taskQueue).func.outcome = .throwsOther then none
          else
            some { s with
              taskQueue := pq.pop s.taskQueue, running := false, worker := .absent,
              completedTasks := int32 (s.completedTasks + 1) }
        else some { s with running := false, worker := .absent }
      else if s.worker.throwing = true then none
      else
        some { s with
          running := false, worker := .absent,
          completedTasks :=
            if s.worker.isCalling = true then int32 (s.completedTasks + 1)
            else s.completedTasks } := by
  cases hw : s.worker with
  | absent => simp [Stop, join, hw, Worker.throwing, Worker.isCalling]
  | ready => simp [Stop, join, hw, Worker.throwing, Worker.isCalling]
  | entered =>
    simp only [Stop, join, hw, pq_workerThreadBody_eq, if_true]
    by_cases hc : pq.empty s.taskQueue = true ∨ s.inputInProgress = true
    · simp only [hc, if_true]
    · simp only [hc, if_false]
      by_cases hd : (pq.top s.taskQueue).timestamp ≤ now
      · simp only [hd, if_true, pq_workerThreadComplete_eq]
        by_cases ho : (pq.top s.taskQueue).func.outcome = .throwsOther
        · simp only [ho, if_true, Option.map_none']
        · simp only [ho, if_false, Option.map_some']
      · simp only [hd, if_false]
  | calling t =>
    by_cases ho : t.func.outcome = .throwsOther
    · simp [Stop, join, hw, pq_workerThreadComplete_eq, ho, Worker.throwing]
    · simp [Stop, join, hw, pq_workerThreadComplete_eq, ho, Worker.throwing, Worker.isCalling]

/-- The task that the worker calls while `Stop` waits, if any. -/
theorem pq_stopCalls_eq (pq : PriorityQueue Q) (s : TaskScheduler Q) (now : Int) :
    s.stopCalls pq now =
      if s.worker = .entered ∧ ¬ (pq.empty s.taskQueue = true ∨ s.inputInProgress = true) ∧
          (pq.top s.taskQueue).timestamp ≤ now then [pq.top s.taskQueue]
      else [] := by
  cases hw : s.worker with
  | absent => simp [stopCalls, hw]
  | ready => simp [stopCalls, hw]
  | calling t => simp [stopCalls, hw]
  | entered =>
    simp only [stopCalls, hw, pq_workerThreadBody_eq, true_and]
    by_cases hc : pq.empty s.taskQueue = true ∨ s.inputInProgress = true
    · simp only [hc, if_true, not_true_eq_false, false_and, if_false]
    · simp only [hc, if_false, not_false_eq_true, true_and]
      by_cases hd : (pq.top s.taskQueue).timestamp ≤ now
      · simp only [hd, if_true]
      · simp only [hd, if_false]

end TaskScheduler

namespace World

variable {Q : Type}

theorem pq_step_iterate_eq (pq : PriorityQueue Q) (w : World Q) :
    step pq w .iterate =
      if w.scheduler.worker = .ready ∧ w.scheduler.running = true then
        if pq.empty w.scheduler.taskQueue = true ∨ w.scheduler.inputInProgress = true then
          some w
        else if (pq.top w.scheduler.taskQueue).timestamp ≤ w.clock then
          some { w with
            scheduler := { w.scheduler with
              taskQueue := pq.pop w.scheduler.taskQueue,
              worker := .calling (pq.top w.scheduler.taskQueue) },
            invoked := w.invoked ++ [pq.top w.scheduler.taskQueue] }
        else some w
      else none := by
  by_cases hw : w.scheduler.worker = .ready
  · by_cases hr : w.scheduler.running = true
    · simp only [step, hw, TaskScheduler.workerThreadIterate, TaskScheduler.workerThreadBody,
        hr, and_self, if_true, Bool.or_eq_true]
      by_cases hc : pq.empty w.scheduler.taskQueue = true ∨ w.scheduler.inputInProgress = true
      · simp only [hc, if_true]
      · simp only [hc, if_false]
        by_cases hd : (pq.top w.scheduler.taskQueue).timestamp ≤ w.clock
        · simp only [hd, if_true]
        · simp only [hd, if_false]
    · have hr' : w.scheduler.running = false := by simpa using hr
      simp [step, hw, TaskScheduler.workerThreadIterate, hr']
  · simp only [step, hw, false_and, if_false]

theorem pq_step_enter_eq (pq : PriorityQueue Q) (w : World Q) :
    step pq w .enter =
      if w.scheduler.worker = .ready ∧ w.scheduler.running = true then
        some { w with scheduler := { w.scheduler with worker := .entered } }
      else none := by
  by_cases hw : w.scheduler.worker = .ready
  · by_cases hr : w.scheduler.running = true
    · simp only [step, hw, hr, and_self, if_true]
    · simp only [step, hw, hr, and_false, if_false, Bool.false_eq_true]
  · simp only [step, hw, false_and, if_false]

theorem pq_step_body_eq (pq : PriorityQueue Q) (w : World Q) :
    step pq w .body =
      if w.scheduler.worker = .entered then
        if pq.empty w.scheduler.taskQueue = true ∨ w.scheduler.inputInProgress = true then
          some { w with scheduler := { w.scheduler with worker := .ready } }
        else if (pq.top w.scheduler.taskQueue).timestamp ≤ w.clock then
          some { w with
            scheduler := { w.scheduler with
              taskQueue := pq.pop w.scheduler.taskQueue,
              worker := .calling (pq.top w.scheduler.taskQueue) },
            invoked := w.invoked ++ [pq.top w.scheduler.taskQueue] }
        else some { w with scheduler := { w.scheduler with worker := .ready } }
      else none := by
  by_cases hw : w.scheduler.worker = .entered
  · simp only [step, hw, TaskScheduler.pq_workerThreadBody_eq, if_true]
    by_cases hc : pq.empty w.scheduler.taskQueue = true ∨ w.scheduler.inputInProgress = true
    · simp only [hc, if_true]
    · simp only [hc, if_false]
      by_cases hd : (pq.top w.scheduler.taskQueue).timestamp ≤ w.clock
      · simp only [hd, if_true]
      · simp only [hd, if_false]
  · simp only [step, hw, if_false]

theorem pq_step_add_eq (pq : PriorityQueue Q) (w : World Q) (task : Func) (timestamp : Int) :
    step pq w (.add task timestamp) =
      if timestamp < w.clock then some w
      else some { w with scheduler := w.scheduler.AddLocked pq task timestamp } := by
  by_cases h : timestamp < w.clock <;> simp [step, TaskScheduler.Add, h]

theorem pq_step_addTest_eq (pq : PriorityQueue Q) (w : World Q) (task : Func)
    (timestamp : Int) :
    step pq w (.addTest task timestamp) =
      if timestamp < w.clock then some w
      else some { w with pending := w.pending ++ [⟨task, timestamp⟩] } := by
  by_cases h : timestamp < w.clock <;> simp [step, TaskScheduler.Add, h]

theorem pq_step_start_eq (pq : PriorityQueue Q) (w : World Q) :
    step pq w .start =
      if w.scheduler.running = true then some w
      else if w.scheduler.worker = .absent then
        some { w with scheduler := { w.scheduler with running := true, worker := .ready } }
      else none := by
  by_cases hr : w.scheduler.running = true
  · simp [step, TaskScheduler.Start, hr]
  · have hr' : w.scheduler.running = false := by simpa using hr
    cases hw : w.scheduler.worker <;> simp [step, TaskScheduler.Start, hr', hw]

theorem pq_step_stop_eq (pq : PriorityQueue Q) (w : World Q) :
    step pq w .stop =
      if w.scheduler.worker = .entered then
        if pq.empty w.scheduler.taskQueue = true ∨ w.scheduler.inputInProgress = true then none
        else if (pq.top w.scheduler.taskQueue).timestamp ≤ w.clock then
          if (pq.top w.scheduler.taskQueue).func.outcome = .throwsOther then none
          else
            some { w with
              scheduler := { w.scheduler with
                taskQueue := pq.pop w.scheduler.taskQueue, running := false, worker := .absent,
                completedTasks := int32 (w.scheduler.completedTasks + 1) },
              invoked := w.invoked ++ [pq.top w.scheduler.taskQueue] }
        else
          some { w with scheduler := { w.scheduler with running := false, worker := .absent } }
      else if w.scheduler.worker.throwing = true then none
      else
        some { w with
          scheduler := { w.scheduler with
            running := false, worker := .absent,
            completedTasks :=
              if w.scheduler.worker.isCalling = true then int32 (w.scheduler.completedTasks + 1)
              else w.scheduler.completedTasks } } := by
  simp only [step, TaskScheduler.pq_Stop_eq, TaskScheduler.pq_stopCalls_eq]
  by_cases hw : w.scheduler.worker = .entered
  · simp only [hw, if_true, true_and]
    by_cases hc : pq.empty w.scheduler.taskQueue = true ∨ w.scheduler.inputInProgress = true
    · simp only [hc, if_true, Option.map_none']
    · simp only [hc, if_false, not_false_eq_true, true_and]
      by_cases hd : (pq.top w.scheduler.taskQueue).timestamp ≤ w.clock
      · simp only [hd, if_true]
        by_cases ho : (pq.top w.scheduler.taskQueue).func.outcome = .throwsOther
        · simp only [ho, if_true, Option.map_none']
        · simp only [ho, if_false, Option.map_some']
      · simp only [hd, if_false, Option.map_some', List.append_nil]
  · simp only [hw, if_false, false_and, List.append_nil]
    by_cases ht : w.scheduler.worker.throwing = true
    · simp only [ht, if_true, Option.map_none']
    · simp only [ht, Bool.false_eq_true, if_false, Option.map_some']

theorem pq_step_complete_eq (pq : PriorityQueue Q) (w : World Q) :
    step pq w .complete =
      if w.scheduler.worker.isCalling = true ∧ w.scheduler.worker.throwing = false then
        some { w with scheduler := { w.scheduler with
          completedTasks := int32 (w.scheduler.completedTasks + 1), worker := .ready } }
      else none := by
  cases hw : w.scheduler.worker with
  | absent => simp [step, hw, Worker.isCalling]
  | ready => simp [step, hw, Worker.isCalling]
  | entered => simp [step, hw, Worker.isCalling]
  | calling t =>
    cases ho : t.func.outcome <;>
      simp [step, hw, TaskScheduler.workerThreadComplete, ho, Worker.isCalling,
        Worker.throwing]

end World

end TaskSchedulerCpp

namespace Agree

variable {Q : Type} {pq : TaskSchedulerCpp.PriorityQueue Q} {valid : Q → Prop}
  {contents : Q → List Task} {w1 : MainCpp.World} {w2 : TaskSchedulerCpp.World Q}

theorem isCalling_eq (ha : Agree valid contents w1 w2) :
    w1.scheduler.worker.isCalling = w2.scheduler.worker.isCalling := by
  have h1 := ha.absent
  have h2 := ha.ready
  have h3 := ha.entered
  cases hw1 : w1.scheduler.worker <;> cases hw2 : w2.scheduler.worker <;>
    simp_all [Worker.isCalling]

theorem empty_iff (hl : pq.Lawful valid contents) (ha : Agree valid contents w1 w2) :
    w1.scheduler.taskQueue.heap = [] ↔ pq.empty w2.scheduler.taskQueue = true := by
  rw [hl.empty_iff _ ha.valid]
  constructor
  · intro h
    have := ha.queued
    rw [h] at this
    simpa using this.symm.eq_nil
  · intro h
    have := ha.queued
    rw [h] at this
    simpa using this.eq_nil

theorem cond_iff (hl : pq.Lawful valid contents) (ha : Agree valid contents w1 w2) :
    (w1.scheduler.taskQueue.heap = [] ∨ w1.scheduler.inputInProgress = true) ↔
      (pq.empty w2.scheduler.taskQueue = true ∨ w2.scheduler.inputInProgress = true) := by
  rw [ha.empty_iff hl, ha.inputInProgress]

theorem contents_ne (hl : pq.Lawful valid contents) (ha : Agree valid contents w1 w2)
    (hne : w1.scheduler.taskQueue.heap ≠ []) : contents w2.scheduler.taskQueue ≠ [] := by
  intro h0
  exact hne ((empty_iff hl ha).mpr ((hl.empty_iff _ ha.valid).mpr h0))

theorem root_eq (hl : pq.Lawful valid contents) (ha : Agree valid contents w1 w2)
    (hne : w1.scheduler.taskQueue.heap ≠ []) :
    w1.scheduler.taskQueue.heap[0]!.timestamp = (pq.top w2.scheduler.taskQueue).timestamp := by
  have hne2 := ha.contents_ne hl hne
  apply le_antisymm
  · have hm := List.mem_map_of_mem Task.timestamp (hl.top_mem _ ha.valid hne2)
    obtain ⟨x, hx, hxe⟩ := List.mem_map.mp (ha.queued.symm.subset hm)
    rw [← hxe]
    exact BinaryHeap.root_le_mem _ ha.heap_order x hx
  · have hm := List.mem_map_of_mem Task.timestamp (BinaryHeap.root_mem _ hne)
    obtain ⟨y, hy, hye⟩ := List.mem_map.mp (ha.queued.subset hm)
    rw [← hye]
    exact hl.top_le _ ha.valid y hy

theorem due_iff (hl : pq.Lawful valid contents) (ha : Agree valid contents w1 w2)
    (hne : w1.scheduler.taskQueue.heap ≠ []) :
    w1.scheduler.taskQueue.heap[0]!.timestamp ≤ w1.clock ↔
      (pq.top w2.scheduler.taskQueue).timestamp ≤ w2.clock := by
  rw [ha.root_eq hl hne, ha.clock]

theorem pop_queued (hl : pq.Lawful valid contents) (ha : Agree valid contents w1 w2)
    (hne : w1.scheduler.taskQueue.heap ≠ []) :
    (w1.scheduler.taskQueue.pop.2.heap.map Task.timestamp).Perm
      ((contents (pq.pop w2.scheduler.taskQueue)).map Task.timestamp) := by
  have e1 := (BinaryHeap.pop_snd_perm w1.scheduler.taskQueue hne).map Task.timestamp
  have e2 := (hl.pop_contents _ ha.valid (ha.contents_ne hl hne)).map Task.timestamp
  simp only [List.map_cons] at e1 e2
  have e3 := (e1.symm.trans ha.queued).trans e2
  rw [ha.root_eq hl hne] at e3
  exact e3.cons_inv

theorem pop_invoked (hl : pq.Lawful valid contents) (ha : Agree valid contents w1 w2)
    (hne : w1.scheduler.taskQueue.heap ≠ []) :
    (w1.invoked ++ [w1.scheduler.taskQueue.heap[0]!]).map Task.timestamp
      = (w2.invoked ++ [pq.top w2.scheduler.taskQueue]).map Task.timestamp := by
  simp [ha.invoked, ha.root_eq hl hne]

theorem requeue_queued (ha : Agree valid contents w1 w2)
    (hne : w1.scheduler.taskQueue.heap ≠ []) :
    ((w1.scheduler.taskQueue.pop.2.push w1.scheduler.taskQueue.heap[0]!).heap.map
        Task.timestamp).Perm
      ((contents w2.scheduler.taskQueue).map Task.timestamp) := by
  have hperm1 := BinaryHeap.pop_snd_perm w1.scheduler.taskQueue hne
  have e1 := (((BinaryHeap.push_perm _ _).trans (List.perm_append_singleton _ _)).trans
    hperm1.symm).map Task.timestamp
  exact e1.trans ha.queued

theorem requeue_heapOrder (ha : Agree valid contents w1 w2) :
    heapOrder (w1.scheduler.taskQueue.pop.2.push w1.scheduler.taskQueue.heap[0]!).heap :=
  (BinaryHeap.push_spec w1.scheduler.taskQueue.pop.2 w1.scheduler.taskQueue.heap[0]!
    (BinaryHeap.pop_snd_heapOrder _ ha.heap_order)).1

theorem insert_queued (hl : pq.Lawful valid contents) (ha : Agree valid contents w1 w2)
    (task : Func) (timestamp : Int) :
    ((w1.scheduler.taskQueue.push ⟨task, timestamp⟩).heap.map Task.timestamp).Perm
      ((contents (pq.emplace w2.scheduler.taskQueue task timestamp)).map Task.timestamp) := by
  have e1 := ((BinaryHeap.push_perm w1.scheduler.taskQueue ⟨task, timestamp⟩).trans
    (List.perm_append_singleton _ _)).map Task.timestamp
  have e2 := (hl.emplace_contents w2.scheduler.taskQueue task timestamp
    ha.valid).map Task.timestamp
  simp only [List.map_cons] at e1 e2
  exact e1.trans ((List.Perm.cons _ ha.queued).trans e2.symm)

theorem agree_start (hl : pq.Lawful valid contents) (clock : Int) :
    Agree valid contents (MainCpp.World.start clock) (TaskSchedulerCpp.World.start pq clock) where
  taskCount := rfl
  completedTasks := rfl
  inputInProgress := rfl
  running := rfl
  clock := rfl
  pending := rfl
  absent := by simp [MainCpp.World.start, TaskSchedulerCpp.World.start,
    MainCpp.TaskScheduler.new, TaskSchedulerCpp.TaskScheduler.new]
  ready := by simp [MainCpp.World.start, TaskSchedulerCpp.World.start,
    MainCpp.TaskScheduler.new, TaskSchedulerCpp.TaskScheduler.new]
  entered := by simp [MainCpp.World.start, TaskSchedulerCpp.World.start,
    MainCpp.TaskScheduler.new, TaskSchedulerCpp.TaskScheduler.new]
  calling := by
    intro t1 t2 h
    simp [MainCpp.World.start, MainCpp.TaskScheduler.new] at h
  queued := by
    simp [MainCpp.World.start, TaskSchedulerCpp.World.start,
      MainCpp.TaskScheduler.new, TaskSchedulerCpp.TaskScheduler.new, hl.new_contents]
  invoked := rfl
  heap_order := BinaryHeap.heapOrder_nil
  valid := hl.new_valid

theorem agree_step (hl : pq.Lawful valid contents) (ha : Agree valid contents w1 w2)
    (e : MainCpp.Event) (w1' : MainCpp.World) (w2' : TaskSchedulerCpp.World Q)
    (h1 : w1.step e = some w1') (h2 : TaskSchedulerCpp.World.step pq w2 e = some w2') :
    Agree valid contents w1' w2' := by
  cases e with
  | tick n =>
    simp only [MainCpp.World.step, TaskSchedulerCpp.World.step, Option.some.injEq] at h1 h2
    subst h1 h2
    exact { ha with clock := by simp [ha.clock] }
  | setClock c =>
    simp only [MainCpp.World.step, TaskSchedulerCpp.World.step, Option.some.injEq] at h1 h2
    subst h1 h2
    exact { ha with clock := rfl }
  | add task timestamp =>
    rw [MainCpp.World.step_add_eq] at h1
    rw [TaskSchedulerCpp.World.pq_step_add_eq] at h2
    by_cases hlt : timestamp < w1.clock
    · have hlt2 : timestamp < w2.clock := by rw [← ha.clock]; exact hlt
      simp only [hlt, hlt2, if_true, Option.some.injEq] at h1 h2
      subst h1 h2
      exact ha
    · have hlt2 : ¬ timestamp < w2.clock := by rw [← ha.clock]; exact hlt
      simp only [hlt, hlt2, if_false, Option.some.injEq] at h1 h2
      subst h1 h2
      exact { ha with
        taskCount := by
          simp [MainCpp.TaskScheduler.AddLocked, TaskSchedulerCpp.TaskScheduler.AddLocked,
            ha.taskCount]
        queued := ha.insert_queued hl task timestamp
        heap_order :=
          (BinaryHeap.push_spec w1.scheduler.taskQueue ⟨task, timestamp⟩ ha.heap_order).1
        valid := hl.emplace_valid _ _ _ ha.valid }
  | addTest task timestamp =>
    rw [MainCpp.World.step_addTest_eq] at h1
    rw [TaskSchedulerCpp.World.pq_step_addTest_eq] at h2
    by_cases hlt : timestamp < w1.clock
    · have hlt2 : timestamp < w2.clock := by rw [← ha.clock]; exact hlt
      simp only [hlt, hlt2, if_true, Option.some.injEq] at h1 h2
      subst h1 h2
      exact ha
    · have hlt2 : ¬ timestamp < w2.clock := by rw [← ha.clock]; exact hlt
      simp only [hlt, hlt2, if_false, Option.some.injEq] at h1 h2
      subst h1 h2
      exact { ha with pending := by simp [ha.pending] }
  | addInsert i =>
    simp only [MainCpp.World.step, TaskSchedulerCpp.World.step, ← ha.pending] at h1 h2
    cases hp : w1.pending[i]? with
    | none =>
      rw [hp] at h1
      simp at h1
    | some t =>
      rw [hp] at h1 h2
      simp only [Option.some.injEq] at h1 h2
      subst h1 h2
      exact { ha with
        taskCount := by
          simp [MainCpp.TaskScheduler.AddLocked, TaskSchedulerCpp.TaskScheduler.AddLocked,
            ha.taskCount]
        pending := rfl
        queued := ha.insert_queued hl t.func t.timestamp
        heap_order := (BinaryHeap.push_spec w1.scheduler.taskQueue t ha.heap_order).1
        valid := hl.emplace_valid _ _ _ ha.valid }
  | start =>
    rw [MainCpp.World.step_start_eq] at h1
    rw [TaskSchedulerCpp.World.pq_step_start_eq] at h2
    by_cases hr : w1.scheduler.running = true
    · have hr2 : w2.scheduler.running = true := by rw [← ha.running]; exact hr
      simp only [hr, hr2, if_true, Option.some.injEq] at h1 h2
      subst h1 h2
      exact ha
    · have hr2 : ¬ w2.scheduler.running = true := by rw [← ha.running]; exact hr
      by_cases hw : w1.scheduler.worker = .absent
      · have hw2 := ha.absent.mp hw
        rw [if_neg hr, if_pos hw] at h1
        rw [if_neg hr2, if_pos hw2] at h2
        simp only [Option.some.injEq] at h1 h2
        subst h1 h2
        exact { ha with
          running := rfl
          absent := by simp
          ready := by simp
          entered := by simp
          calling := by intro t1 t2 h; simp at h }
      · rw [if_neg hr, if_neg hw] at h1
        simp at h1
  | stop =>
    rw [MainCpp.World.step_stop_eq] at h1
    rw [TaskSchedulerCpp.World.pq_step_stop_eq] at h2
    by_cases hw : w1.scheduler.worker = .entered
    · have hw2 := ha.entered.mp hw
      rw [if_pos hw] at h1
      rw [if_pos hw2] at h2
      by_cases hq : w1.scheduler.taskQueue.heap = [] ∨ w1.scheduler.inputInProgress = true
      · rw [if_pos hq] at h1
        simp at h1
      · have hq2 := fun h => hq ((ha.cond_iff hl).mpr h)
        have hne : w1.scheduler.taskQueue.heap ≠ [] := fun h => hq (Or.inl h)
        rw [if_neg hq] at h1
        rw [if_neg hq2] at h2
        by_cases hd : w1.scheduler.taskQueue.heap[0]!.timestamp ≤ w1.clock
        · have hd2 := (ha.due_iff hl hne).mp hd
          rw [if_pos hd] at h1
          rw [if_pos hd2] at h2
          split at h1
          · simp at h1
          · split at h2
            · simp at h2
            · simp only [Option.some.injEq] at h1 h2
              subst h1 h2
              exact { ha with
                running := rfl
                completedTasks := by simp [ha.completedTasks]
                absent := by simp
                ready := by simp
                entered := by simp
                calling := by intro t1 t2 h; simp at h
                queued := ha.pop_queued hl hne
                invoked := ha.pop_invoked hl hne
                heap_order := BinaryHeap.pop_snd_heapOrder _ ha.heap_order
                valid := hl.pop_valid _ ha.valid (ha.contents_ne hl hne) }
        · have hd2 := fun h => hd ((ha.due_iff hl hne).mpr h)
          rw [if_neg hd] at h1
          rw [if_neg hd2] at h2
          simp only [Option.some.injEq] at h1 h2
          subst h1 h2
          exact { ha with
            running := rfl
            absent := by simp
            ready := by simp
            entered := by simp
            calling := by intro t1 t2 h; simp at h
            queued := ha.requeue_queued hne
            heap_order := ha.requeue_heapOrder }
    · have hw2 := fun h => hw (ha.entered.mpr h)
      rw [if_neg hw] at h1
      rw [if_neg hw2] at h2
      split at h1
      · simp at h1
      · split at h2
        · simp at h2
        · simp only [Option.some.injEq] at h1 h2
          subst h1 h2
          exact { ha with
            running := rfl
            completedTasks := by simp [ha.completedTasks, ha.isCalling_eq]
            absent := by simp
            ready := by simp
            entered := by simp
            calling := by intro t1 t2 h; simp at h }
  | startInput =>
    simp only [MainCpp.World.step, TaskSchedulerCpp.World.step, Option.some.injEq] at h1 h2
    subst h1 h2
    exact { ha with inputInProgress := rfl }
  | stopInput =>
    simp only [MainCpp.World.step, TaskSchedulerCpp.World.step, Option.some.injEq] at h1 h2
    subst h1 h2
    exact { ha with inputInProgress := rfl }
  | iterate =>
    rw [MainCpp.World.step_iterate_eq] at h1
    rw [TaskSchedulerCpp.World.pq_step_iterate_eq] at h2
    split at h1
    · rename_i hc1
      have hc2 : w2.scheduler.worker = .ready ∧ w2.scheduler.running = true :=
        ⟨ha.ready.mp hc1.1, by rw [← ha.running]; exact hc1.2⟩
      rw [if_pos hc2] at h2
      by_cases hq : w1.scheduler.taskQueue.heap = [] ∨ w1.scheduler.inputInProgress = true
      · have hq2 := (ha.cond_iff hl).mp hq
        rw [if_pos hq] at h1
        rw [if_pos hq2] at h2
        simp only [Option.some.injEq] at h1 h2
        subst h1 h2
        exact ha
      · have hq2 := fun h => hq ((ha.cond_iff hl).mpr h)
        have hne : w1.scheduler.taskQueue.heap ≠ [] := fun h => hq (Or.inl h)
        rw [if_neg hq] at h1
        rw [if_neg hq2] at h2
        by_cases hd : w1.scheduler.taskQueue.heap[0]!.timestamp ≤ w1.clock
        · have hd2 := (ha.due_iff hl hne).mp hd
          rw [if_pos hd] at h1
          rw [if_pos hd2] at h2
          simp only [Option.some.injEq] at h1 h2
          subst h1 h2
          exact { ha with
            absent := by simp
            ready := by simp
            entered := by simp
            calling := by
              intro t1 t2 h1 h2
              simp only [Worker.calling.injEq] at h1 h2
              rw [← h1, ← h2]
              exact ha.root_eq hl hne
            queued := ha.pop_queued hl hne
            invoked := ha.pop_invoked hl hne
            heap_order := BinaryHeap.pop_snd_heapOrder _ ha.heap_order
            valid := hl.pop_valid _ ha.valid (ha.contents_ne hl hne) }
        · have hd2 := fun h => hd ((ha.due_iff hl hne).mpr h)
          rw [if_neg hd] at h1
          rw [if_neg hd2] at h2
          simp only [Option.some.injEq] at h1 h2
          subst h1 h2
          exact { ha with
            queued := ha.requeue_queued hne
            heap_order := ha.requeue_heapOrder }
    · simp at h1
  | enter =>
    rw [MainCpp.World.step_enter_eq] at h1
    rw [TaskSchedulerCpp.World.pq_step_enter_eq] at h2
    split at h1
    · split at h2
      · simp only [Option.some.injEq] at h1 h2
        subst h1 h2
        exact { ha with
          absent := by simp
          ready := by simp
          entered := by simp
          calling := by intro t1 t2 h; simp at h }
      · simp at h2
    · simp at h1
  | body =>
    rw [MainCpp.World.step_body_eq] at h1
    rw [TaskSchedulerCpp.World.pq_step_body_eq] at h2
    split at h1
    · rename_i hw
      rw [if_pos (ha.entered.mp hw)] at h2
      by_cases hq : w1.scheduler.taskQueue.heap = [] ∨ w1.scheduler.inputInProgress = true
      · have hq2 := (ha.cond_iff hl).mp hq
        rw [if_pos hq] at h1
        rw [if_pos hq2] at h2
        simp only [Option.some.injEq] at h1 h2
        subst h1 h2
        exact { ha with
          absent := by simp
          ready := by simp
          entered := by simp
          calling := by intro t1 t2 h; simp at h }
      · have hq2 := fun h => hq ((ha.cond_iff hl).mpr h)
        have hne : w1.scheduler.taskQueue.heap ≠ [] := fun h => hq (Or.inl h)
        rw [if_neg hq] at h1
        rw [if_neg hq2] at h2
        by_cases hd : w1.scheduler.taskQueue.heap[0]!.timestamp ≤ w1.clock
        · have hd2 := (ha.due_iff hl hne).mp hd
          rw [if_pos hd] at h1
          rw [if_pos hd2] at h2
          simp only [Option.some.injEq] at h1 h2
          subst h1 h2
          exact { ha with
            absent := by simp
            ready := by simp
            entered := by simp
            calling := by
              intro t1 t2 h1 h2
              simp only [Worker.calling.injEq] at h1 h2
              rw [← h1, ← h2]
              exact ha.root_eq hl hne
            queued := ha.pop_queued hl hne
            invoked := ha.pop_invoked hl hne
            heap_order := BinaryHeap.pop_snd_heapOrder _ ha.heap_order
            valid := hl.pop_valid _ ha.valid (ha.contents_ne hl hne) }
        · have hd2 := fun h => hd ((ha.due_iff hl hne).mpr h)
          rw [if_neg hd] at h1
          rw [if_neg hd2] at h2
          simp only [Option.some.injEq] at h1 h2
          subst h1 h2
          exact { ha with
            absent := by simp
            ready := by simp
            entered := by simp
            calling := by intro t1 t2 h; simp at h
            queued := ha.requeue_queued hne
            heap_order := ha.requeue_heapOrder }
    · simp at h1
  | complete =>
    rw [MainCpp.World.step_complete_eq] at h1
    rw [TaskSchedulerCpp.World.pq_step_complete_eq] at h2
    split at h1
    · split at h2
      · simp only [Option.some.injEq] at h1 h2
        subst h1 h2
        exact { ha with
          completedTasks := by simp [ha.completedTasks]
          absent := by simp
          ready := by simp
          entered := by simp
          calling := by intro t1 t2 h; simp at h }
      · simp at h2
    · simp at h1

end Agree

namespace Caught

variable {Q : Type} {pq : TaskSchedulerCpp.PriorityQueue Q} {valid : Q → Prop}
  {contents : Q → List Task} {w1 : MainCpp.World} {w2 : TaskSchedulerCpp.World Q}

theorem throwing1 (hc : Caught contents w1 w2) : w1.scheduler.worker.throwing = false := by
  have h := hc.calling1
  cases hw : w1.scheduler.worker with
  | absent => rfl
  | ready => rfl
  | entered => rfl
  | calling t => simpa [Worker.throwing] using h t hw

theorem throwing2 (hc : Caught contents w1 w2) : w2.scheduler.worker.throwing = false := by
  have h := hc.calling2
  cases hw : w2.scheduler.worker with
  | absent => rfl
  | ready => rfl
  | entered => rfl
  | calling t => simpa [Worker.throwing] using h t hw

theorem caught_start (hl : pq.Lawful valid contents) (clock : Int) :
    Caught contents (MainCpp.World.start clock) (TaskSchedulerCpp.World.start pq clock) where
  queued1 := by intro t ht; simp [MainCpp.World.start, MainCpp.TaskScheduler.new] at ht
  queued2 := by
    intro t ht
    simp [TaskSchedulerCpp.World.start, TaskSchedulerCpp.TaskScheduler.new,
      hl.new_contents] at ht
  calling1 := by intro t ht; simp [MainCpp.World.start, MainCpp.TaskScheduler.new] at ht
  calling2 := by
    intro t ht
    simp [TaskSchedulerCpp.World.start, TaskSchedulerCpp.TaskScheduler.new] at ht
  pending1 := by intro t ht; simp [MainCpp.World.start] at ht

theorem insert_queued1 (hc : Caught contents w1 w2) (t : Task)
    (ht : t.func.outcome ≠ .throwsOther) :
    ∀ x ∈ (w1.scheduler.taskQueue.push t).heap, x.func.outcome ≠ .throwsOther := by
  intro x hx
  have hx' := (BinaryHeap.push_perm w1.scheduler.taskQueue t).subset hx
  rcases List.mem_append.mp hx' with h | h
  · exact hc.queued1 x h
  · simp only [List.mem_singleton] at h
    subst h
    exact ht

theorem insert_queued2 (hl : pq.Lawful valid contents) (ha : Agree valid contents w1 w2)
    (hc : Caught contents w1 w2) (task : Func) (timestamp : Int)
    (ht : task.outcome ≠ .throwsOther) :
    ∀ x ∈ contents (pq.emplace w2.scheduler.taskQueue task timestamp),
      x.func.outcome ≠ .throwsOther := by
  intro x hx
  have hx' := (hl.emplace_contents w2.scheduler.taskQueue task timestamp ha.valid).subset hx
  rcases List.mem_cons.mp hx' with h | h
  · subst h
    exact ht
  · exact hc.queued2 x h

theorem pop_queued1 (hc : Caught contents w1 w2) (hne : w1.scheduler.taskQueue.heap ≠ []) :
    ∀ x ∈ w1.scheduler.taskQueue.pop.2.heap, x.func.outcome ≠ .throwsOther := by
  intro x hx
  exact hc.queued1 x ((BinaryHeap.pop_snd_perm w1.scheduler.taskQueue hne).symm.subset
    (List.mem_cons_of_mem _ hx))

theorem pop_queued2 (hl : pq.Lawful valid contents) (ha : Agree valid contents w1 w2)
    (hc : Caught contents w1 w2) (hne : w1.scheduler.taskQueue.heap ≠ []) :
    ∀ x ∈ contents (pq.pop w2.scheduler.taskQueue), x.func.outcome ≠ .throwsOther := by
  intro x hx
  exact hc.queued2 x ((hl.pop_contents _ ha.valid (ha.contents_ne hl hne)).symm.subset
    (List.mem_cons_of_mem _ hx))

theorem requeue_queued1 (hc : Caught contents w1 w2)
    (hne : w1.scheduler.taskQueue.heap ≠ []) :
    ∀ x ∈ (w1.scheduler.taskQueue.pop.2.push w1.scheduler.taskQueue.heap[0]!).heap,
      x.func.outcome ≠ .throwsOther := by
  intro x hx
  exact hc.queued1 x (MainCpp.World.requeue_subset _ hne x hx)

theorem root1 (hc : Caught contents w1 w2) (hne : w1.scheduler.taskQueue.heap ≠ []) :
    w1.scheduler.taskQueue.heap[0]!.func.outcome ≠ .throwsOther :=
  hc.queued1 _ (BinaryHeap.root_mem _ hne)

theorem top2 (hl : pq.Lawful valid contents) (ha : Agree valid contents w1 w2)
    (hc : Caught contents w1 w2) (hne : w1.scheduler.taskQueue.heap ≠ []) :
    (pq.top w2.scheduler.taskQueue).func.outcome ≠ .throwsOther :=
  hc.queued2 _ (hl.top_mem _ ha.valid (ha.contents_ne hl hne))

theorem caught_step (hl : pq.Lawful valid contents) (ha : Agree valid contents w1 w2)
    (hc : Caught contents w1 w2) (e : MainCpp.Event) (he : e.caught) :
    (w1.step e).isSome = (TaskSchedulerCpp.World.step pq w2 e).isSome ∧
    ∀ (w1' : MainCpp.World) (w2' : TaskSchedulerCpp.World Q), w1.step e = some w1' →
      TaskSchedulerCpp.World.step pq w2 e = some w2' → Caught contents w1' w2' := by
  cases e with
  | tick n =>
    refine ⟨rfl, ?_⟩
    intro w1' w2' h1 h2
    simp only [MainCpp.World.step, TaskSchedulerCpp.World.step, Option.some.injEq] at h1 h2
    subst h1 h2
    exact ⟨hc.queued1, hc.queued2, hc.calling1, hc.calling2, hc.pending1⟩
  | setClock c =>
    refine ⟨rfl, ?_⟩
    intro w1' w2' h1 h2
    simp only [MainCpp.World.step, TaskSchedulerCpp.World.step, Option.some.injEq] at h1 h2
    subst h1 h2
    exact ⟨hc.queued1, hc.queued2, hc.calling1, hc.calling2, hc.pending1⟩
  | add task timestamp =>
    rw [MainCpp.World.step_add_eq, TaskSchedulerCpp.World.pq_step_add_eq]
    by_cases hlt : timestamp < w1.clock
    · have hlt2 : timestamp < w2.clock := by rw [← ha.clock]; exact hlt
      rw [if_pos hlt, if_pos hlt2]
      refine ⟨rfl, ?_⟩
      intro w1' w2' h1 h2
      simp only [Option.some.injEq] at h1 h2
      subst h1 h2
      exact hc
    · have hlt2 : ¬ timestamp < w2.clock := by rw [← ha.clock]; exact hlt
      rw [if_neg hlt, if_neg hlt2]
      refine ⟨rfl, ?_⟩
      intro w1' w2' h1 h2
      simp only [Option.some.injEq] at h1 h2
      subst h1 h2
      exact ⟨hc.insert_queued1 ⟨task, timestamp⟩ he, hc.insert_queued2 hl ha task timestamp he,
        hc.calling1, hc.calling2, hc.pending1⟩
  | addTest task timestamp =>
    rw [MainCpp.World.step_addTest_eq, TaskSchedulerCpp.World.pq_step_addTest_eq]
    by_cases hlt : timestamp < w1.clock
    · have hlt2 : timestamp < w2.clock := by rw [← ha.clock]; exact hlt
      rw [if_pos hlt, if_pos hlt2]
      refine ⟨rfl, ?_⟩
      intro w1' w2' h1 h2
      simp only [Option.some.injEq] at h1 h2
      subst h1 h2
      exact hc
    · have hlt2 : ¬ timestamp < w2.clock := by rw [← ha.clock]; exact hlt
      rw [if_neg hlt, if_neg hlt2]
      refine ⟨rfl, ?_⟩
      intro w1' w2' h1 h2
      simp only [Option.some.injEq] at h1 h2
      subst h1 h2
      refine ⟨hc.queued1, hc.queued2, hc.calling1, hc.calling2, ?_⟩
      intro t ht
      rcases List.mem_append.mp ht with h | h
      · exact hc.pending1 t h
      · simp only [List.mem_singleton] at h
        subst h
        exact he
  | addInsert i =>
    simp only [MainCpp.World.step, TaskSchedulerCpp.World.step, ← ha.pending]
    cases hp : w1.pending[i]? with
    | none =>
      refine ⟨rfl, ?_⟩
      intro w1' w2' h1
      simp at h1
    | some t =>
      have hmem : t ∈ w1.pending := List.getElem?_mem hp
      have hot := hc.pending1 t hmem
      refine ⟨rfl, ?_⟩
      intro w1' w2' h1 h2
      simp only [Option.some.injEq] at h1 h2
      subst h1 h2
      refine ⟨hc.insert_queued1 t hot, hc.insert_queued2 hl ha t.func t.timestamp hot,
        hc.calling1, hc.calling2, ?_⟩
      intro x hx
      exact hc.pending1 x (List.mem_of_mem_eraseIdx hx)
  | start =>
    rw [MainCpp.World.step_start_eq, TaskSchedulerCpp.World.pq_step_start_eq]
    by_cases hr : w1.scheduler.running = true
    · have hr2 : w2.scheduler.running = true := by rw [← ha.running]; exact hr
      rw [if_pos hr, if_pos hr2]
      refine ⟨rfl, ?_⟩
      intro w1' w2' h1 h2
      simp only [Option.some.injEq] at h1 h2
      subst h1 h2
      exact hc
    · have hr2 : ¬ w2.scheduler.running = true := by rw [← ha.running]; exact hr
      rw [if_neg hr, if_neg hr2]
      by_cases hw : w1.scheduler.worker = .absent
      · have hw2 := ha.absent.mp hw
        rw [if_pos hw, if_pos hw2]
        refine ⟨rfl, ?_⟩
        intro w1' w2' h1 h2
        simp only [Option.some.injEq] at h1 h2
        subst h1 h2
        exact ⟨hc.queued1, hc.queued2, by intro t h; simp at h, by intro t h; simp at h,
          hc.pending1⟩
      · have hw2 : ¬ w2.scheduler.worker = .absent := fun h => hw (ha.absent.mpr h)
        rw [if_neg hw, if_neg hw2]
        refine ⟨rfl, ?_⟩
        intro w1' w2' h1
        simp at h1
  | stop =>
    rw [MainCpp.World.step_stop_eq, TaskSchedulerCpp.World.pq_step_stop_eq]
    by_cases hw : w1.scheduler.worker = .entered
    · have hw2 := ha.entered.mp hw
      rw [if_pos hw, if_pos hw2]
      by_cases hq : w1.scheduler.taskQueue.heap = [] ∨ w1.scheduler.inputInProgress = true
      · have hq2 := (ha.cond_iff hl).mp hq
        rw [if_pos hq, if_pos hq2]
        refine ⟨rfl, ?_⟩
        intro w1' w2' h1
        simp at h1
      · have hq2 := fun h => hq ((ha.cond_iff hl).mpr h)
        have hne : w1.scheduler.taskQueue.heap ≠ [] := fun h => hq (Or.inl h)
        rw [if_neg hq, if_neg hq2]
        by_cases hd : w1.scheduler.taskQueue.heap[0]!.timestamp ≤ w1.clock
        · have hd2 := (ha.due_iff hl hne).mp hd
          rw [if_pos hd, if_pos hd2, if_neg (hc.root1 hne), if_neg (hc.top2 hl ha hne)]
          refine ⟨rfl, ?_⟩
          intro w1' w2' h1 h2
          simp only [Option.some.injEq] at h1 h2
          subst h1 h2
          exact ⟨hc.pop_queued1 hne, hc.pop_queued2 hl ha hne, by intro t h; simp at h,
            by intro t h; simp at h, hc.pending1⟩
        · have hd2 := fun h => hd ((ha.due_iff hl hne).mpr h)
          rw [if_neg hd, if_neg hd2]
          refine ⟨rfl, ?_⟩
          intro w1' w2' h1 h2
          simp only [Option.some.injEq] at h1 h2
          subst h1 h2
          exact ⟨hc.requeue_queued1 hne, hc.queued2, by intro t h; simp at h,
            by intro t h; simp at h, hc.pending1⟩
    · have hw2 := fun h => hw (ha.entered.mpr h)
      rw [if_neg hw, if_neg hw2, hc.throwing1, hc.throwing2]
      refine ⟨rfl, ?_⟩
      intro w1' w2' h1 h2
      simp only [Bool.false_eq_true, if_false, Option.some.injEq] at h1 h2
      subst h1 h2
      exact ⟨hc.queued1, hc.queued2, by intro t h; simp at h, by intro t h; simp at h,
        hc.pending1⟩
  | startInput =>
    refine ⟨rfl, ?_⟩
    intro w1' w2' h1 h2
    simp only [MainCpp.World.step, TaskSchedulerCpp.World.step, Option.some.injEq] at h1 h2
    subst h1 h2
    exact ⟨hc.queued1, hc.queued2, hc.calling1, hc.calling2, hc.pending1⟩
  | stopInput =>
    refine ⟨rfl, ?_⟩
    intro w1' w2' h1 h2
    simp only [MainCpp.World.step, TaskSchedulerCpp.World.step, Option.some.injEq] at h1 h2
    subst h1 h2
    exact ⟨hc.queued1, hc.queued2, hc.calling1, hc.calling2, hc.pending1⟩
  | iterate =>
    rw [MainCpp.World.step_iterate_eq, TaskSchedulerCpp.World.pq_step_iterate_eq]
    by_cases hc1 : w1.scheduler.worker = .ready ∧ w1.scheduler.running = true
    · have hc2 : w2.scheduler.worker = .ready ∧ w2.scheduler.running = true :=
        ⟨ha.ready.mp hc1.1, by rw [← ha.running]; exact hc1.2⟩
      rw [if_pos hc1, if_pos hc2]
      by_cases hq : w1.scheduler.taskQueue.heap = [] ∨ w1.scheduler.inputInProgress = true
      · have hq2 := (ha.cond_iff hl).mp hq
        rw [if_pos hq, if_pos hq2]
        refine ⟨rfl, ?_⟩
        intro w1' w2' h1 h2
        simp only [Option.some.injEq] at h1 h2
        subst h1 h2
        exact hc
      · have hq2 := fun h => hq ((ha.cond_iff hl).mpr h)
        have hne : w1.scheduler.taskQueue.heap ≠ [] := fun h => hq (Or.inl h)
        rw [if_neg hq, if_neg hq2]
        by_cases hd : w1.scheduler.taskQueue.heap[0]!.timestamp ≤ w1.clock
        · have hd2 := (ha.due_iff hl hne).mp hd
          rw [if_pos hd, if_pos hd2]
          refine ⟨rfl, ?_⟩
          intro w1' w2' h1 h2
          simp only [Option.some.injEq] at h1 h2
          subst h1 h2
          refine ⟨hc.pop_queued1 hne, hc.pop_queued2 hl ha hne, ?_, ?_, hc.pending1⟩
          · intro t ht
            simp only [Worker.calling.injEq] at ht
            subst ht
            exact hc.root1 hne
          · intro t ht
            simp only [Worker.calling.injEq] at ht
            subst ht
            exact hc.top2 hl ha hne
        · have hd2 := fun h => hd ((ha.due_iff hl hne).mpr h)
          rw [if_neg hd, if_neg hd2]
          refine ⟨rfl, ?_⟩
          intro w1' w2' h1 h2
          simp only [Option.some.injEq] at h1 h2
          subst h1 h2
          exact ⟨hc.requeue_queued1 hne, hc.queued2, hc.calling1, hc.calling2, hc.pending1⟩
    · have hc2 : ¬ (w2.scheduler.worker = .ready ∧ w2.scheduler.running = true) := by
        intro h
        exact hc1 ⟨ha.ready.mpr h.1, by rw [ha.running]; exact h.2⟩
      rw [if_neg hc1, if_neg hc2]
      refine ⟨rfl, ?_⟩
      intro w1' w2' h1
      simp at h1
  | enter =>
    rw [MainCpp.World.step_enter_eq, TaskSchedulerCpp.World.pq_step_enter_eq]
    by_cases hc1 : w1.scheduler.worker = .ready ∧ w1.scheduler.running = true
    · have hc2 : w2.scheduler.worker = .ready ∧ w2.scheduler.running = true :=
        ⟨ha.ready.mp hc1.1, by rw [← ha.running]; exact hc1.2⟩
      rw [if_pos hc1, if_pos hc2]
      refine ⟨rfl, ?_⟩
      intro w1' w2' h1 h2
      simp only [Option.some.injEq] at h1 h2
      subst h1 h2
      exact ⟨hc.queued1, hc.queued2, by intro t h; simp at h, by intro t h; simp at h,
        hc.pending1⟩
    · have hc2 : ¬ (w2.scheduler.worker = .ready ∧ w2.scheduler.running = true) := by
        intro h
        exact hc1 ⟨ha.ready.mpr h.1, by rw [ha.running]; exact h.2⟩
      rw [if_neg hc1, if_neg hc2]
      refine ⟨rfl, ?_⟩
      intro w1' w2' h1
      simp at h1
  | body =>
    rw [MainCpp.World.step_body_eq, TaskSchedulerCpp.World.pq_step_body_eq]
    by_cases hw : w1.scheduler.worker = .entered
    · have hw2 := ha.entered.mp hw
      rw [if_pos hw, if_pos hw2]
      by_cases hq : w1.scheduler.taskQueue.heap = [] ∨ w1.scheduler.inputInProgress = true
      · have hq2 := (ha.cond_iff hl).mp hq
        rw [if_pos hq, if_pos hq2]
        refine ⟨rfl, ?_⟩
        intro w1' w2' h1 h2
        simp only [Option.some.injEq] at h1 h2
        subst h1 h2
        exact ⟨hc.queued1, hc.queued2, by intro t h; simp at h, by intro t h; simp at h,
          hc.pending1⟩
      · have hq2 := fun h => hq ((ha.cond_iff hl).mpr h)
        have hne : w1.scheduler.taskQueue.heap ≠ [] := fun h => hq (Or.inl h)
        rw [if_neg hq, if_neg hq2]
        by_cases hd : w1.scheduler.taskQueue.heap[0]!.timestamp ≤ w1.clock
        · have hd2 := (ha.due_iff hl hne).mp hd
          rw [if_pos hd, if_pos hd2]
          refine ⟨rfl, ?_⟩
          intro w1' w2' h1 h2
          simp only [Option.some.injEq] at h1 h2
          subst h1 h2
          refine ⟨hc.pop_queued1 hne, hc.pop_queued2 hl ha hne, ?_, ?_, hc.pending1⟩
          · intro t ht
            simp only [Worker.calling.injEq] at ht
            subst ht
            exact hc.root1 hne
          · intro t ht
            simp only [Worker.calling.injEq] at ht
            subst ht
            exact hc.top2 hl ha hne
        · have hd2 := fun h => hd ((ha.due_iff hl hne).mpr h)
          rw [if_neg hd, if_neg hd2]
          refine ⟨rfl, ?_⟩
          intro w1' w2' h1 h2
          simp only [Option.some.injEq] at h1 h2
          subst h1 h2
          exact ⟨hc.requeue_queued1 hne, hc.queued2, by intro t h; simp at h,
            by intro t h; simp at h, hc.pending1⟩
    · have hw2 := fun h => hw (ha.entered.mpr h)
      rw [if_neg hw, if_neg hw2]
      refine ⟨rfl, ?_⟩
      intro w1' w2' h1
      simp at h1
  | complete =>
    rw [MainCpp.World.step_complete_eq, TaskSchedulerCpp.World.pq_step_complete_eq,
      hc.throwing1, hc.throwing2, ha.isCalling_eq]
    by_cases hk : w2.scheduler.worker.isCalling = true
    · simp only [hk, and_self, if_true]
      refine ⟨rfl, ?_⟩
      intro w1' w2' h1 h2
      simp only [Option.some.injEq] at h1 h2
      subst h1 h2
      exact ⟨hc.queued1, hc.queued2, by intro t h; simp at h, by intro t h; simp at h,
        hc.pending1⟩
    · simp only [hk, false_and, if_false]
      refine ⟨rfl, ?_⟩
      intro w1' w2' h1
      simp at h1

end Caught

namespace TaskSchedulerCpp

theorem ascending_orderedInsert (x : Task) :
    ∀ q : List Task, ascending q →
      ascending (q.orderedInsert (fun a b => a.timestamp < b.timestamp) x) := by
  intro q
  induction q with
  | nil => intro _; simp [ascending]
  | cons a l ih =>
    intro hq
    unfold ascending at hq ih ⊢
    rw [List.sorted_cons] at hq
    rw [List.orderedInsert]
    split
    · rename_i hlt
      rw [List.sorted_cons, List.sorted_cons]
      refine ⟨?_, hq⟩
      intro b hb
      rcases List.mem_cons.mp hb with h | h
      · subst h; omega
      · have := hq.1 b h
        omega
    · rename_i hlt
      rw [List.sorted_cons]
      refine ⟨?_, ih hq.2⟩
      intro b hb
      have hb' := (List.perm_orderedInsert _ x l).subset hb
      rcases List.mem_cons.mp hb' with h | h
      · subst h; omega
      · exact hq.1 b h

theorem stableList_lawful : stableList.Lawful ascending id where
  new_valid := by simp [stableList, ascending]
  new_contents := rfl
  empty_iff := by
    intro q _
    simp [stableList, List.isEmpty_iff]
  top_mem := by
    intro q _ hne
    cases q with
    | nil => exact absurd rfl hne
    | cons a l => simp [stableList]
  top_le := by
    intro q hq t ht
    cases q with
    | nil => simp at ht
    | cons a l =>
      unfold ascending at hq
      rw [List.sorted_cons] at hq
      rcases List.mem_cons.mp ht with h | h
      · subst h; simp [stableList]
      · simpa [stableList] using hq.1 t h
  pop_valid := by
    intro q hq _
    exact List.Sorted.tail hq
  pop_contents := by
    intro q _ hne
    cases q with
    | nil => exact absurd rfl hne
    | cons a l => simp [stableList]
  emplace_valid := by
    intro q task timestamp hq
    exact ascending_orderedInsert _ q hq
  emplace_contents := by
    intro q task timestamp _
    exact List.perm_orderedInsert _ _ _

end TaskSchedulerCpp

namespace Agree

variable {Q : Type} {pq : TaskSchedulerCpp.PriorityQueue Q} {valid : Q → Prop}
  {contents : Q → List Task}

theorem observe_eq {w1 : MainCpp.World} {w2 : TaskSchedulerCpp.World Q}
    (ha : Agree valid contents w1 w2) : w1.observe = w2.observe contents := by
  simp only [MainCpp.World.observe, TaskSchedulerCpp.World.observe, ha.taskCount,
    ha.completedTasks, ha.inputInProgress, ha.running, ha.invoked,
    Multiset.coe_eq_coe.mpr ha.queued]

theorem agree_run (hl : pq.Lawful valid contents) :
    ∀ (events : List MainCpp.Event) (w1 : MainCpp.World) (w2 : TaskSchedulerCpp.World Q),
      Agree valid contents w1 w2 →
      ∀ (w1' : MainCpp.World) (w2' : TaskSchedulerCpp.World Q),
        w1.run events = some w1' → TaskSchedulerCpp.World.run pq w2 events = some w2' →
        Agree valid contents w1' w2' := by
  intro events
  induction events with
  | nil =>
    intro w1 w2 ha w1' w2' h1 h2
    simp only [MainCpp.World.run, TaskSchedulerCpp.World.run, Option.some.injEq] at h1 h2
    subst h1 h2
    exact ha
  | cons e es ih =>
    intro w1 w2 ha w1' w2' h1 h2
    simp only [MainCpp.World.run, TaskSchedulerCpp.World.run, Option.bind_eq_some] at h1 h2
    obtain ⟨u1, hu1, hr1⟩ := h1
    obtain ⟨u2, hu2, hr2⟩ := h2
    exact ih u1 u2 (ha.agree_step hl e u1 u2 hu1 hu2) w1' w2' hr1 hr2

theorem run_caught (hl : pq.Lawful valid contents) :
    ∀ (events : List MainCpp.Event) (w1 : MainCpp.World) (w2 : TaskSchedulerCpp.World Q),
      Agree valid contents w1 w2 → Caught contents w1 w2 →
      (∀ e ∈ events, e.caught) →
      (w1.run events).isSome = (TaskSchedulerCpp.World.run pq w2 events).isSome := by
  intro events
  induction events with
  | nil => intro w1 w2 _ _ _; rfl
  | cons e es ih =>
    intro w1 w2 ha hc he
    have hs := hc.caught_step hl ha e (he e (List.mem_cons_self _ _))
    simp only [MainCpp.World.run, TaskSchedulerCpp.World.run]
    cases h1 : w1.step e with
    | none =>
      cases h2 : TaskSchedulerCpp.World.step pq w2 e with
      | none => rfl
      | some u2 =>
        have := hs.1
        rw [h1, h2] at this
        simp at this
    | some u1 =>
      cases h2 : TaskSchedulerCpp.World.step pq w2 e with
      | none =>
        have := hs.1
        rw [h1, h2] at this
        simp at this
      | some u2 =>
        simp only [Option.some_bind]
        exact ih u1 u2 (ha.agree_step hl e u1 u2 h1 h2) (hs.2 u1 u2 h1 h2)
          (fun e' he' => he e' (List.mem_cons_of_mem _ he'))

end Agree

/-! ## The two schedulers: claims -/

/-- C13 fails when an action throws an object that the worker does not catch
and another task has the same timestamp.  Two tasks are submitted for time 5,
the first with such an action.  In `main.cpp` the second task is at the root of
the heap, since `siftUp` swaps on equal timestamps; the worker calls it, counts
it and then calls the first: `completedTasks` is 1 and two actions were called.
With a priority queue that keeps the first of two equal elements on top, which
the contract allows, the worker of `task_scheduler.cpp` calls the first task,
and the process ends with `completedTasks` 0 and one action called. -/
theorem variants_differ_on_uncaught_tie :
    TaskSchedulerCpp.stableList.Lawful TaskSchedulerCpp.ascending id ∧
    ((MainCpp.World.start 0).run eventsTie).map
        (fun w => (w.scheduler.completedTasks, w.invoked.map Task.timestamp))
      = some (1, [5, 5]) ∧
    ((TaskSchedulerCpp.World.run TaskSchedulerCpp.stableList
        (TaskSchedulerCpp.World.start TaskSchedulerCpp.stableList 0) (eventsTie.take 4)).map
        (fun w => (w.scheduler.completedTasks, w.invoked.map Task.timestamp)))
      = some (0, [5]) ∧
    (TaskSchedulerCpp.World.run TaskSchedulerCpp.stableList
        (TaskSchedulerCpp.World.start TaskSchedulerCpp.stableList 0)
        (eventsTie.take 5)).isSome = false ∧
    (TaskSchedulerCpp.World.run TaskSchedulerCpp.stableList
        (TaskSchedulerCpp.World.start TaskSchedulerCpp.stableList 0) eventsTie).isSome
      = false :=
  ⟨TaskSchedulerCpp.stableList_lawful, by decide, by decide, by decide, by decide⟩

/-- C13, amended: for every priority queue that keeps the contract of
`std::priority_queue` and every sequence of events (calls of `Add`, `StartInput`,
`StopInput`, `Start`, `Stop`, clock ticks, worker steps) applied to both
schedulers from their initial states, if the sequence ends neither process then
the two have the same `taskCount`, `completedTasks`, `inputInProgress` and
`running`, the same multiset of queued timestamps, and have called actions with
the same sequence of timestamps; and if no submitted action throws an object
of a type not derived from `std::exception`, the sequence is possible for one
scheduler exactly when it is for the other, with the same observations.  As
this holds for every sequence, it holds after every event. -/
theorem variants_agree {Q : Type} (pq : TaskSchedulerCpp.PriorityQueue Q)
    (valid : Q → Prop) (contents : Q → List Task) (hl : pq.Lawful valid contents)
    (clock : Int) (events : List MainCpp.Event) :
    (∀ (w1 : MainCpp.World) (w2 : TaskSchedulerCpp.World Q),
      (MainCpp.World.start clock).run events = some w1 →
      TaskSchedulerCpp.World.run pq (TaskSchedulerCpp.World.start pq clock) events = some w2 →
      w1.observe = w2.observe contents) ∧
    ((∀ e ∈ events, e.caught) →
      ((MainCpp.World.start clock).run events).map MainCpp.World.observe
        = (TaskSchedulerCpp.World.run pq (TaskSchedulerCpp.World.start pq clock) events).map
            (TaskSchedulerCpp.World.observe contents)) := by
  have hobs : ∀ (w1 : MainCpp.World) (w2 : TaskSchedulerCpp.World Q),
      (MainCpp.World.start clock).run events = some w1 →
      TaskSchedulerCpp.World.run pq (TaskSchedulerCpp.World.start pq clock) events = some w2 →
      w1.observe = w2.observe contents := by
    intro w1 w2 h1 h2
    exact (Agree.agree_run hl events _ _ (Agree.agree_start hl clock) w1 w2 h1 h2).observe_eq
  refine ⟨hobs, ?_⟩
  intro he
  have hs := Agree.run_caught hl events _ _ (Agree.agree_start hl clock) (Caught.caught_start hl clock) he
  cases h1 : (MainCpp.World.start clock).run events with
  | none =>
    cases h2 : TaskSchedulerCpp.World.run pq (TaskSchedulerCpp.World.start pq clock) events with
    | none => rfl
    | some w2 =>
      rw [h1, h2] at hs
      simp at hs
  | some w1 =>
    cases h2 : TaskSchedulerCpp.World.run pq (TaskSchedulerCpp.World.start pq clock) events with
    | none =>
      rw [h1, h2] at hs
      simp at hs
    | some w2 =>
      simp only [Option.map_some', Option.some.injEq]
      exact hobs w1 w2 h1 h2

/-- C13, amended, at the run `events312` and the priority queue `stableList`. -/
theorem variants_agree_witness :
    TaskSchedulerCpp.stableList.Lawful TaskSchedulerCpp.ascending id ∧
    (∀ e ∈ events312, e.caught) ∧
    ((MainCpp.World.start 100).run events312).map MainCpp.World.observe
      = (TaskSchedulerCpp.World.run TaskSchedulerCpp.stableList
          (TaskSchedulerCpp.World.start TaskSchedulerCpp.stableList 100) events312).map
            (TaskSchedulerCpp.World.observe id) :=
  ⟨TaskSchedulerCpp.stableList_lawful,
    by simp [events312, MainCpp.Event.caught],
    (variants_agree TaskSchedulerCpp.stableList TaskSchedulerCpp.ascending id
      TaskSchedulerCpp.stableList_lawful 100 events312).2
      (by simp [events312, MainCpp.Event.caught])⟩

/-- C17 fails for a timestamp above 9223372036.  The queue holds one task, with
timestamp 9223372037, and the clock value is 0.  The worker of either file
takes the branch `cv.wait_until`, and the deadline that `from_time_t` makes of
the timestamp is the time point -9223372036709551616 (nanoseconds): it lies
before the clock value, not at the timestamp. -/
theorem deadline_wraps :
    from_time_t 9223372037 = -9223372036709551616 ∧
    farTask.workerThreadIterate 0 = (.waitUntil (-9223372036709551616), farTask) ∧
    farTaskPQ.workerThreadIterate TaskSchedulerCpp.stableList 0
      = (.waitUntil (-9223372036709551616), farTaskPQ) :=
  ⟨by decide, by decide, rfl⟩

/-- C17, amended: in a running scheduler with a non-empty queue,
`inputInProgress == false`, every queued timestamp greater than `now` and the
least queued timestamp between -9223372036 and 9223372036, the iteration of the
worker calls no action, leaves the counters and the flags as they are, and
waits with a deadline that is the time point of the least timestamp among all
queued tasks: in `main.cpp`, for a queue in heap order (as in every state of a
run), the timestamp of the task it popped and pushed back; in
`task_scheduler.cpp`, for a priority queue that keeps its contract,
`taskQueue.top().timestamp`, with the scheduler unchanged. -/
theorem waits_until_minimum :
    (∀ (s : MainCpp.TaskScheduler) (now : Int),
      heapOrder s.taskQueue.heap → s.taskQueue.heap ≠ [] → s.running = true →
      s.inputInProgress = false → (∀ t ∈ s.taskQueue.heap, now < t.timestamp) →
      (∀ t ∈ s.taskQueue.heap, (∀ u ∈ s.taskQueue.heap, t.timestamp ≤ u.timestamp) →
        -9223372036 ≤ t.timestamp ∧ t.timestamp ≤ 9223372036) →
      ∃ task, s.taskQueue.pop.1 = .ok task ∧
        s.workerThreadIterate now =
          (.waitUntil (from_time_t task.timestamp),
            { s with taskQueue := s.taskQueue.pop.2.push task }) ∧
        from_time_t task.timestamp = task.timestamp * 1000000000 ∧
        task ∈ s.taskQueue.heap ∧
        (∀ t ∈ s.taskQueue.heap, task.timestamp ≤ t.timestamp) ∧
        ((s.taskQueue.pop.2.push task).heap : Multiset Task)
          = (s.taskQueue.heap : Multiset Task)) ∧
    (∀ (Q : Type) (pq : TaskSchedulerCpp.PriorityQueue Q) (valid : Q → Prop)
      (contents : Q → List Task), pq.Lawful valid contents →
      ∀ (s : TaskSchedulerCpp.TaskScheduler Q) (now : Int),
      valid s.taskQueue → contents s.taskQueue ≠ [] → s.running = true →
      s.inputInProgress = false → (∀ t ∈ contents s.taskQueue, now < t.timestamp) →
      (∀ t ∈ contents s.taskQueue, (∀ u ∈ contents s.taskQueue, t.timestamp ≤ u.timestamp) →
        -9223372036 ≤ t.timestamp ∧ t.timestamp ≤ 9223372036) →
      s.workerThreadIterate pq now
        = (.waitUntil (from_time_t (pq.top s.taskQueue).timestamp), s) ∧
      from_time_t (pq.top s.taskQueue).timestamp
        = (pq.top s.taskQueue).timestamp * 1000000000 ∧
      pq.top s.taskQueue ∈ contents s.taskQueue ∧
      (∀ t ∈ contents s.taskQueue, (pq.top s.taskQueue).timestamp ≤ t.timestamp)) := by
  refine ⟨?_, ?_⟩
  · intro s now hord hne hr hi hlate hrange
    have hroot := BinaryHeap.root_mem _ hne
    have hperm := BinaryHeap.pop_snd_perm s.taskQueue hne
    have hmin := BinaryHeap.root_le_mem _ hord
    have hb := hrange _ hroot hmin
    refine ⟨s.taskQueue.heap[0]!, BinaryHeap.pop_fst _ hne, ?_,
      from_time_t_of_range _ hb.1 hb.2, hroot, hmin, ?_⟩
    · rw [MainCpp.TaskScheduler.workerThreadIterate_eq _ _ hr,
        MainCpp.TaskScheduler.workerThreadBody_eq]
      have hc : ¬ (s.taskQueue.heap = [] ∨ s.inputInProgress = true) := by
        simp [hne, hi]
      have hd : ¬ s.taskQueue.heap[0]!.timestamp ≤ now := by
        have := hlate _ hroot
        omega
      rw [if_neg hc, if_neg hd]
    · rw [Multiset.coe_eq_coe]
      exact ((BinaryHeap.push_perm _ _).trans (List.perm_append_singleton _ _)).trans
        hperm.symm
  · intro Q pq valid contents hl s now hv hne hr hi hlate hrange
    have htop := hl.top_mem _ hv hne
    have hb := hrange _ htop (hl.top_le _ hv)
    refine ⟨?_, from_time_t_of_range _ hb.1 hb.2, htop, hl.top_le _ hv⟩
    have he : pq.empty s.taskQueue = false := by
      cases h : pq.empty s.taskQueue with
      | false => rfl
      | true => exact absurd ((hl.empty_iff _ hv).mp h) hne
    have hd : ¬ (pq.top s.taskQueue).timestamp ≤ now := by
      have := hlate _ htop
      omega
    simp [TaskSchedulerCpp.TaskScheduler.workerThreadIterate,
      TaskSchedulerCpp.TaskScheduler.workerThreadBody, hr, he, hi, hd]

/-- C17, amended, at the queues with timestamps 1, 2 and 3, at clock value 0:
both workers wait until the time point of second 1. -/
theorem waits_until_minimum_witness :
    (heapOrder threeTasks.taskQueue.heap ∧ threeTasks.taskQueue.heap ≠ [] ∧
      (∀ t ∈ threeTasks.taskQueue.heap, (0 : Int) < t.timestamp) ∧
      ∃ task, threeTasks.taskQueue.pop.1 = .ok task ∧
        threeTasks.workerThreadIterate 0 =
          (.waitUntil (from_time_t task.timestamp),
            { threeTasks with taskQueue := threeTasks.taskQueue.pop.2.push task }) ∧
        from_time_t task.timestamp = task.timestamp * 1000000000 ∧
        task ∈ threeTasks.taskQueue.heap ∧
        (∀ t ∈ threeTasks.taskQueue.heap, task.timestamp ≤ t.timestamp) ∧
        ((threeTasks.taskQueue.pop.2.push task).heap : Multiset Task)
          = (threeTasks.taskQueue.heap : Multiset Task)) ∧
    (TaskSchedulerCpp.ascending threeTasksPQ.taskQueue ∧
      threeTasksPQ.workerThreadIterate TaskSchedulerCpp.stableList 0
        = (.waitUntil 1000000000, threeTasksPQ)) :=
  ⟨⟨by decide, by decide, by decide,
      waits_until_minimum.1 threeTasks 0 (by decide) (by decide) rfl rfl (by decide)
        (by decide)⟩,
    ⟨by simp [TaskSchedulerCpp.ascending, threeTasksPQ],
      (waits_until_minimum.2 (List Task) TaskSchedulerCpp.stableList
        TaskSchedulerCpp.ascending id TaskSchedulerCpp.stableList_lawful threeTasksPQ 0
        (by simp [TaskSchedulerCpp.ascending, threeTasksPQ]) (by simp [threeTasksPQ]) rfl rfl
        (by simp [threeTasksPQ]) (by simp [threeTasksPQ])).1⟩⟩

end TimedScheduler
